import Mathlib

/-!
# Zeo shape kernel: box and ellipsoid

A shallow embedding of `zeo_shape_box.c` and `zeo_shape_ellips.c`.

`double` is read as an arbitrary linearly ordered field `K` (the claims are about
exact arithmetic); every definition is computable, so it can be evaluated at `K = ℚ`.
The square root used by `zVec3DDist` is passed as an argument `sqrt`, and the
polynomial solver `zPexBH` used by the ellipsoid is passed as an argument too.
-/

namespace Zeo

/-! ## Vectors, matrices, frames (the algebra library the shapes are built on) -/

/-- Axis index `zDir` / `zAxis`: `zX = 0`, `zY = 1`, `zZ = 2`. -/
inductive zDir where
  | zX : zDir
  | zY : zDir
  | zZ : zDir
  deriving DecidableEq

/-- Modelled from the spec: the 3D vector type `zVec3D` ("3 reals"); the fields are
`e[zX]`, `e[zY]`, `e[zZ]`. -/
@[ext]
structure zVec3D (K : Type) where
  x : K
  y : K
  z : K
  deriving DecidableEq

/-- Modelled from the spec: the 3x3 matrix type `zMat3D`, stored by columns
("columns = local X/Y/Z unit axes"): `v0`, `v1`, `v2` are `v[0]`, `v[1]`, `v[2]`. -/
@[ext]
structure zMat3D (K : Type) where
  v0 : zVec3D K
  v1 : zVec3D K
  v2 : zVec3D K
  deriving DecidableEq

/-- Modelled from the spec: the frame type `zFrame3D`, "origin point + attitude". -/
@[ext]
structure zFrame3D (K : Type) where
  pos : zVec3D K
  att : zMat3D K
  deriving DecidableEq

/-- Modelled from the spec: complex number `zComplex` as returned by the root solver. -/
@[ext]
structure zComplex (K : Type) where
  re : K
  im : K
  deriving DecidableEq

section Algebra

variable {K : Type} [LinearOrderedField K]

/-- Component access `v->e[d]`. -/
def zVec3D.e (v : zVec3D K) : zDir → K
  | zDir.zX => v.x
  | zDir.zY => v.y
  | zDir.zZ => v.z

/-- Column access `m->v[d]`. -/
def zMat3D.v (m : zMat3D K) : zDir → zVec3D K
  | zDir.zX => m.v0
  | zDir.zY => m.v1
  | zDir.zZ => m.v2

/-- Modelled from the spec: the tolerance constant `zTOL` (`1.0e-12`), the "fixed
numerical tolerance" of rim mode and of the real-root test. -/
def zTOL : K := 1 / 10 ^ 12

/-- Modelled from the spec: the macro `zSqr(x)`, the square of `x`. -/
def zSqr (x : K) : K := x * x

/-- Modelled from the spec: the macro `zIsTiny(x)`, "within numerical tolerance of zero":
`fabs(x) <= zTOL`. -/
def zIsTiny (x : K) : Bool := decide (|x| ≤ zTOL)

/-- Modelled from the spec: the macro `zLimit(x,l,u)` that clamps `x` to `[l,u]`:
`x <= l ? l : ( x >= u ? u : x )`. -/
def zLimit (x l u : K) : K := if x ≤ l then l else if x ≥ u then u else x

/-- Modelled from the spec: vector addition `zVec3DAdd`. -/
def zVec3DAdd (a b : zVec3D K) : zVec3D K := ⟨a.x + b.x, a.y + b.y, a.z + b.z⟩

/-- Modelled from the spec: vector subtraction `zVec3DSub`. -/
def zVec3DSub (a b : zVec3D K) : zVec3D K := ⟨a.x - b.x, a.y - b.y, a.z - b.z⟩

/-- Modelled from the spec: inner product `zVec3DInnerProd`. -/
def zVec3DInnerProd (a b : zVec3D K) : K := a.x * b.x + a.y * b.y + a.z * b.z

/-- Modelled from the spec: squared Euclidean norm `zVec3DSqrNorm`. -/
def zVec3DSqrNorm (a : zVec3D K) : K := zVec3DInnerProd a a

/-- Modelled from the spec: `zVec3DDist`, "the Euclidean norm between" two points,
the square root of the squared norm of their difference. -/
def zVec3DDist (sqrt : K → K) (a b : zVec3D K) : K := sqrt (zVec3DSqrNorm (zVec3DSub a b))

/-- Modelled from the spec: `zMulMat3DVec3D`, the product `m v` of a matrix and a vector. -/
def zMulMat3DVec3D (m : zMat3D K) (v : zVec3D K) : zVec3D K :=
  ⟨m.v0.x * v.x + m.v1.x * v.y + m.v2.x * v.z,
   m.v0.y * v.x + m.v1.y * v.y + m.v2.y * v.z,
   m.v0.z * v.x + m.v1.z * v.y + m.v2.z * v.z⟩

/-- Modelled from the spec: `zMulMat3DTVec3D`, the product `mᵀ v` of the transpose of a
matrix and a vector. -/
def zMulMat3DTVec3D (m : zMat3D K) (v : zVec3D K) : zVec3D K :=
  ⟨zVec3DInnerProd m.v0 v, zVec3DInnerProd m.v1 v, zVec3DInnerProd m.v2 v⟩

/-- Modelled from the spec: `zXform3D`, the "forward point transform" of a frame:
`att v + pos`. -/
def zXform3D (f : zFrame3D K) (v : zVec3D K) : zVec3D K :=
  zVec3DAdd (zMulMat3DVec3D f.att v) f.pos

/-- Modelled from the spec: `zXform3DInv`, the "inverse point transform" of a frame:
`attᵀ (v - pos)`. -/
def zXform3DInv (f : zFrame3D K) (v : zVec3D K) : zVec3D K :=
  zMulMat3DTVec3D f.att (zVec3DSub v f.pos)

/-- Modelled from the spec: `zXform3DDRC`, the forward transform written back over its
argument. -/
def zXform3DDRC (f : zFrame3D K) (v : zVec3D K) : zVec3D K := zXform3D f v

/-- The identity attitude. -/
def zMat3DIdent : zMat3D K := ⟨⟨1, 0, 0⟩, ⟨0, 1, 0⟩, ⟨0, 0, 1⟩⟩

/-- The frame invariant of the data model: "attitude columns are unit length and
mutually orthogonal". -/
def zMat3D.Orthonormal (m : zMat3D K) : Prop :=
  zVec3DInnerProd m.v0 m.v0 = 1 ∧ zVec3DInnerProd m.v1 m.v1 = 1 ∧
  zVec3DInnerProd m.v2 m.v2 = 1 ∧ zVec3DInnerProd m.v0 m.v1 = 0 ∧
  zVec3DInnerProd m.v1 m.v2 = 0 ∧ zVec3DInnerProd m.v2 m.v0 = 0

/-- What the claims assume of the square root: on non-negative arguments it is the
non-negative real square root. -/
def IsSqrt (sqrt : K → K) : Prop := ∀ x : K, 0 ≤ x → 0 ≤ sqrt x ∧ sqrt x * sqrt x = x

end Algebra

/-! ## Box -/

/-- Modelled from the spec: the record `zBox3D`, "Frame + three extents (depth, width,
height)"; `dia.e[zX]`, `dia.e[zY]`, `dia.e[zZ]` are depth, width, height. -/
@[ext]
structure zBox3D (K : Type) where
  f : zFrame3D K
  dia : zVec3D K
  deriving DecidableEq

section Box

variable {K : Type} [LinearOrderedField K]

/-- Modelled from the spec: the accessor macro `zBox3DCenter` of the record. -/
def zBox3DCenter (box : zBox3D K) : zVec3D K := box.f.pos

/-- Modelled from the spec: the accessor macro `zBox3DAxis(box,i)` of the record. -/
def zBox3DAxis (box : zBox3D K) (i : zDir) : zVec3D K := box.f.att.v i

/-- Modelled from the spec: the accessor macro `zBox3DDia(box,d)` of the record. -/
def zBox3DDia (box : zBox3D K) (d : zDir) : K := box.dia.e d

/-- Modelled from the spec: the accessor macro `zBox3DDepth` of the record. -/
def zBox3DDepth (box : zBox3D K) : K := zBox3DDia box zDir.zX

/-- Modelled from the spec: the accessor macro `zBox3DWidth` of the record. -/
def zBox3DWidth (box : zBox3D K) : K := zBox3DDia box zDir.zY

/-- Modelled from the spec: the accessor macro `zBox3DHeight` of the record. -/
def zBox3DHeight (box : zBox3D K) : K := zBox3DDia box zDir.zZ

/-- `zBox3DCreate`: stores centre and axes, and the absolute values of the extents. -/
def zBox3DCreate (c ax ay az : zVec3D K) (d w h : K) : zBox3D K :=
  ⟨⟨c, ⟨ax, ay, az⟩⟩, ⟨|d|, |w|, |h|⟩⟩

/-- `zBox3DXform`: transform the centre by the frame, the axes by its attitude, and
copy the extents. -/
def zBox3DXform (src : zBox3D K) (f : zFrame3D K) : zBox3D K :=
  ⟨⟨zXform3D f (zBox3DCenter src),
    ⟨zMulMat3DVec3D f.att (zBox3DAxis src zDir.zX),
     zMulMat3DVec3D f.att (zBox3DAxis src zDir.zY),
     zMulMat3DVec3D f.att (zBox3DAxis src zDir.zZ)⟩⟩,
   ⟨zBox3DDepth src, zBox3DWidth src, zBox3DHeight src⟩⟩

/-- `zBox3DXformInv`: transform the centre by the inverse of the frame, the axes by the
transpose of its attitude, and copy the extents. -/
def zBox3DXformInv (src : zBox3D K) (f : zFrame3D K) : zBox3D K :=
  ⟨⟨zXform3DInv f (zBox3DCenter src),
    ⟨zMulMat3DTVec3D f.att (zBox3DAxis src zDir.zX),
     zMulMat3DTVec3D f.att (zBox3DAxis src zDir.zY),
     zMulMat3DTVec3D f.att (zBox3DAxis src zDir.zZ)⟩⟩,
   ⟨zBox3DDepth src, zBox3DWidth src, zBox3DHeight src⟩⟩

/-- `zBox3DClosest`: the returned distance and the closest point written to `cp`.
The loop over `d = zX..zZ` clamps each local coordinate between
`min = -0.5*dia[d]` and `max = 0.5*dia[d]`. -/
def zBox3DClosest (sqrt : K → K) (box : zBox3D K) (p : zVec3D K) : K × zVec3D K :=
  let _p := zXform3DInv box.f p
  let lim : zDir → K := fun d =>
    zLimit (_p.e d) (-(1 / 2) * zBox3DDia box d) ((1 / 2) * zBox3DDia box d)
  let cp : zVec3D K := ⟨lim zDir.zX, lim zDir.zY, lim zDir.zZ⟩
  let cp := zXform3DDRC box.f cp
  (zVec3DDist sqrt p cp, cp)

/-- `zBox3DPointIsInside`: the loop over `d = zX..zZ` returns false at the first axis
with `err.e[d] > l || err.e[d] < -l`, and true when no axis fails. -/
def zBox3DPointIsInside (box : zBox3D K) (p : zVec3D K) (rim : Bool) : Bool :=
  let err := zXform3DInv box.f p
  [zDir.zX, zDir.zY, zDir.zZ].all fun d =>
    let l := (1 / 2) * zBox3DDia box d
    let l := if rim then l + zTOL else l
    !(decide (err.e d > l) || decide (err.e d < -l))

end Box

/-! ## Ellipsoid -/

/-- Modelled from the spec: the record `zEllips3D`, "Frame + three semi-axis radii
(rx, ry, rz) + a tessellation division count"; `rad.e[zX]`, `rad.e[zY]`, `rad.e[zZ]`
are rx, ry, rz. -/
@[ext]
structure zEllips3D (K : Type) where
  f : zFrame3D K
  rad : zVec3D K
  div : Int
  deriving DecidableEq

section Ellips

variable {K : Type} [LinearOrderedField K]

/-- Modelled from the spec: the accessor macro `zEllips3DCenter` of the record. -/
def zEllips3DCenter (ellips : zEllips3D K) : zVec3D K := ellips.f.pos

/-- Modelled from the spec: the accessor macro `zEllips3DAxis(ellips,i)` of the record. -/
def zEllips3DAxis (ellips : zEllips3D K) (i : zDir) : zVec3D K := ellips.f.att.v i

/-- Modelled from the spec: the accessor macro `zEllips3DRadiusX` of the record. -/
def zEllips3DRadiusX (ellips : zEllips3D K) : K := ellips.rad.e zDir.zX

/-- Modelled from the spec: the accessor macro `zEllips3DRadiusY` of the record. -/
def zEllips3DRadiusY (ellips : zEllips3D K) : K := ellips.rad.e zDir.zY

/-- Modelled from the spec: the accessor macro `zEllips3DRadiusZ` of the record. -/
def zEllips3DRadiusZ (ellips : zEllips3D K) : K := ellips.rad.e zDir.zZ

/-- Modelled from the spec: the accessor macro `zEllips3DDiv` of the record. -/
def zEllips3DDiv (ellips : zEllips3D K) : Int := ellips.div

/-- `zEllips3DPointIsInside`: the normalized quadric sum `l` of the local coordinates,
plus `zTOL` when `rim` is set, is compared with one: `l < 1.0`. -/
def zEllips3DPointIsInside (ellips : zEllips3D K) (p : zVec3D K) (rim : Bool) : Bool :=
  let _p := zXform3DInv ellips.f p
  let l := zSqr (_p.e zDir.zX / zEllips3DRadiusX ellips)
    + zSqr (_p.e zDir.zY / zEllips3DRadiusY ellips)
    + zSqr (_p.e zDir.zZ / zEllips3DRadiusZ ellips)
  let l := if rim then l + zTOL else l
  if l < 1 then true else false

/-- The coefficients, from degree 0 to degree 6, that `_zEllips3DClosest` stores in the
polynomial `pex` with `zPexSetCoeff`. -/
def zEllips3DClosestPex (rx ry rz : K) (v : zVec3D K) : List K :=
  let a := zSqr (v.e zDir.zX / rx)
  let b := zSqr (v.e zDir.zY / ry)
  let c := zSqr (v.e zDir.zZ / rz)
  let p := rx * rx
  let p2 := p * p
  let q := ry * ry
  let q2 := q * q
  let r := rz * rz
  let r2 := r * r
  let pqr := p * q * r
  [ (1 - a - b - c) * pqr * pqr,
    2 * pqr * ((1 - b - a) * p * q + (1 - a - c) * r * p + (1 - c - b) * q * r),
    (1 - b - a) * p2 * q2 + (1 - a - c) * p2 * r2 + (1 - c - b) * q2 * r2
      + 4 * pqr * ((1 - a) * p + (1 - b) * q + (1 - c) * r),
    2 * (1 - a) * (q + r) * p2 + 2 * (1 - b) * (r + p) * q2 + 2 * (1 - c) * (p + q) * r2
      + 8 * p * q * r,
    (1 - a) * p2 + (1 - c) * r2 + (1 - b) * q2 + 4 * (p * q + q * r + r * p),
    2 * (p + q + r),
    1 ]

/-- `_zEllips3DClosest`, the closest point to an aligned ellipsoid; `none` is the
`NULL` return, after which `cp` has not been written.

* `pexAlloc` tells whether `zPexAlloc( 6 )` succeeds;
* `zPexBH` is the root solver: from the coefficients to the array `ans[6]`.

The loop `for( i=0; i<6; i++ ) if( ( l = ans[i].re ) >= 0 ) break;` stops at the first
index whose real part is non-negative. -/
def _zEllips3DClosest (pexAlloc : Bool) (zPexBH : List K → Fin 6 → zComplex K)
    (rx ry rz : K) (v : zVec3D K) : Option (zVec3D K) :=
  let p := rx * rx
  let q := ry * ry
  let r := rz * rz
  if !pexAlloc then none
  else
    let ans := zPexBH (zEllips3DClosestPex rx ry rz v)
    match (List.finRange 6).find? (fun i => decide ((ans i).re ≥ 0)) with
    | none => none
    | some i =>
      if !zIsTiny (ans i).im then none
      else
        let l := (ans i).re
        some ⟨v.e zDir.zX / (1 + l / p), v.e zDir.zY / (1 + l / q), v.e zDir.zZ / (1 + l / r)⟩

/-- `zEllips3DClosest`: the returned distance and the content of `cp` on return.
`cp0` is the content of the caller's buffer `cp` on entry: the return value of
`_zEllips3DClosest` is not examined, so when it is `NULL` the buffer still holds `cp0`
when `zXform3DDRC` is applied to it. -/
def zEllips3DClosest (sqrt : K → K) (pexAlloc : Bool) (zPexBH : List K → Fin 6 → zComplex K)
    (ellips : zEllips3D K) (p : zVec3D K) (cp0 : zVec3D K) : K × zVec3D K :=
  if zEllips3DPointIsInside ellips p true then (0, p)
  else
    let pi := zXform3DInv ellips.f p
    let cp := match _zEllips3DClosest pexAlloc zPexBH (zEllips3DRadiusX ellips)
        (zEllips3DRadiusY ellips) (zEllips3DRadiusZ ellips) pi with
      | some c => c
      | none => cp0
    let cp := zXform3DDRC ellips.f cp
    (zVec3DDist sqrt p cp, cp)

end Ellips

/-! ## Specification-side predicates -/

section SpecPredicates

variable {K : Type} [LinearOrderedField K]

/-- A point of the box: "occupying [-extent/2, +extent/2] per axis" in the local frame. -/
def zBox3DContains (box : zBox3D K) (q : zVec3D K) : Prop :=
  ∀ d : zDir, -(zBox3DDia box d / 2) ≤ (zXform3DInv box.f q).e d ∧
    (zXform3DInv box.f q).e d ≤ zBox3DDia box d / 2

/-- The half extent along `d`, plus `zTOL` in rim mode: the bound `l` of
`zBox3DPointIsInside`. -/
def zBox3DRimBound (box : zBox3D K) (rim : Bool) (d : zDir) : K :=
  zBox3DDia box d / 2 + (if rim then zTOL else 0)

end SpecPredicates

/-! ## Specification of the root solver -/

section SolverSpec

variable {K : Type} [LinearOrderedField K]

/-- Complex addition. -/
def zComplexAdd (a b : zComplex K) : zComplex K := ⟨a.re + b.re, a.im + b.im⟩

/-- Complex subtraction. -/
def zComplexSub (a b : zComplex K) : zComplex K := ⟨a.re - b.re, a.im - b.im⟩

/-- Complex multiplication. -/
def zComplexMul (a b : zComplex K) : zComplex K :=
  ⟨a.re * b.re - a.im * b.im, a.re * b.im + a.im * b.re⟩

/-- The value at the complex number `z` of the polynomial with the real coefficients `c`,
listed from degree 0 upwards (Horner scheme). -/
def zPexCVal (c : List K) (z : zComplex K) : zComplex K :=
  c.foldr (fun a acc => zComplexAdd ⟨a, 0⟩ (zComplexMul z acc)) ⟨0, 0⟩

/-- The product `(z - ans[0]) (z - ans[1]) ... (z - ans[5])`. -/
def zRootProd (ans : Fin 6 → zComplex K) (z : zComplex K) : zComplex K :=
  ((List.finRange 6).map fun i => zComplexSub z (ans i)).foldr zComplexMul ⟨1, 0⟩

/-- An exact root finder: the array `ans` holds the six complex roots of the monic
sextic with coefficients `c`, with their multiplicities and in any order, that is, the
sextic is the product of the six factors `z - ans[i]`. -/
def IsExactRoots (c : List K) (ans : Fin 6 → zComplex K) : Prop :=
  ∀ z : zComplex K, zPexCVal c z = zRootProd ans z

/-- The six roots 1, -3, -1, -1, -1, -1 of the sextic built for the unit sphere and the
point (2,0,0), stored in the order -1, -3, -1, 1, -1, -1 whatever the coefficients: the
solver result used at the concrete inputs below. -/
def zPexBHUnitSphere : List K → Fin 6 → zComplex K :=
  fun _ => ![⟨-1, 0⟩, ⟨-3, 0⟩, ⟨-1, 0⟩, ⟨1, 0⟩, ⟨-1, 0⟩, ⟨-1, 0⟩]

end SolverSpec

/-! ## Matrices, mirror, mass properties and mesh of the shapes -/

/-- Modelled from the spec: the polyhedron `zPH3D`, "ordered sequence of vertices" and
"ordered sequence of triangular faces, each a 3-tuple of vertex indices"; a face holds
the positions in `vert` of the three vertices that `zTri3DCreate` is given. -/
structure zPH3D (K : Type) where
  vert : List (zVec3D K)
  face : List (Nat × Nat × Nat)

section Shapes

variable {K : Type} [LinearOrderedField K]

/-- Modelled from the spec: outer (cross) product `zVec3DOuterProd`. -/
def zVec3DOuterProd (a b : zVec3D K) : zVec3D K :=
  ⟨a.y * b.z - a.z * b.y, a.z * b.x - a.x * b.z, a.x * b.y - a.y * b.x⟩

/-- The assignment `v->e[axis] *= -1`. -/
def zVec3DMirrorAxis (v : zVec3D K) : zDir → zVec3D K
  | zDir.zX => ⟨v.x * -1, v.y, v.z⟩
  | zDir.zY => ⟨v.x, v.y * -1, v.z⟩
  | zDir.zZ => ⟨v.x, v.y, v.z * -1⟩

/-- Modelled from the spec: `zMat3DCreate`, the matrix with the nine given entries,
listed row by row. -/
def zMat3DCreate (a11 a12 a13 a21 a22 a23 a31 a32 a33 : K) : zMat3D K :=
  ⟨⟨a11, a21, a31⟩, ⟨a12, a22, a32⟩, ⟨a13, a23, a33⟩⟩

/-- Modelled from the spec: `zMulMat3DMat3D`, the product `m1 m2` of two matrices. -/
def zMulMat3DMat3D (m1 m2 : zMat3D K) : zMat3D K :=
  ⟨zMulMat3DVec3D m1 m2.v0, zMulMat3DVec3D m1 m2.v1, zMulMat3DVec3D m1 m2.v2⟩

/-- Modelled from the spec: `zMulMat3DMat3DT`, the product `m1 m2ᵀ` of a matrix and the
transpose of another. -/
def zMulMat3DMat3DT (m1 m2 : zMat3D K) : zMat3D K :=
  ⟨zMulMat3DVec3D m1 ⟨m2.v0.x, m2.v1.x, m2.v2.x⟩,
   zMulMat3DVec3D m1 ⟨m2.v0.y, m2.v1.y, m2.v2.y⟩,
   zMulMat3DVec3D m1 ⟨m2.v0.z, m2.v1.z, m2.v2.z⟩⟩

/-- Modelled from the spec: `zRotMat3D`, the sandwich "R · local_inertia · Rᵗ",
computed as `(r m) rᵀ`. -/
def zRotMat3D (r m : zMat3D K) : zMat3D K := zMulMat3DMat3DT (zMulMat3DMat3D r m) r

/-- `zBox3DCopy`: the copy is made by `zBox3DCreate` from the fields of `src`. -/
def zBox3DCopy (src : zBox3D K) : zBox3D K :=
  zBox3DCreate (zBox3DCenter src) (zBox3DAxis src zDir.zX) (zBox3DAxis src zDir.zY)
    (zBox3DAxis src zDir.zZ) (zBox3DDepth src) (zBox3DWidth src) (zBox3DHeight src)

/-- `zBox3DMirror`: copy `src`, then multiply by -1 the component `axis` of the centre
and of the three axis vectors. -/
def zBox3DMirror (src : zBox3D K) (axis : zDir) : zBox3D K :=
  let dest := zBox3DCopy src
  ⟨⟨zVec3DMirrorAxis (zBox3DCenter dest) axis,
    ⟨zVec3DMirrorAxis (zBox3DAxis dest zDir.zX) axis,
     zVec3DMirrorAxis (zBox3DAxis dest zDir.zY) axis,
     zVec3DMirrorAxis (zBox3DAxis dest zDir.zZ) axis⟩⟩,
   dest.dia⟩

/-- `zBox3DVolume`: `depth * width * height`. -/
def zBox3DVolume (box : zBox3D K) : K := zBox3DDepth box * zBox3DWidth box * zBox3DHeight box

/-- `zBox3DInertia`: the diagonal matrix of the principal moments, rotated by the
attitude of the box. -/
def zBox3DInertia (box : zBox3D K) : zMat3D K :=
  let c := zBox3DVolume box / 12
  let xx := zSqr (zBox3DDepth box) * c
  let yy := zSqr (zBox3DWidth box) * c
  let zz := zSqr (zBox3DHeight box) * c
  let i := zMat3DCreate (yy + zz) 0 0 0 (zz + xx) 0 0 0 (xx + yy)
  zRotMat3D box.f.att i

/-- `zBox3DVert`: the `i`-th vertex; the signs of the three half extents are chosen by
`(i&0x1)^(i>>1&0x1)`, `i&0x2` and `i&0x4` (non-zero means negative), and the point is
transformed by the frame. -/
def zBox3DVert (box : zBox3D K) (i : Nat) : zVec3D K :=
  let v : zVec3D K :=
    ⟨if ((i &&& 0x1) ^^^ ((i >>> 1) &&& 0x1)) ≠ 0
        then -(1 / 2) * zBox3DDepth box else (1 / 2) * zBox3DDepth box,
     if (i &&& 0x2) ≠ 0 then -(1 / 2) * zBox3DWidth box else (1 / 2) * zBox3DWidth box,
     if (i &&& 0x4) ≠ 0 then -(1 / 2) * zBox3DHeight box else (1 / 2) * zBox3DHeight box⟩
  zXform3DDRC box.f v

/-- The macro `__zBox3DToPH_tri(p,i,i1,i2,i3,i4)`: face `i` is the triangle of the
vertices `i1, i2, i3` and face `i+1` the triangle of the vertices `i1, i3, i4`. -/
def __zBox3DToPH_tri (face : List (Nat × Nat × Nat)) (i i1 i2 i3 i4 : Nat) :
    List (Nat × Nat × Nat) :=
  (face.set i (i1, i2, i3)).set (i + 1) (i1, i3, i4)

/-- `zBox3DToPH`: `none` is the `NULL` return when `zPH3DAlloc( ph, 8, 12 )` fails
(`phAlloc = false`); otherwise the 8 vertices are written by `zBox3DVert` and the 12
faces by six uses of `__zBox3DToPH_tri`. -/
def zBox3DToPH (phAlloc : Bool) (box : zBox3D K) : Option (zPH3D K) :=
  if !phAlloc then none
  else
    let vert := (List.range 8).map (zBox3DVert box)
    let face : List (Nat × Nat × Nat) := List.replicate 12 (0, 0, 0)
    let face := __zBox3DToPH_tri face 0 0 1 2 3
    let face := __zBox3DToPH_tri face 2 0 4 5 1
    let face := __zBox3DToPH_tri face 4 1 5 6 2
    let face := __zBox3DToPH_tri face 6 2 6 7 3
    let face := __zBox3DToPH_tri face 8 3 7 4 0
    let face := __zBox3DToPH_tri face 10 7 6 5 4
    some ⟨vert, face⟩

/-- `zEllips3DCreate`: stores centre and axes, the absolute values of the radii, and the
division count, replaced by the default when it is zero. The constant
`ZEO_SHAPE_DEFAULT_DIV` is an argument. -/
def zEllips3DCreate (ZEO_SHAPE_DEFAULT_DIV : Int) (c ax ay az : zVec3D K) (rx ry rz : K)
    (div : Int) : zEllips3D K :=
  ⟨⟨c, ⟨ax, ay, az⟩⟩, ⟨|rx|, |ry|, |rz|⟩, if div = 0 then ZEO_SHAPE_DEFAULT_DIV else div⟩

/-- `zEllips3DCopy`: the copy is made by `zEllips3DCreate` from the fields of `src`. -/
def zEllips3DCopy (ZEO_SHAPE_DEFAULT_DIV : Int) (src : zEllips3D K) : zEllips3D K :=
  zEllips3DCreate ZEO_SHAPE_DEFAULT_DIV (zEllips3DCenter src) (zEllips3DAxis src zDir.zX)
    (zEllips3DAxis src zDir.zY) (zEllips3DAxis src zDir.zZ) (zEllips3DRadiusX src)
    (zEllips3DRadiusY src) (zEllips3DRadiusZ src) (zEllips3DDiv src)

/-- `zEllips3DVolume`: `4.0*zPI*rx*ry*rz/3.0`; the constant `zPI` is an argument. -/
def zEllips3DVolume (zPI : K) (ellips : zEllips3D K) : K :=
  4 * zPI * zEllips3DRadiusX ellips * zEllips3DRadiusY ellips * zEllips3DRadiusZ ellips / 3

/-- `zEllips3DInertia`: the diagonal matrix of the principal moments, rotated by the
attitude of the ellipsoid; `vol` is `0.2` times the volume. -/
def zEllips3DInertia (zPI : K) (ellips : zEllips3D K) : zMat3D K :=
  let vol := (1 / 5) * zEllips3DVolume zPI ellips
  let xx := zSqr (zEllips3DRadiusX ellips) * vol
  let yy := zSqr (zEllips3DRadiusY ellips) * vol
  let zz := zSqr (zEllips3DRadiusZ ellips) * vol
  let i := zMat3DCreate (yy + zz) 0 0 0 (zz + xx) 0 0 0 (xx + yy)
  zRotMat3D ellips.f.att i

/-- Modelled from the spec: the accessor macro `zPH3DVert(ph,i)`, the `i`-th vertex of
the polyhedron. -/
def zPH3DVert (ph : zPH3D K) (i : Nat) : zVec3D K := ph.vert.getD i ⟨0, 0, 0⟩

/-- The attitude as a matrix of the matrix library: entry `(i, j)` is component `i` of
column `j`. -/
def zMat3D.toMatrix (m : zMat3D K) : Matrix (Fin 3) (Fin 3) K :=
  Matrix.of fun i j => ![![m.v0.x, m.v1.x, m.v2.x], ![m.v0.y, m.v1.y, m.v2.y],
    ![m.v0.z, m.v1.z, m.v2.z]] i j

/-- The determinant of a matrix, as the triple product of its columns. -/
def zMat3DDet (m : zMat3D K) : K := zVec3DInnerProd (zVec3DOuterProd m.v0 m.v1) m.v2

/-- A right-handed frame: the third axis is the outer product of the first two. -/
def zMat3D.RightHanded (m : zMat3D K) : Prop := zVec3DOuterProd m.v0 m.v1 = m.v2

/-- Three points are collinear when the outer product of the two edge vectors from the
first one vanishes. -/
def zCollinear (a b c : zVec3D K) : Prop :=
  zVec3DOuterProd (zVec3DSub b a) (zVec3DSub c a) = ⟨0, 0, 0⟩

/-- A triangle of the mesh is wound outward with respect to the point `o` when its
normal `(v1-v0) x (v2-v0)` has a positive inner product with `v0 - o`. -/
def zOutward (o v0 v1 v2 : zVec3D K) : Prop :=
  0 < zVec3DInnerProd (zVec3DOuterProd (zVec3DSub v1 v0) (zVec3DSub v2 v0)) (zVec3DSub v0 o)

/-- A half extent with a sign: negative when the flag is set. -/
def zSigned (neg : Bool) (x : K) : K := if neg then -x else x

/-- The three sign tests of `zBox3DVert` on the vertex index: `(i&0x1)^(i>>1&0x1)`,
`i&0x2` and `i&0x4` (true means non-zero, that is a negative coordinate). -/
def zBox3DVertSign (i : Nat) : Bool × Bool × Bool :=
  (decide (((i &&& 0x1) ^^^ ((i >>> 1) &&& 0x1)) ≠ 0), decide ((i &&& 0x2) ≠ 0),
    decide ((i &&& 0x4) ≠ 0))

/-- A corner of the local box: the sign combination `s` of the half extents
(± depth/2, ± width/2, ± height/2). -/
def zBox3DCorner (box : zBox3D K) (s : Bool × Bool × Bool) : zVec3D K :=
  ⟨zSigned s.1 (zBox3DDepth box / 2), zSigned s.2.1 (zBox3DWidth box / 2),
    zSigned s.2.2 (zBox3DHeight box / 2)⟩

end Shapes

/-! ## Mesh of the ellipsoid and real values of the sextic -/

section EllipsMesh

variable {K : Type} [LinearOrderedField K]

/-- Modelled from the spec: `zVec3DMul`, the product of a vector by a scalar. -/
def zVec3DMul (v : zVec3D K) (k : K) : zVec3D K := ⟨v.x * k, v.y * k, v.z * k⟩

/-- Modelled from the spec: the constant vector `ZVEC3DZ`, the unit vector along z. -/
def ZVEC3DZ : zVec3D K := ⟨0, 0, 1⟩

/-- The value at the real number `x` of the polynomial with the coefficients `c`, listed
from degree 0 upwards (Horner scheme). -/
def zPexVal (c : List K) (x : K) : K := c.foldr (fun a acc => a + x * acc) 0

/-- The content of a buffer after a sequence of writes `buf[n] = x`, given in the order
in which they are made as pairs `(n, x)`. -/
def zPH3DWrite {α : Type} (buf : List α) (log : List (Nat × α)) : List α :=
  log.foldl (fun b w => b.set w.1 w.2) buf

/-- The inner loop `for( j=0; j<div; j++, n++ )` of the general vertices of
`zEllips3DToPH`, for the ring `i`, with the body `vert[n] = ...`; the state is the
counter `n` and the writes made so far. The constant `zPI` and the function
`zVec3DCreatePolar` are arguments; `zPIx2` is `2 * zPI`. -/
def zEllips3DToPHVertRing (zPI : K) (zVec3DCreatePolar : K → K → K → zVec3D K)
    (ellips : zEllips3D K) (i : Nat) (s : Nat × List (Nat × zVec3D K)) :
    Nat × List (Nat × zVec3D K) :=
  (List.range (zEllips3DDiv ellips).toNat).foldl
    (fun (s : Nat × List (Nat × zVec3D K)) (j : Nat) =>
      let theta := 2 * zPI * (j : K) / ((zEllips3DDiv ellips : Int) : K)
      let tmp := zVec3DCreatePolar 1 (zPI * (i : K) / ((zEllips3DDiv ellips : Int) : K))
        theta
      let tmp : zVec3D K := ⟨tmp.x * zEllips3DRadiusX ellips,
        tmp.y * zEllips3DRadiusY ellips, tmp.z * zEllips3DRadiusZ ellips⟩
      (s.1 + 1, s.2 ++ [(s.1, zXform3D ellips.f tmp)]))
    s

/-- The writes `vert[n] = ...` of `zEllips3DToPH`, in order: the north pole at 0, the
general vertices in the loops `for( n=1, i=1; i<div; i++ ) for( j=0; j<div; j++, n++ )`,
and the south pole at the final `n`. -/
def zEllips3DToPHVert (zPI : K) (zVec3DCreatePolar : K → K → K → zVec3D K)
    (ellips : zEllips3D K) : List (Nat × zVec3D K) :=
  let north : List (Nat × zVec3D K) :=
    [(0, zXform3D ellips.f (zVec3DMul ZVEC3DZ (zEllips3DRadiusZ ellips)))]
  let s := (List.range' 1 ((zEllips3DDiv ellips).toNat - 1)).foldl
    (fun (s : Nat × List (Nat × zVec3D K)) (i : Nat) =>
      zEllips3DToPHVertRing zPI zVec3DCreatePolar ellips i s)
    (1, north)
  s.2 ++ [(s.1, zXform3D ellips.f (zVec3DMul ZVEC3DZ (-zEllips3DRadiusZ ellips)))]

/-- The arctic loop `for( n=0, i=1, j=div; i<=div; j=i++ )` with the body
`face[n++] = (0, i, j)`; the result is the final `n` and the writes. -/
def zEllips3DToPHArctic (div : Nat) : Nat × List (Nat × (Nat × Nat × Nat)) :=
  let s := (List.range' 1 div).foldl
    (fun (s : Nat × Nat × List (Nat × (Nat × Nat × Nat))) (i : Nat) =>
      (i, s.2.1 + 1, s.2.2 ++ [(s.2.1, (0, i, s.1))]))
    (div, 0, [])
  s.2

/-- The inner loop `for( j=0, k=(i-1)*div+1, l=i*div; j<div; j++, l=k++ )` of the general
faces, with the body `face[n++] = (l, k, k-div); face[n++] = (l, k-div, l-div)`; the
state is `(k, l, n, writes)`. -/
def zEllips3DToPHRing (div i : Nat) (s : Nat × List (Nat × (Nat × Nat × Nat))) :
    Nat × List (Nat × (Nat × Nat × Nat)) :=
  let r := (List.range div).foldl
    (fun (r : Nat × Nat × Nat × List (Nat × (Nat × Nat × Nat))) (_ : Nat) =>
      (r.1 + 1, r.1, r.2.2.1 + 2,
        r.2.2.2 ++ [(r.2.2.1, (r.2.1, r.1, r.1 - div)),
          (r.2.2.1 + 1, (r.2.1, r.1 - div, r.2.1 - div))]))
    ((i - 1) * div + 1, i * div, s.1, s.2)
  r.2.2

/-- The loop `for( i=2; i<div; i++ )` of the general faces. -/
def zEllips3DToPHGeneral (div : Nat) (s : Nat × List (Nat × (Nat × Nat × Nat))) :
    Nat × List (Nat × (Nat × Nat × Nat)) :=
  (List.range' 2 (div - 2)).foldl (fun s i => zEllips3DToPHRing div i s) s

/-- The antarctic loop `for( i=vn-div-1, j=vn-2; n<fn; j=i++ )` with the body
`face[n++] = (i, vn-1, j)`, where `vn` and `fn` are the numbers of vertices and faces of
the polyhedron; `n` grows by one at each turn, so the loop makes `fn - n` turns. -/
def zEllips3DToPHAntarctic (div : Int) (vn fn : Nat)
    (s : Nat × List (Nat × (Nat × Nat × Nat))) : Nat × List (Nat × (Nat × Nat × Nat)) :=
  let r := (List.range (fn - s.1)).foldl
    (fun (r : Nat × Nat × Nat × List (Nat × (Nat × Nat × Nat))) (_ : Nat) =>
      (r.1 + 1, r.1, r.2.2.1 + 1, r.2.2.2 ++ [(r.2.2.1, (r.1, vn - 1, r.2.1))]))
    (((vn : Int) - div - 1).toNat, vn - 2, s.1, s.2)
  r.2.2

/-- The writes `face[n] = ...` of `zEllips3DToPH`, in order: arctic, general and
antarctic faces. -/
def zEllips3DToPHFace (div : Int) : List (Nat × (Nat × Nat × Nat)) :=
  let vn := (div * (div - 1) + 2).toNat
  let fn := (div * (div - 1) * 2).toNat
  (zEllips3DToPHAntarctic div vn fn
    (zEllips3DToPHGeneral div.toNat (zEllips3DToPHArctic div.toNat))).2

/-- `zEllips3DToPH`: `none` is the `NULL` return when `zPH3DAlloc` fails
(`phAlloc = false`); otherwise the polyhedron has `div*(div-1)+2` vertex slots and
`div*(div-1)*2` face slots, filled by the writes of the vertex and face loops. The `int`
counters are integers without overflow: the products fit an `int` of 32 bits for every
division count up to 32768. -/
def zEllips3DToPH (phAlloc : Bool) (zPI : K) (zVec3DCreatePolar : K → K → K → zVec3D K)
    (ellips : zEllips3D K) : Option (zPH3D K) :=
  if !phAlloc then none
  else
    let vn := (zEllips3DDiv ellips * (zEllips3DDiv ellips - 1) + 2).toNat
    let fn := (zEllips3DDiv ellips * (zEllips3DDiv ellips - 1) * 2).toNat
    some ⟨zPH3DWrite (List.replicate vn ⟨0, 0, 0⟩)
        (zEllips3DToPHVert zPI zVec3DCreatePolar ellips),
      zPH3DWrite (List.replicate fn (0, 0, 0)) (zEllips3DToPHFace (zEllips3DDiv ellips))⟩

/-- The three directed edges of a triangle, in the order of its vertices. -/
def zTri3DEdges (t : Nat × Nat × Nat) : List (Nat × Nat) :=
  [(t.1, t.2.1), (t.2.1, t.2.2), (t.2.2, t.1)]

/-- A root array whose first entry, the real number 2, is larger than its second entry,
the real number 1; the other entries are -1. -/
def zPexBHSecondSmaller : List K → Fin 6 → zComplex K :=
  fun _ => ![⟨2, 0⟩, ⟨1, 0⟩, ⟨-1, 0⟩, ⟨-1, 0⟩, ⟨-1, 0⟩, ⟨-1, 0⟩]

/-- A root array whose first entry is the complex number 1 + i and whose second entry is
the real number 1; the other entries are -1. -/
def zPexBHComplexFirst : List K → Fin 6 → zComplex K :=
  fun _ => ![⟨1, 1⟩, ⟨1, 0⟩, ⟨-1, 0⟩, ⟨-1, 0⟩, ⟨-1, 0⟩, ⟨-1, 0⟩]

/-- A root array with six entries -1: no entry has a non-negative real part. -/
def zPexBHNegative : List K → Fin 6 → zComplex K :=
  fun _ => ![⟨-1, 0⟩, ⟨-1, 0⟩, ⟨-1, 0⟩, ⟨-1, 0⟩, ⟨-1, 0⟩, ⟨-1, 0⟩]

/-- The six roots `-1 + x`, `-1 - x`, -1, -1, -1, -1 of the sextic built for the unit
sphere and the local point (x,0,0), in this order whatever the coefficients. -/
def zPexBHSphere (x : K) : List K → Fin 6 → zComplex K :=
  fun _ => ![⟨-1 + x, 0⟩, ⟨-1 - x, 0⟩, ⟨-1, 0⟩, ⟨-1, 0⟩, ⟨-1, 0⟩, ⟨-1, 0⟩]

/-- The sum `a p^2/(p+l)^2 + b q^2/(q+l)^2 + c r^2/(r+l)^2`, the normalized quadric sum
of the point recovered from the multiplier `l`. -/
def zEllips3DSecular (a b c p q r l : K) : K :=
  a * p ^ 2 / (p + l) ^ 2 + b * q ^ 2 / (q + l) ^ 2 + c * r ^ 2 / (r + l) ^ 2

end EllipsMesh

/-! ## Lemmas on the algebra library -/

section AlgebraLemmas

variable {K : Type} [LinearOrderedField K]

theorem zTOL_pos : (0 : K) < zTOL := by
  unfold zTOL
  positivity

theorem zMat3DIdent_orthonormal : (zMat3DIdent : zMat3D K).Orthonormal := by
  simp [zMat3D.Orthonormal, zMat3DIdent, zVec3DInnerProd]

/-- For an orthonormal attitude, `mᵀ (m v) = v`. -/
theorem zMulMat3DTVec3D_zMulMat3DVec3D {m : zMat3D K} (h : m.Orthonormal) (v : zVec3D K) :
    zMulMat3DTVec3D m (zMulMat3DVec3D m v) = v := by
  obtain ⟨h00, h11, h22, h01, h12, h20⟩ := h
  simp only [zVec3DInnerProd] at h00 h11 h22 h01 h12 h20
  ext
  · simp only [zMulMat3DTVec3D, zMulMat3DVec3D, zVec3DInnerProd]
    linear_combination v.x * h00 + v.y * h01 + v.z * h20
  · simp only [zMulMat3DTVec3D, zMulMat3DVec3D, zVec3DInnerProd]
    linear_combination v.x * h01 + v.y * h11 + v.z * h12
  · simp only [zMulMat3DTVec3D, zMulMat3DVec3D, zVec3DInnerProd]
    linear_combination v.x * h20 + v.y * h12 + v.z * h22

/-- The rows of an orthonormal attitude are orthonormal as well. -/
theorem zMat3D.Orthonormal.rows {m : zMat3D K} (h : m.Orthonormal) :
    (m.v0.x * m.v0.x + m.v1.x * m.v1.x + m.v2.x * m.v2.x = 1 ∧
     m.v0.y * m.v0.y + m.v1.y * m.v1.y + m.v2.y * m.v2.y = 1 ∧
     m.v0.z * m.v0.z + m.v1.z * m.v1.z + m.v2.z * m.v2.z = 1) ∧
    (m.v0.x * m.v0.y + m.v1.x * m.v1.y + m.v2.x * m.v2.y = 0 ∧
     m.v0.y * m.v0.z + m.v1.y * m.v1.z + m.v2.y * m.v2.z = 0 ∧
     m.v0.z * m.v0.x + m.v1.z * m.v1.x + m.v2.z * m.v2.x = 0) := by
  obtain ⟨h00, h11, h22, h01, h12, h20⟩ := h
  simp only [zVec3DInnerProd] at h00 h11 h22 h01 h12 h20
  let A : Matrix (Fin 3) (Fin 3) K :=
    !![m.v0.x, m.v1.x, m.v2.x; m.v0.y, m.v1.y, m.v2.y; m.v0.z, m.v1.z, m.v2.z]
  have hAtA : A.transpose * A = 1 := by
    ext i j
    fin_cases i <;> fin_cases j <;>
      simp only [Matrix.mul_apply, Fin.sum_univ_three, Matrix.transpose_apply] <;>
      simp [A] <;> linarith
  have hAAt : A * A.transpose = 1 := Matrix.mul_eq_one_comm.mp hAtA
  have e := fun i j => congrFun (congrFun hAAt i) j
  have e00 := e 0 0
  have e11 := e 1 1
  have e22 := e 2 2
  have e01 := e 0 1
  have e12 := e 1 2
  have e20 := e 2 0
  simp only [Matrix.mul_apply, Fin.sum_univ_three, Matrix.transpose_apply]
    at e00 e11 e22 e01 e12 e20
  simp [A] at e00 e11 e22 e01 e12 e20
  exact ⟨⟨e00, e11, e22⟩, e01, e12, e20⟩

/-- For an orthonormal attitude, `m (mᵀ v) = v`. -/
theorem zMulMat3DVec3D_zMulMat3DTVec3D {m : zMat3D K} (h : m.Orthonormal) (v : zVec3D K) :
    zMulMat3DVec3D m (zMulMat3DTVec3D m v) = v := by
  obtain ⟨⟨rxx, ryy, rzz⟩, rxy, ryz, rzx⟩ := h.rows
  ext
  · simp only [zMulMat3DTVec3D, zMulMat3DVec3D, zVec3DInnerProd]
    linear_combination v.x * rxx + v.y * rxy + v.z * rzx
  · simp only [zMulMat3DTVec3D, zMulMat3DVec3D, zVec3DInnerProd]
    linear_combination v.x * rxy + v.y * ryy + v.z * ryz
  · simp only [zMulMat3DTVec3D, zMulMat3DVec3D, zVec3DInnerProd]
    linear_combination v.x * rzx + v.y * ryz + v.z * rzz

/-- The transpose of an orthonormal attitude preserves the squared norm. -/
theorem zVec3DSqrNorm_zMulMat3DTVec3D {m : zMat3D K} (h : m.Orthonormal) (v : zVec3D K) :
    zVec3DSqrNorm (zMulMat3DTVec3D m v) = zVec3DSqrNorm v := by
  obtain ⟨⟨rxx, ryy, rzz⟩, rxy, ryz, rzx⟩ := h.rows
  simp only [zVec3DSqrNorm, zMulMat3DTVec3D, zVec3DInnerProd]
  linear_combination v.x * v.x * rxx + v.y * v.y * ryy + v.z * v.z * rzz
    + 2 * v.x * v.y * rxy + 2 * v.y * v.z * ryz + 2 * v.z * v.x * rzx

/-- The inverse transform undoes the forward transform of an orthonormal frame. -/
theorem zXform3DInv_zXform3D {f : zFrame3D K} (h : f.att.Orthonormal) (v : zVec3D K) :
    zXform3DInv f (zXform3D f v) = v := by
  have e : zVec3DSub (zVec3DAdd (zMulMat3DVec3D f.att v) f.pos) f.pos
      = zMulMat3DVec3D f.att v := by
    ext <;> simp [zVec3DSub, zVec3DAdd]
  rw [zXform3DInv, zXform3D, e, zMulMat3DTVec3D_zMulMat3DVec3D h]

/-- The forward transform undoes the inverse transform of an orthonormal frame. -/
theorem zXform3D_zXform3DInv {f : zFrame3D K} (h : f.att.Orthonormal) (v : zVec3D K) :
    zXform3D f (zXform3DInv f v) = v := by
  rw [zXform3D, zXform3DInv, zMulMat3DVec3D_zMulMat3DTVec3D h]
  ext <;> simp [zVec3DSub, zVec3DAdd]

/-- The inverse transform of an orthonormal frame preserves squared distances. -/
theorem zVec3DSqrNorm_zXform3DInv_sub {f : zFrame3D K} (h : f.att.Orthonormal)
    (a b : zVec3D K) :
    zVec3DSqrNorm (zVec3DSub (zXform3DInv f a) (zXform3DInv f b))
      = zVec3DSqrNorm (zVec3DSub a b) := by
  have e : zVec3DSub (zXform3DInv f a) (zXform3DInv f b)
      = zMulMat3DTVec3D f.att (zVec3DSub a b) := by
    ext <;> simp [zXform3DInv, zMulMat3DTVec3D, zVec3DSub, zVec3DInnerProd] <;> ring
  rw [e, zVec3DSqrNorm_zMulMat3DTVec3D h]

theorem zVec3DSqrNorm_nonneg (v : zVec3D K) : 0 ≤ zVec3DSqrNorm v := by
  simp only [zVec3DSqrNorm, zVec3DInnerProd]
  nlinarith [mul_self_nonneg v.x, mul_self_nonneg v.y, mul_self_nonneg v.z]

/-- A square root is monotone on the non-negative numbers. -/
theorem IsSqrt.mono {sqrt : K → K} (hs : IsSqrt sqrt) {a b : K} (ha : 0 ≤ a) (hab : a ≤ b) :
    sqrt a ≤ sqrt b := by
  obtain ⟨ha0, ha2⟩ := hs a ha
  obtain ⟨hb0, hb2⟩ := hs b (ha.trans hab)
  by_contra hlt
  push_neg at hlt
  have : sqrt b * sqrt b < sqrt a * sqrt a := by nlinarith
  linarith

/-- A square root of a perfect square. -/
theorem IsSqrt.sqrt_mul_self {sqrt : K → K} (hs : IsSqrt sqrt) {a : K} (ha : 0 ≤ a) :
    sqrt (a * a) = a := by
  obtain ⟨h0, h2⟩ := hs (a * a) (mul_self_nonneg a)
  have h : (sqrt (a * a) - a) * (sqrt (a * a) + a) = 0 := by linear_combination h2
  rcases mul_eq_zero.mp h with h | h
  · linarith
  · have e1 : sqrt (a * a) = 0 := by linarith
    have e2 : a = 0 := by linarith
    rw [e2] at e1 ⊢
    simpa using e1

theorem zLimit_mem {x l u : K} (hlu : l ≤ u) : l ≤ zLimit x l u ∧ zLimit x l u ≤ u := by
  unfold zLimit
  split_ifs with h1 h2
  · exact ⟨le_refl l, hlu⟩
  · exact ⟨hlu, le_refl u⟩
  · push_neg at h1 h2
    exact ⟨h1.le, h2.le⟩

/-- The clamped value is the point of `[l,u]` nearest to `x`. -/
theorem zLimit_nearest {x l u y : K} (hly : l ≤ y) (hyu : y ≤ u) :
    (x - zLimit x l u) * (x - zLimit x l u) ≤ (x - y) * (x - y) := by
  unfold zLimit
  split_ifs with h1 h2
  · nlinarith
  · nlinarith
  · simp only [sub_self, mul_zero]
    exact mul_self_nonneg _

end AlgebraLemmas

/-! ## Lemmas on the box -/

section BoxLemmas

variable {K : Type} [LinearOrderedField K]

/-- The real square root is a square root in the sense of `IsSqrt`. -/
theorem isSqrt_real : IsSqrt Real.sqrt :=
  fun x hx => ⟨Real.sqrt_nonneg x, Real.mul_self_sqrt hx⟩

/-- The local coordinates of the point returned by `zBox3DClosest` are the clamped local
coordinates of the query point. -/
theorem zXform3DInv_zBox3DClosest (sqrt : K → K) {box : zBox3D K}
    (horth : box.f.att.Orthonormal) (p : zVec3D K) (d : zDir) :
    (zXform3DInv box.f (zBox3DClosest sqrt box p).2).e d
      = zLimit ((zXform3DInv box.f p).e d) (-(1 / 2) * zBox3DDia box d)
          ((1 / 2) * zBox3DDia box d) := by
  simp only [zBox3DClosest, zXform3DDRC]
  rw [zXform3DInv_zXform3D horth]
  cases d <;> rfl

/-- The characterisation of `zBox3DPointIsInside` by the per-axis bounds. -/
theorem zBox3DPointIsInside_eq_true_iff (box : zBox3D K) (p : zVec3D K) (rim : Bool) :
    zBox3DPointIsInside box p rim = true ↔
      ∀ d : zDir, -(zBox3DRimBound box rim d) ≤ (zXform3DInv box.f p).e d ∧
        (zXform3DInv box.f p).e d ≤ zBox3DRimBound box rim d := by
  have key : ∀ d : zDir, (1 / 2 * zBox3DDia box d + if rim = true then (zTOL : K) else 0)
      = if rim = true then 1 / 2 * zBox3DDia box d + zTOL else 1 / 2 * zBox3DDia box d := by
    intro d
    cases rim <;> simp
  constructor
  · intro h d
    simp only [zBox3DPointIsInside, List.all_cons, List.all_nil, Bool.and_true,
      Bool.and_eq_true, Bool.not_eq_true', Bool.or_eq_false_iff, decide_eq_false_iff_not,
      not_lt] at h
    obtain ⟨⟨hx1, hx2⟩, ⟨hy1, hy2⟩, hz1, hz2⟩ := h
    have e : zBox3DRimBound box rim d
        = if rim = true then 1 / 2 * zBox3DDia box d + zTOL else 1 / 2 * zBox3DDia box d := by
      rw [← key d, zBox3DRimBound]
      ring
    rw [e]
    cases d
    · exact ⟨hx2, hx1⟩
    · exact ⟨hy2, hy1⟩
    · exact ⟨hz2, hz1⟩
  · intro h
    have e : ∀ d : zDir, zBox3DRimBound box rim d
        = if rim = true then 1 / 2 * zBox3DDia box d + zTOL else 1 / 2 * zBox3DDia box d := by
      intro d
      rw [← key d, zBox3DRimBound]
      ring
    simp only [zBox3DPointIsInside, List.all_cons, List.all_nil, Bool.and_true,
      Bool.and_eq_true, Bool.not_eq_true', Bool.or_eq_false_iff, decide_eq_false_iff_not,
      not_lt]
    have hx := h zDir.zX
    have hy := h zDir.zY
    have hz := h zDir.zZ
    rw [e] at hx hy hz
    exact ⟨⟨hx.2, hx.1⟩, ⟨hy.2, hy.1⟩, hz.2, hz.1⟩

/-- With non-negative extents the point returned by `zBox3DClosest` is a point of the
box. -/
theorem zBox3DContains_zBox3DClosest (sqrt : K → K) {box : zBox3D K}
    (horth : box.f.att.Orthonormal) (hdia : ∀ d : zDir, 0 ≤ zBox3DDia box d)
    (p : zVec3D K) : zBox3DContains box (zBox3DClosest sqrt box p).2 := by
  intro d
  rw [zXform3DInv_zBox3DClosest sqrt horth p d]
  have hd := hdia d
  have hlu : -(1 / 2) * zBox3DDia box d ≤ 1 / 2 * zBox3DDia box d := by linarith
  obtain ⟨h1, h2⟩ :=
    zLimit_mem (x := (zXform3DInv box.f p).e d) hlu
  constructor <;> linarith

/-- The squared norm as the sum over the three axes. -/
theorem zVec3DSqrNorm_zVec3DSub (a b : zVec3D K) :
    zVec3DSqrNorm (zVec3DSub a b)
      = (a.e zDir.zX - b.e zDir.zX) * (a.e zDir.zX - b.e zDir.zX)
        + (a.e zDir.zY - b.e zDir.zY) * (a.e zDir.zY - b.e zDir.zY)
        + (a.e zDir.zZ - b.e zDir.zZ) * (a.e zDir.zZ - b.e zDir.zZ) := rfl

/-- With non-negative extents no point of the box is nearer to the query point than the
point returned by `zBox3DClosest` (squared distances). -/
theorem zBox3DClosest_sqr_le (sqrt : K → K) {box : zBox3D K}
    (horth : box.f.att.Orthonormal) (p q : zVec3D K) (hq : zBox3DContains box q) :
    zVec3DSqrNorm (zVec3DSub p (zBox3DClosest sqrt box p).2)
      ≤ zVec3DSqrNorm (zVec3DSub p q) := by
  rw [← zVec3DSqrNorm_zXform3DInv_sub horth p (zBox3DClosest sqrt box p).2,
    ← zVec3DSqrNorm_zXform3DInv_sub horth p q, zVec3DSqrNorm_zVec3DSub,
    zVec3DSqrNorm_zVec3DSub]
  simp only [zXform3DInv_zBox3DClosest sqrt horth p]
  have hx := hq zDir.zX
  have hy := hq zDir.zY
  have hz := hq zDir.zZ
  have nx := zLimit_nearest (x := (zXform3DInv box.f p).e zDir.zX)
    (l := -(1 / 2) * zBox3DDia box zDir.zX) (u := 1 / 2 * zBox3DDia box zDir.zX)
    (y := (zXform3DInv box.f q).e zDir.zX) (by linarith [hx.1]) (by linarith [hx.2])
  have ny := zLimit_nearest (x := (zXform3DInv box.f p).e zDir.zY)
    (l := -(1 / 2) * zBox3DDia box zDir.zY) (u := 1 / 2 * zBox3DDia box zDir.zY)
    (y := (zXform3DInv box.f q).e zDir.zY) (by linarith [hy.1]) (by linarith [hy.2])
  have nz := zLimit_nearest (x := (zXform3DInv box.f p).e zDir.zZ)
    (l := -(1 / 2) * zBox3DDia box zDir.zZ) (u := 1 / 2 * zBox3DDia box zDir.zZ)
    (y := (zXform3DInv box.f q).e zDir.zZ) (by linarith [hz.1]) (by linarith [hz.2])
  linarith

end BoxLemmas

/-! ## Claims on the box -/

section BoxClaims

variable {K : Type} [LinearOrderedField K]

/-- C1 (as amended): for every box with non-negative extents and an orthonormal frame
and every query point `p`, the point `cp` returned by `zBox3DClosest` is a point of the
box, no point `q` of the box is nearer to `p` than `cp`, and the returned value is
`dist(p, cp)`. -/
theorem zBox3DClosest_nearest_of_nonneg (sqrt : K → K) (hs : IsSqrt sqrt) (box : zBox3D K)
    (horth : box.f.att.Orthonormal) (hdia : ∀ d : zDir, 0 ≤ zBox3DDia box d)
    (p : zVec3D K) :
    zBox3DContains box (zBox3DClosest sqrt box p).2 ∧
    (∀ q : zVec3D K, zBox3DContains box q →
      zVec3DDist sqrt p (zBox3DClosest sqrt box p).2 ≤ zVec3DDist sqrt p q) ∧
    (zBox3DClosest sqrt box p).1 = zVec3DDist sqrt p (zBox3DClosest sqrt box p).2 :=
  ⟨zBox3DContains_zBox3DClosest sqrt horth hdia p,
   fun q hq => hs.mono (zVec3DSqrNorm_nonneg _) (zBox3DClosest_sqr_le sqrt horth p q hq),
   rfl⟩

/-- Witness of C1 (as amended): the box of extents 2 centred at the origin, over the
reals, and the query point (5,0,0). -/
theorem zBox3DClosest_nearest_of_nonneg_witness :
    IsSqrt Real.sqrt ∧
    (zMat3DIdent : zMat3D ℝ).Orthonormal ∧
    (∀ d : zDir, 0 ≤ zBox3DDia (⟨⟨⟨0, 0, 0⟩, zMat3DIdent⟩, ⟨2, 2, 2⟩⟩ : zBox3D ℝ) d) ∧
    (zBox3DContains (⟨⟨⟨0, 0, 0⟩, zMat3DIdent⟩, ⟨2, 2, 2⟩⟩ : zBox3D ℝ)
        (zBox3DClosest Real.sqrt ⟨⟨⟨0, 0, 0⟩, zMat3DIdent⟩, ⟨2, 2, 2⟩⟩ ⟨5, 0, 0⟩).2 ∧
      (∀ q : zVec3D ℝ, zBox3DContains (⟨⟨⟨0, 0, 0⟩, zMat3DIdent⟩, ⟨2, 2, 2⟩⟩ : zBox3D ℝ) q →
        zVec3DDist Real.sqrt ⟨5, 0, 0⟩
            (zBox3DClosest Real.sqrt ⟨⟨⟨0, 0, 0⟩, zMat3DIdent⟩, ⟨2, 2, 2⟩⟩ ⟨5, 0, 0⟩).2
          ≤ zVec3DDist Real.sqrt ⟨5, 0, 0⟩ q) ∧
      (zBox3DClosest Real.sqrt (⟨⟨⟨0, 0, 0⟩, zMat3DIdent⟩, ⟨2, 2, 2⟩⟩ : zBox3D ℝ) ⟨5, 0, 0⟩).1
        = zVec3DDist Real.sqrt ⟨5, 0, 0⟩
            (zBox3DClosest Real.sqrt ⟨⟨⟨0, 0, 0⟩, zMat3DIdent⟩, ⟨2, 2, 2⟩⟩ ⟨5, 0, 0⟩).2) :=
  have hdia : ∀ d : zDir,
      0 ≤ zBox3DDia (⟨⟨⟨0, 0, 0⟩, zMat3DIdent⟩, ⟨2, 2, 2⟩⟩ : zBox3D ℝ) d := by
    intro d
    cases d <;> simp [zBox3DDia, zVec3D.e]
  ⟨isSqrt_real, zMat3DIdent_orthonormal, hdia,
    zBox3DClosest_nearest_of_nonneg Real.sqrt isSqrt_real _ zMat3DIdent_orthonormal hdia _⟩

/-- C1 (counterexample to the claim as stated): the box with identity attitude and
stored extents (-2, 2, 2), query point at the origin. The clamp bounds are `min = 1`,
`max = -1`, `zLimit` returns 1, and the returned point (1,0,0) has local coordinate 1 on
the x axis, which is not between `-extent/2 = 1` and `extent/2 = -1`. -/
theorem zBox3DClosest_negative_extent :
    (zMat3DIdent : zMat3D ℝ).Orthonormal ∧
    (zBox3DClosest Real.sqrt (⟨⟨⟨0, 0, 0⟩, zMat3DIdent⟩, ⟨-2, 2, 2⟩⟩ : zBox3D ℝ) ⟨0, 0, 0⟩).2
      = ⟨1, 0, 0⟩ ∧
    ¬ zBox3DContains (⟨⟨⟨0, 0, 0⟩, zMat3DIdent⟩, ⟨-2, 2, 2⟩⟩ : zBox3D ℝ)
        (zBox3DClosest Real.sqrt ⟨⟨⟨0, 0, 0⟩, zMat3DIdent⟩, ⟨-2, 2, 2⟩⟩ ⟨0, 0, 0⟩).2 := by
  have hcp : (zBox3DClosest Real.sqrt
      (⟨⟨⟨0, 0, 0⟩, zMat3DIdent⟩, ⟨-2, 2, 2⟩⟩ : zBox3D ℝ) ⟨0, 0, 0⟩).2 = ⟨1, 0, 0⟩ := by
    ext <;>
      norm_num [zBox3DClosest, zXform3DDRC, zXform3D, zXform3DInv, zMulMat3DVec3D,
        zMulMat3DTVec3D, zVec3DAdd, zVec3DSub, zVec3DInnerProd, zMat3DIdent, zLimit,
        zBox3DDia, zVec3D.e]
  refine ⟨zMat3DIdent_orthonormal, hcp, ?_⟩
  rw [hcp]
  intro h
  have hx := (h zDir.zX).2
  norm_num [zXform3DInv, zMulMat3DTVec3D, zVec3DSub, zVec3DInnerProd, zMat3DIdent,
    zBox3DDia, zVec3D.e] at hx

/-- C2: for the axis-aligned box with depth = width = height = 2 centred at the origin
and the query point (5,0,0), `zBox3DClosest` yields the closest point (1,0,0) and
returns the distance 4. -/
theorem zBox3DClosest_unit_box (sqrt : K → K) (hs : IsSqrt sqrt) :
    zBox3DClosest sqrt (⟨⟨⟨0, 0, 0⟩, zMat3DIdent⟩, ⟨2, 2, 2⟩⟩ : zBox3D K) ⟨5, 0, 0⟩
      = (4, ⟨1, 0, 0⟩) := by
  have hcp : (zBox3DClosest sqrt
      (⟨⟨⟨0, 0, 0⟩, zMat3DIdent⟩, ⟨2, 2, 2⟩⟩ : zBox3D K) ⟨5, 0, 0⟩).2 = ⟨1, 0, 0⟩ := by
    ext <;>
      norm_num [zBox3DClosest, zXform3DDRC, zXform3D, zXform3DInv, zMulMat3DVec3D,
        zMulMat3DTVec3D, zVec3DAdd, zVec3DSub, zVec3DInnerProd, zMat3DIdent, zLimit,
        zBox3DDia, zVec3D.e]
  have hd : (zBox3DClosest sqrt
      (⟨⟨⟨0, 0, 0⟩, zMat3DIdent⟩, ⟨2, 2, 2⟩⟩ : zBox3D K) ⟨5, 0, 0⟩).1 = 4 := by
    have e : (zBox3DClosest sqrt
        (⟨⟨⟨0, 0, 0⟩, zMat3DIdent⟩, ⟨2, 2, 2⟩⟩ : zBox3D K) ⟨5, 0, 0⟩).1
        = zVec3DDist sqrt ⟨5, 0, 0⟩ (zBox3DClosest sqrt
            (⟨⟨⟨0, 0, 0⟩, zMat3DIdent⟩, ⟨2, 2, 2⟩⟩ : zBox3D K) ⟨5, 0, 0⟩).2 := rfl
    rw [e, hcp]
    have h16 : zVec3DSqrNorm (zVec3DSub (⟨5, 0, 0⟩ : zVec3D K) ⟨1, 0, 0⟩) = 4 * 4 := by
      norm_num [zVec3DSqrNorm, zVec3DSub, zVec3DInnerProd]
    rw [zVec3DDist, h16]
    exact hs.sqrt_mul_self (by norm_num)
  exact Prod.ext hd hcp

/-- Witness of C2: over the reals, with the real square root. -/
theorem zBox3DClosest_unit_box_witness :
    IsSqrt Real.sqrt ∧
    zBox3DClosest Real.sqrt (⟨⟨⟨0, 0, 0⟩, zMat3DIdent⟩, ⟨2, 2, 2⟩⟩ : zBox3D ℝ) ⟨5, 0, 0⟩
      = (4, ⟨1, 0, 0⟩) :=
  ⟨isSqrt_real, zBox3DClosest_unit_box Real.sqrt isSqrt_real⟩

/-- C5 (as amended): for every box with non-negative extents and an orthonormal frame
and every query point `p`, the closest point produced by `zBox3DClosest` is classified
inside by `zBox3DPointIsInside`, for `rim = true` and for `rim = false`. -/
theorem zBox3DPointIsInside_zBox3DClosest_of_nonneg (sqrt : K → K) (box : zBox3D K)
    (horth : box.f.att.Orthonormal) (hdia : ∀ d : zDir, 0 ≤ zBox3DDia box d)
    (p : zVec3D K) (rim : Bool) :
    zBox3DPointIsInside box (zBox3DClosest sqrt box p).2 rim = true := by
  rw [zBox3DPointIsInside_eq_true_iff]
  intro d
  obtain ⟨h1, h2⟩ := zBox3DContains_zBox3DClosest sqrt horth hdia p d
  have ht : (0 : K) ≤ if rim = true then (zTOL : K) else 0 := by
    split_ifs
    · exact zTOL_pos.le
    · exact le_refl 0
  unfold zBox3DRimBound
  constructor <;> linarith

/-- Witness of C5 (as amended): the box of extents (2, 4, 6) in the frame whose axes are
a quarter turn about z, and the query point (7, -3, 1), over the reals. -/
theorem zBox3DPointIsInside_zBox3DClosest_of_nonneg_witness :
    (⟨⟨0, 1, 0⟩, ⟨-1, 0, 0⟩, ⟨0, 0, 1⟩⟩ : zMat3D ℝ).Orthonormal ∧
    (∀ d : zDir, 0 ≤ zBox3DDia
      (⟨⟨⟨1, 1, 1⟩, ⟨⟨0, 1, 0⟩, ⟨-1, 0, 0⟩, ⟨0, 0, 1⟩⟩⟩, ⟨2, 4, 6⟩⟩ : zBox3D ℝ) d) ∧
    zBox3DPointIsInside
      (⟨⟨⟨1, 1, 1⟩, ⟨⟨0, 1, 0⟩, ⟨-1, 0, 0⟩, ⟨0, 0, 1⟩⟩⟩, ⟨2, 4, 6⟩⟩ : zBox3D ℝ)
      (zBox3DClosest Real.sqrt
        ⟨⟨⟨1, 1, 1⟩, ⟨⟨0, 1, 0⟩, ⟨-1, 0, 0⟩, ⟨0, 0, 1⟩⟩⟩, ⟨2, 4, 6⟩⟩ ⟨7, -3, 1⟩).2 false
      = true :=
  have horth : (⟨⟨0, 1, 0⟩, ⟨-1, 0, 0⟩, ⟨0, 0, 1⟩⟩ : zMat3D ℝ).Orthonormal := by
    simp [zMat3D.Orthonormal, zVec3DInnerProd]
  have hdia : ∀ d : zDir, 0 ≤ zBox3DDia
      (⟨⟨⟨1, 1, 1⟩, ⟨⟨0, 1, 0⟩, ⟨-1, 0, 0⟩, ⟨0, 0, 1⟩⟩⟩, ⟨2, 4, 6⟩⟩ : zBox3D ℝ) d := by
    intro d
    cases d <;> simp [zBox3DDia, zVec3D.e]
  ⟨horth, hdia,
    zBox3DPointIsInside_zBox3DClosest_of_nonneg Real.sqrt _ horth hdia _ false⟩

/-- C5 (counterexample to the claim as stated): the box with identity attitude and
stored extents (-2, 2, 2), query point at the origin. `zBox3DClosest` returns (1,0,0);
in `zBox3DPointIsInside` the bound on the x axis is `l = -1` (`-1 + zTOL` in rim mode)
and `err.e[zX] = 1 > l`, so the point is classified outside in both modes. -/
theorem zBox3DPointIsInside_zBox3DClosest_negative_extent :
    (zMat3DIdent : zMat3D ℝ).Orthonormal ∧
    zBox3DPointIsInside (⟨⟨⟨0, 0, 0⟩, zMat3DIdent⟩, ⟨-2, 2, 2⟩⟩ : zBox3D ℝ)
      (zBox3DClosest Real.sqrt ⟨⟨⟨0, 0, 0⟩, zMat3DIdent⟩, ⟨-2, 2, 2⟩⟩ ⟨0, 0, 0⟩).2 false
      = false ∧
    zBox3DPointIsInside (⟨⟨⟨0, 0, 0⟩, zMat3DIdent⟩, ⟨-2, 2, 2⟩⟩ : zBox3D ℝ)
      (zBox3DClosest Real.sqrt ⟨⟨⟨0, 0, 0⟩, zMat3DIdent⟩, ⟨-2, 2, 2⟩⟩ ⟨0, 0, 0⟩).2 true
      = false := by
  have hcp : (zBox3DClosest Real.sqrt
      (⟨⟨⟨0, 0, 0⟩, zMat3DIdent⟩, ⟨-2, 2, 2⟩⟩ : zBox3D ℝ) ⟨0, 0, 0⟩).2 = ⟨1, 0, 0⟩ := by
    ext <;>
      norm_num [zBox3DClosest, zXform3DDRC, zXform3D, zXform3DInv, zMulMat3DVec3D,
        zMulMat3DTVec3D, zVec3DAdd, zVec3DSub, zVec3DInnerProd, zMat3DIdent, zLimit,
        zBox3DDia, zVec3D.e]
  refine ⟨zMat3DIdent_orthonormal, ?_, ?_⟩
  · rw [hcp]
    norm_num [zBox3DPointIsInside, zXform3DInv, zMulMat3DTVec3D, zVec3DSub,
      zVec3DInnerProd, zMat3DIdent, zBox3DDia, zVec3D.e]
  · rw [hcp]
    norm_num [zBox3DPointIsInside, zXform3DInv, zMulMat3DTVec3D, zVec3DSub,
      zVec3DInnerProd, zMat3DIdent, zBox3DDia, zVec3D.e, zTOL]

/-- C7: for every box, point `p` and flag `rim`, `zBox3DPointIsInside` returns true if
and only if on all three axes the local-frame coordinate `e` of `p` satisfies
`-l <= e <= l`, where `l` is half the extent on that axis, plus `zTOL` when `rim` is
true; both bounds are attained, so boundary points count as inside. -/
theorem zBox3DPointIsInside_iff_within_bounds (box : zBox3D K) (p : zVec3D K) (rim : Bool) :
    zBox3DPointIsInside box p rim = true ↔
      ∀ d : zDir,
        -(zBox3DDia box d / 2 + (if rim then zTOL else 0)) ≤ (zXform3DInv box.f p).e d ∧
        (zXform3DInv box.f p).e d ≤ zBox3DDia box d / 2 + (if rim then zTOL else 0) :=
  zBox3DPointIsInside_eq_true_iff box p rim

/-- C10: for every box `B` and every frame `F` with orthonormal attitude,
`zBox3DXformInv(zBox3DXform(B, F), F)` is `B`: the same centre, the same three axis
vectors and the same depth, width and height. -/
theorem zBox3DXformInv_zBox3DXform (B : zBox3D K) (F : zFrame3D K)
    (hF : F.att.Orthonormal) : zBox3DXformInv (zBox3DXform B F) F = B := by
  have hc : zXform3DInv F (zXform3D F B.f.pos) = B.f.pos := zXform3DInv_zXform3D hF _
  have h0 := zMulMat3DTVec3D_zMulMat3DVec3D hF B.f.att.v0
  have h1 := zMulMat3DTVec3D_zMulMat3DVec3D hF B.f.att.v1
  have h2 := zMulMat3DTVec3D_zMulMat3DVec3D hF B.f.att.v2
  simp only [zBox3DXformInv, zBox3DXform, zBox3DCenter, zBox3DAxis, zMat3D.v, zBox3DDepth,
    zBox3DWidth, zBox3DHeight, zBox3DDia, zVec3D.e, hc, h0, h1, h2]

/-- Witness of C10: a box with skew axes and the frame at (1, 2, 3) whose axes are a
quarter turn about z, over the rationals. -/
theorem zBox3DXformInv_zBox3DXform_witness :
    (⟨⟨0, 1, 0⟩, ⟨-1, 0, 0⟩, ⟨0, 0, 1⟩⟩ : zMat3D ℚ).Orthonormal ∧
    zBox3DXformInv
      (zBox3DXform (⟨⟨⟨4, 5, 6⟩, ⟨⟨1, 2, 0⟩, ⟨0, 1, 0⟩, ⟨0, 3, 1⟩⟩⟩, ⟨2, 4, 6⟩⟩ : zBox3D ℚ)
        ⟨⟨1, 2, 3⟩, ⟨⟨0, 1, 0⟩, ⟨-1, 0, 0⟩, ⟨0, 0, 1⟩⟩⟩)
      ⟨⟨1, 2, 3⟩, ⟨⟨0, 1, 0⟩, ⟨-1, 0, 0⟩, ⟨0, 0, 1⟩⟩⟩
      = ⟨⟨⟨4, 5, 6⟩, ⟨⟨1, 2, 0⟩, ⟨0, 1, 0⟩, ⟨0, 3, 1⟩⟩⟩, ⟨2, 4, 6⟩⟩ :=
  have horth : (⟨⟨0, 1, 0⟩, ⟨-1, 0, 0⟩, ⟨0, 0, 1⟩⟩ : zMat3D ℚ).Orthonormal := by
    simp [zMat3D.Orthonormal, zVec3DInnerProd]
  ⟨horth, zBox3DXformInv_zBox3DXform _ ⟨⟨1, 2, 3⟩, ⟨⟨0, 1, 0⟩, ⟨-1, 0, 0⟩, ⟨0, 0, 1⟩⟩⟩ horth⟩

end BoxClaims

/-! ## Lemmas on the root solver and the ellipsoid -/

section EllipsLemmas

variable {K : Type} [LinearOrderedField K]

/-- Its components vanish when a complex number has norm zero. -/
theorem zComplex_eq_zero_of_normSq {a : zComplex K} (h : a.re * a.re + a.im * a.im = 0) :
    a = ⟨0, 0⟩ := by
  have h1 : a.re * a.re = 0 := by
    nlinarith [mul_self_nonneg a.re, mul_self_nonneg a.im]
  have h2 : a.im * a.im = 0 := by
    nlinarith [mul_self_nonneg a.re, mul_self_nonneg a.im]
  ext
  · exact mul_self_eq_zero.mp h1
  · exact mul_self_eq_zero.mp h2

/-- The complex numbers over an ordered field have no zero divisors. -/
theorem zComplexMul_eq_zero {a b : zComplex K} (h : zComplexMul a b = ⟨0, 0⟩) :
    a = ⟨0, 0⟩ ∨ b = ⟨0, 0⟩ := by
  have hre : a.re * b.re - a.im * b.im = 0 := congrArg zComplex.re h
  have him : a.re * b.im + a.im * b.re = 0 := congrArg zComplex.im h
  have hN : (a.re * a.re + a.im * a.im) * (b.re * b.re + b.im * b.im) = 0 := by
    linear_combination (a.re * b.re - a.im * b.im) * hre + (a.re * b.im + a.im * b.re) * him
  rcases mul_eq_zero.mp hN with h0 | h0
  · exact Or.inl (zComplex_eq_zero_of_normSq h0)
  · exact Or.inr (zComplex_eq_zero_of_normSq h0)

theorem zComplexMul_zero_left (b : zComplex K) : zComplexMul ⟨0, 0⟩ b = ⟨0, 0⟩ := by
  ext <;> simp [zComplexMul]

theorem zComplexMul_zero_right (a : zComplex K) : zComplexMul a ⟨0, 0⟩ = ⟨0, 0⟩ := by
  ext <;> simp [zComplexMul]

theorem zComplexSub_eq_zero {a b : zComplex K} (h : zComplexSub a b = ⟨0, 0⟩) : a = b := by
  have hre : a.re - b.re = 0 := congrArg zComplex.re h
  have him : a.im - b.im = 0 := congrArg zComplex.im h
  ext
  · exact sub_eq_zero.mp hre
  · exact sub_eq_zero.mp him

/-- A product of a list of complex numbers vanishes exactly when a factor does. -/
theorem zComplex_foldr_mul_eq_zero (l : List (zComplex K)) :
    l.foldr zComplexMul ⟨1, 0⟩ = ⟨0, 0⟩ ↔ ∃ a ∈ l, a = (⟨0, 0⟩ : zComplex K) := by
  induction l with
  | nil =>
    simp only [List.foldr_nil, List.not_mem_nil, false_and, exists_false, iff_false]
    intro h
    have : (1 : K) = 0 := congrArg zComplex.re h
    exact one_ne_zero this
  | cons x xs ih =>
    simp only [List.foldr_cons, List.mem_cons, exists_eq_or_imp]
    constructor
    · intro h
      rcases zComplexMul_eq_zero h with h | h
      · exact Or.inl h
      · exact Or.inr (ih.mp h)
    · rintro (h | h)
      · rw [h, zComplexMul_zero_left]
      · rw [ih.mpr h, zComplexMul_zero_right]

/-- The product of the six factors vanishes exactly at the entries of the array. -/
theorem zRootProd_eq_zero_iff (ans : Fin 6 → zComplex K) (z : zComplex K) :
    zRootProd ans z = ⟨0, 0⟩ ↔ ∃ i : Fin 6, ans i = z := by
  rw [zRootProd, zComplex_foldr_mul_eq_zero]
  constructor
  · rintro ⟨a, ha, h0⟩
    obtain ⟨i, _, rfl⟩ := List.mem_map.mp ha
    exact ⟨i, (zComplexSub_eq_zero h0).symm⟩
  · rintro ⟨i, rfl⟩
    refine ⟨zComplexSub (ans i) (ans i), List.mem_map.mpr ⟨i, List.mem_finRange i, rfl⟩, ?_⟩
    ext <;> simp [zComplexSub]

/-- With an exact root finder, the entries of the array are exactly the complex roots of
the polynomial. -/
theorem IsExactRoots.root_iff {c : List K} {ans : Fin 6 → zComplex K}
    (h : IsExactRoots c ans) (z : zComplex K) :
    zPexCVal c z = ⟨0, 0⟩ ↔ ∃ i : Fin 6, ans i = z := by
  rw [h z, zRootProd_eq_zero_iff]

/-- The index at which the loop of `_zEllips3DClosest` stops is the first one whose
entry has a non-negative real part. -/
theorem zEllips3DClosest_find_some {ans : Fin 6 → zComplex K} {i : Fin 6}
    (h : (List.finRange 6).find? (fun i => decide ((ans i).re ≥ 0)) = some i) :
    0 ≤ (ans i).re := by
  have := List.find?_some h
  simpa using this

/-- The loop of `_zEllips3DClosest` runs to the end only when no entry has a
non-negative real part. -/
theorem zEllips3DClosest_find_none {ans : Fin 6 → zComplex K}
    (h : (List.finRange 6).find? (fun i => decide ((ans i).re ≥ 0)) = none) (i : Fin 6) :
    (ans i).re < 0 := by
  have := List.find?_eq_none.mp h i (List.mem_finRange i)
  simpa using this

/-- The coefficients built for the unit sphere and the point (2,0,0). -/
theorem zEllips3DClosestPex_unit_sphere :
    zEllips3DClosestPex (1 : K) 1 1 ⟨2, 0, 0⟩ = [-3, -10, -9, 4, 11, 6, 1] := by
  simp only [zEllips3DClosestPex, zSqr, zVec3D.e]
  norm_num

/-- The sextic of the unit sphere and the point (2,0,0) is `(z-1)(z+3)(z+1)^4`. -/
theorem zPexCVal_unit_sphere (z : zComplex K) :
    zPexCVal [-3, -10, -9, 4, 11, 6, 1] z
      = zComplexMul (zComplexSub z ⟨1, 0⟩) (zComplexMul (zComplexSub z ⟨-3, 0⟩)
          (zComplexMul (zComplexSub z ⟨-1, 0⟩) (zComplexMul (zComplexSub z ⟨-1, 0⟩)
            (zComplexMul (zComplexSub z ⟨-1, 0⟩) (zComplexSub z ⟨-1, 0⟩))))) := by
  ext <;> simp [zPexCVal, zComplexAdd, zComplexMul, zComplexSub] <;> ring

/-- The complex roots of the sextic of the unit sphere and the point (2,0,0). -/
theorem zPexCVal_unit_sphere_root {z : zComplex K}
    (h : zPexCVal [-3, -10, -9, 4, 11, 6, 1] z = ⟨0, 0⟩) :
    z = ⟨1, 0⟩ ∨ z = ⟨-3, 0⟩ ∨ z = ⟨-1, 0⟩ := by
  rw [zPexCVal_unit_sphere] at h
  rcases zComplexMul_eq_zero h with h | h
  · exact Or.inl (zComplexSub_eq_zero h)
  rcases zComplexMul_eq_zero h with h | h
  · exact Or.inr (Or.inl (zComplexSub_eq_zero h))
  rcases zComplexMul_eq_zero h with h | h
  · exact Or.inr (Or.inr (zComplexSub_eq_zero h))
  rcases zComplexMul_eq_zero h with h | h
  · exact Or.inr (Or.inr (zComplexSub_eq_zero h))
  rcases zComplexMul_eq_zero h with h | h
  · exact Or.inr (Or.inr (zComplexSub_eq_zero h))
  · exact Or.inr (Or.inr (zComplexSub_eq_zero h))

/-- The array `zPexBHUnitSphere` is an exact result for the sextic of the unit sphere
and the point (2,0,0). -/
theorem zPexBHUnitSphere_exact :
    IsExactRoots (zEllips3DClosestPex (1 : K) 1 1 ⟨2, 0, 0⟩)
      (zPexBHUnitSphere (zEllips3DClosestPex (1 : K) 1 1 ⟨2, 0, 0⟩)) := by
  intro z
  rw [zEllips3DClosestPex_unit_sphere]
  ext <;>
    simp [zPexCVal, zRootProd, zPexBHUnitSphere, List.finRange, zComplexAdd, zComplexMul,
      zComplexSub] <;> ring

/-- The local closest point for the unit sphere and the point (2,0,0), with an exact
root finder. -/
theorem zEllips3DClosest_aligned_unit_sphere (zPexBH : List K → Fin 6 → zComplex K)
    (hroots : IsExactRoots (zEllips3DClosestPex (1 : K) 1 1 ⟨2, 0, 0⟩)
      (zPexBH (zEllips3DClosestPex (1 : K) 1 1 ⟨2, 0, 0⟩))) :
    _zEllips3DClosest true zPexBH (1 : K) 1 1 ⟨2, 0, 0⟩ = some ⟨1, 0, 0⟩ := by
  have hroot : ∀ i : Fin 6, 0 ≤ (zPexBH (zEllips3DClosestPex (1 : K) 1 1 ⟨2, 0, 0⟩) i).re →
      zPexBH (zEllips3DClosestPex (1 : K) 1 1 ⟨2, 0, 0⟩) i = ⟨1, 0⟩ := by
    intro i hi
    have h0 := (hroots.root_iff _).mpr ⟨i, rfl⟩
    rw [zEllips3DClosestPex_unit_sphere] at h0
    rw [zEllips3DClosestPex_unit_sphere] at hi
    rw [zEllips3DClosestPex_unit_sphere]
    rcases zPexCVal_unit_sphere_root h0 with h | h | h
    · exact h
    · rw [h] at hi
      norm_num at hi
    · rw [h] at hi
      norm_num at hi
  obtain ⟨i1, hi1⟩ : ∃ i : Fin 6,
      zPexBH (zEllips3DClosestPex (1 : K) 1 1 ⟨2, 0, 0⟩) i = ⟨1, 0⟩ := by
    apply (hroots.root_iff _).mp
    rw [zEllips3DClosestPex_unit_sphere, zPexCVal_unit_sphere]
    ext <;> simp [zComplexMul, zComplexSub]
  simp only [_zEllips3DClosest, Bool.not_true, Bool.false_eq_true, if_false]
  cases hf : (List.finRange 6).find?
      (fun i => decide ((zPexBH (zEllips3DClosestPex (1 : K) 1 1 ⟨2, 0, 0⟩) i).re ≥ 0)) with
  | none =>
    have := zEllips3DClosest_find_none hf i1
    rw [hi1] at this
    norm_num at this
  | some i =>
    have hi := hroot i (zEllips3DClosest_find_some hf)
    simp only [hi, zIsTiny, zVec3D.e]
    have ht : |(0 : K)| ≤ zTOL := by
      rw [abs_zero]
      exact zTOL_pos.le
    simp only [ht, decide_True, Bool.not_true, Bool.false_eq_true, if_false]
    congr 1
    ext <;> norm_num

/-- The identity frame leaves points unchanged under the inverse transform. -/
theorem zXform3DInv_ident (v : zVec3D K) :
    zXform3DInv (⟨⟨0, 0, 0⟩, zMat3DIdent⟩ : zFrame3D K) v = v := by
  ext <;> simp [zXform3DInv, zMulMat3DTVec3D, zVec3DSub, zVec3DInnerProd, zMat3DIdent]

/-- The identity frame leaves points unchanged under the forward transform. -/
theorem zXform3D_ident (v : zVec3D K) :
    zXform3D (⟨⟨0, 0, 0⟩, zMat3DIdent⟩ : zFrame3D K) v = v := by
  ext <;> simp [zXform3D, zMulMat3DVec3D, zVec3DAdd, zMat3DIdent]

/-- The point (2,0,0) is not inside the unit sphere, in rim mode. -/
theorem zEllips3DPointIsInside_unit_sphere_two (div : Int) :
    zEllips3DPointIsInside (⟨⟨⟨0, 0, 0⟩, zMat3DIdent⟩, ⟨1, 1, 1⟩, div⟩ : zEllips3D K)
      ⟨2, 0, 0⟩ true = false := by
  have h : ¬ ((2 : K) * 2 + zTOL < 1) := by
    have := zTOL_pos (K := K)
    intro h
    linarith
  simp [zEllips3DPointIsInside, zXform3DInv_ident, zEllips3DRadiusX, zEllips3DRadiusY,
    zEllips3DRadiusZ, zVec3D.e, zSqr, h]

/-- The result of `zEllips3DClosest` for the unit sphere and the point (2,0,0), with an
exact root finder. -/
theorem zEllips3DClosest_at_unit_sphere (sqrt : K → K) (hs : IsSqrt sqrt)
    (zPexBH : List K → Fin 6 → zComplex K)
    (hroots : IsExactRoots (zEllips3DClosestPex (1 : K) 1 1 ⟨2, 0, 0⟩)
      (zPexBH (zEllips3DClosestPex (1 : K) 1 1 ⟨2, 0, 0⟩)))
    (div : Int) (cp0 : zVec3D K) :
    zEllips3DClosest sqrt true zPexBH
      (⟨⟨⟨0, 0, 0⟩, zMat3DIdent⟩, ⟨1, 1, 1⟩, div⟩ : zEllips3D K) ⟨2, 0, 0⟩ cp0
      = (1, ⟨1, 0, 0⟩) := by
  have hloc := zEllips3DClosest_aligned_unit_sphere zPexBH hroots
  have h1 : zVec3DSqrNorm (zVec3DSub (⟨2, 0, 0⟩ : zVec3D K) ⟨1, 0, 0⟩) = 1 * 1 := by
    norm_num [zVec3DSqrNorm, zVec3DSub, zVec3DInnerProd]
  have hd : zVec3DDist sqrt (⟨2, 0, 0⟩ : zVec3D K) ⟨1, 0, 0⟩ = 1 := by
    rw [zVec3DDist, h1]
    exact hs.sqrt_mul_self zero_le_one
  simp only [zEllips3DClosest, zEllips3DPointIsInside_unit_sphere_two, Bool.false_eq_true,
    if_false, zXform3DInv_ident, zEllips3DRadiusX, zEllips3DRadiusY, zEllips3DRadiusZ,
    zVec3D.e, hloc, zXform3DDRC, zXform3D_ident, hd]

/-- The characterisation of the plain (`rim = false`) ellipsoid test. -/
theorem zEllips3DPointIsInside_false_iff (ellips : zEllips3D K) (p : zVec3D K) :
    zEllips3DPointIsInside ellips p false = true ↔
      ((zXform3DInv ellips.f p).x / ellips.rad.x) ^ 2
        + ((zXform3DInv ellips.f p).y / ellips.rad.y) ^ 2
        + ((zXform3DInv ellips.f p).z / ellips.rad.z) ^ 2 < 1 := by
  simp [zEllips3DPointIsInside, zEllips3DRadiusX, zEllips3DRadiusY, zEllips3DRadiusZ,
    zVec3D.e, zSqr, sq]

end EllipsLemmas

/-! ## Claims on the ellipsoid -/

section EllipsClaims

variable {K : Type} [LinearOrderedField K]

/-- C3: for the ellipsoid with rx = ry = rz = 1 centred at the origin with identity
attitude and the query point (2,0,0), `zEllips3DClosest`, with the root finder returning
the exact six roots of the sextic in any order, yields the closest point (1,0,0) and
returns the distance 1. -/
theorem zEllips3DClosest_unit_sphere (sqrt : K → K) (hs : IsSqrt sqrt)
    (zPexBH : List K → Fin 6 → zComplex K)
    (hroots : IsExactRoots (zEllips3DClosestPex (1 : K) 1 1 ⟨2, 0, 0⟩)
      (zPexBH (zEllips3DClosestPex (1 : K) 1 1 ⟨2, 0, 0⟩)))
    (div : Int) (cp0 : zVec3D K) :
    zEllips3DClosest sqrt true zPexBH
      (⟨⟨⟨0, 0, 0⟩, zMat3DIdent⟩, ⟨1, 1, 1⟩, div⟩ : zEllips3D K) ⟨2, 0, 0⟩ cp0
      = (1, ⟨1, 0, 0⟩) :=
  zEllips3DClosest_at_unit_sphere sqrt hs zPexBH hroots div cp0

/-- Witness of C3: over the reals, with the real square root and the root array
-1, -3, -1, 1, -1, -1. -/
theorem zEllips3DClosest_unit_sphere_witness :
    IsSqrt Real.sqrt ∧
    IsExactRoots (zEllips3DClosestPex (1 : ℝ) 1 1 ⟨2, 0, 0⟩)
      (zPexBHUnitSphere (zEllips3DClosestPex (1 : ℝ) 1 1 ⟨2, 0, 0⟩)) ∧
    zEllips3DClosest Real.sqrt true zPexBHUnitSphere
      (⟨⟨⟨0, 0, 0⟩, zMat3DIdent⟩, ⟨1, 1, 1⟩, 8⟩ : zEllips3D ℝ) ⟨2, 0, 0⟩ ⟨7, 7, 7⟩
      = (1, ⟨1, 0, 0⟩) :=
  ⟨isSqrt_real, zPexBHUnitSphere_exact,
    zEllips3DClosest_unit_sphere Real.sqrt isSqrt_real zPexBHUnitSphere
      zPexBHUnitSphere_exact 8 ⟨7, 7, 7⟩⟩

/-- C4: for every ellipsoid and every point `p` that the point-inside test made by
`zEllips3DClosest` (the test in rim mode) classifies as inside, `zEllips3DClosest`
returns distance 0 and sets the closest point to `p` itself; the result is the same
whatever the sextic solver, the allocator and the former content of `cp` are, the solver
not being invoked. -/
theorem zEllips3DClosest_of_inside (ellips : zEllips3D K) (p : zVec3D K)
    (hin : zEllips3DPointIsInside ellips p true = true) (sqrt : K → K) (pexAlloc : Bool)
    (zPexBH : List K → Fin 6 → zComplex K) (cp0 : zVec3D K) :
    zEllips3DClosest sqrt pexAlloc zPexBH ellips p cp0 = (0, p) := by
  simp only [zEllips3DClosest, hin, if_true]

/-- Witness of C4: the ellipsoid of radii (1, 2, 3) at the origin and the point
(1/2, 1, 1), with a failing allocator and a solver that returns zeros. -/
theorem zEllips3DClosest_of_inside_witness :
    zEllips3DPointIsInside (⟨⟨⟨0, 0, 0⟩, zMat3DIdent⟩, ⟨1, 2, 3⟩, 8⟩ : zEllips3D ℚ)
      ⟨1 / 2, 1, 1⟩ true = true ∧
    zEllips3DClosest (fun x => x) false (fun _ _ => ⟨0, 0⟩)
      (⟨⟨⟨0, 0, 0⟩, zMat3DIdent⟩, ⟨1, 2, 3⟩, 8⟩ : zEllips3D ℚ) ⟨1 / 2, 1, 1⟩ ⟨7, 7, 7⟩
      = (0, ⟨1 / 2, 1, 1⟩) :=
  have hin : zEllips3DPointIsInside
      (⟨⟨⟨0, 0, 0⟩, zMat3DIdent⟩, ⟨1, 2, 3⟩, 8⟩ : zEllips3D ℚ) ⟨1 / 2, 1, 1⟩ true = true := by
    simp only [zEllips3DPointIsInside, zXform3DInv_ident, zEllips3DRadiusX,
      zEllips3DRadiusY, zEllips3DRadiusZ, zVec3D.e, zSqr, zTOL]
    norm_num
  ⟨hin, zEllips3DClosest_of_inside _ _ hin (fun x => x) false (fun _ _ => ⟨0, 0⟩) ⟨7, 7, 7⟩⟩

/-- C6 (the code at the failing input): for the unit sphere at the origin and the
exterior point (2,0,0), with an exact root array, `zEllips3DClosest` yields the surface
point (1,0,0) at distance 1, whose quadric sum is 1; `zEllips3DPointIsInside` in rim
mode computes `l = 1 + zTOL` and returns `l < 1`, that is false. -/
theorem zEllips3DPointIsInside_zEllips3DClosest_unit_sphere :
    IsExactRoots (zEllips3DClosestPex (1 : ℝ) 1 1 ⟨2, 0, 0⟩)
      (zPexBHUnitSphere (zEllips3DClosestPex (1 : ℝ) 1 1 ⟨2, 0, 0⟩)) ∧
    zEllips3DPointIsInside (⟨⟨⟨0, 0, 0⟩, zMat3DIdent⟩, ⟨1, 1, 1⟩, 8⟩ : zEllips3D ℝ)
      ⟨2, 0, 0⟩ false = false ∧
    zEllips3DClosest Real.sqrt true zPexBHUnitSphere
      (⟨⟨⟨0, 0, 0⟩, zMat3DIdent⟩, ⟨1, 1, 1⟩, 8⟩ : zEllips3D ℝ) ⟨2, 0, 0⟩ ⟨7, 7, 7⟩
      = (1, ⟨1, 0, 0⟩) ∧
    zEllips3DPointIsInside (⟨⟨⟨0, 0, 0⟩, zMat3DIdent⟩, ⟨1, 1, 1⟩, 8⟩ : zEllips3D ℝ)
      (zEllips3DClosest Real.sqrt true zPexBHUnitSphere
        (⟨⟨⟨0, 0, 0⟩, zMat3DIdent⟩, ⟨1, 1, 1⟩, 8⟩ : zEllips3D ℝ) ⟨2, 0, 0⟩ ⟨7, 7, 7⟩).2 true
      = false := by
  have hcl := zEllips3DClosest_at_unit_sphere Real.sqrt isSqrt_real zPexBHUnitSphere
    (zPexBHUnitSphere_exact (K := ℝ)) 8 ⟨7, 7, 7⟩
  refine ⟨zPexBHUnitSphere_exact, ?_, hcl, ?_⟩
  · simp only [zEllips3DPointIsInside, zXform3DInv_ident, zEllips3DRadiusX,
      zEllips3DRadiusY, zEllips3DRadiusZ, zVec3D.e, zSqr]
    norm_num
  · rw [hcl]
    simp only [zEllips3DPointIsInside, zXform3DInv_ident, zEllips3DRadiusX,
      zEllips3DRadiusY, zEllips3DRadiusZ, zVec3D.e, zSqr, zTOL]
    norm_num

/-- C8: for every ellipsoid with positive radii and every point `p`,
`zEllips3DPointIsInside(ellips, p, rim = false)` returns true if and only if the local
coordinates (x,y,z) of `p` satisfy `(x/rx)^2 + (y/ry)^2 + (z/rz)^2 < 1`. -/
theorem zEllips3DPointIsInside_iff_quadric_lt_one (ellips : zEllips3D K) (p : zVec3D K)
    (_hrx : 0 < zEllips3DRadiusX ellips) (_hry : 0 < zEllips3DRadiusY ellips)
    (_hrz : 0 < zEllips3DRadiusZ ellips) :
    zEllips3DPointIsInside ellips p false = true ↔
      ((zXform3DInv ellips.f p).x / zEllips3DRadiusX ellips) ^ 2
        + ((zXform3DInv ellips.f p).y / zEllips3DRadiusY ellips) ^ 2
        + ((zXform3DInv ellips.f p).z / zEllips3DRadiusZ ellips) ^ 2 < 1 :=
  zEllips3DPointIsInside_false_iff ellips p

/-- Witness of C8: the ellipsoid of radii (1, 2, 3) at (1, 1, 1) with a quarter turn
about z, and the point (1, 2, 3), over the rationals. -/
theorem zEllips3DPointIsInside_iff_quadric_lt_one_witness :
    (0 < zEllips3DRadiusX
      (⟨⟨⟨1, 1, 1⟩, ⟨⟨0, 1, 0⟩, ⟨-1, 0, 0⟩, ⟨0, 0, 1⟩⟩⟩, ⟨1, 2, 3⟩, 8⟩ : zEllips3D ℚ)) ∧
    (0 < zEllips3DRadiusY
      (⟨⟨⟨1, 1, 1⟩, ⟨⟨0, 1, 0⟩, ⟨-1, 0, 0⟩, ⟨0, 0, 1⟩⟩⟩, ⟨1, 2, 3⟩, 8⟩ : zEllips3D ℚ)) ∧
    (0 < zEllips3DRadiusZ
      (⟨⟨⟨1, 1, 1⟩, ⟨⟨0, 1, 0⟩, ⟨-1, 0, 0⟩, ⟨0, 0, 1⟩⟩⟩, ⟨1, 2, 3⟩, 8⟩ : zEllips3D ℚ)) ∧
    (zEllips3DPointIsInside
        (⟨⟨⟨1, 1, 1⟩, ⟨⟨0, 1, 0⟩, ⟨-1, 0, 0⟩, ⟨0, 0, 1⟩⟩⟩, ⟨1, 2, 3⟩, 8⟩ : zEllips3D ℚ)
        ⟨1, 2, 3⟩ false = true ↔
      ((zXform3DInv (⟨⟨1, 1, 1⟩, ⟨⟨0, 1, 0⟩, ⟨-1, 0, 0⟩, ⟨0, 0, 1⟩⟩⟩ : zFrame3D ℚ)
            ⟨1, 2, 3⟩).x / zEllips3DRadiusX
          (⟨⟨⟨1, 1, 1⟩, ⟨⟨0, 1, 0⟩, ⟨-1, 0, 0⟩, ⟨0, 0, 1⟩⟩⟩, ⟨1, 2, 3⟩, 8⟩ : zEllips3D ℚ)) ^ 2
        + ((zXform3DInv (⟨⟨1, 1, 1⟩, ⟨⟨0, 1, 0⟩, ⟨-1, 0, 0⟩, ⟨0, 0, 1⟩⟩⟩ : zFrame3D ℚ)
            ⟨1, 2, 3⟩).y / zEllips3DRadiusY
          (⟨⟨⟨1, 1, 1⟩, ⟨⟨0, 1, 0⟩, ⟨-1, 0, 0⟩, ⟨0, 0, 1⟩⟩⟩, ⟨1, 2, 3⟩, 8⟩ : zEllips3D ℚ)) ^ 2
        + ((zXform3DInv (⟨⟨1, 1, 1⟩, ⟨⟨0, 1, 0⟩, ⟨-1, 0, 0⟩, ⟨0, 0, 1⟩⟩⟩ : zFrame3D ℚ)
            ⟨1, 2, 3⟩).z / zEllips3DRadiusZ
          (⟨⟨⟨1, 1, 1⟩, ⟨⟨0, 1, 0⟩, ⟨-1, 0, 0⟩, ⟨0, 0, 1⟩⟩⟩, ⟨1, 2, 3⟩, 8⟩ : zEllips3D ℚ)) ^ 2
        < 1) :=
  have hx : 0 < zEllips3DRadiusX
      (⟨⟨⟨1, 1, 1⟩, ⟨⟨0, 1, 0⟩, ⟨-1, 0, 0⟩, ⟨0, 0, 1⟩⟩⟩, ⟨1, 2, 3⟩, 8⟩ : zEllips3D ℚ) := by
    simp [zEllips3DRadiusX, zVec3D.e]
  have hy : 0 < zEllips3DRadiusY
      (⟨⟨⟨1, 1, 1⟩, ⟨⟨0, 1, 0⟩, ⟨-1, 0, 0⟩, ⟨0, 0, 1⟩⟩⟩, ⟨1, 2, 3⟩, 8⟩ : zEllips3D ℚ) := by
    simp [zEllips3DRadiusY, zVec3D.e]
  have hz : 0 < zEllips3DRadiusZ
      (⟨⟨⟨1, 1, 1⟩, ⟨⟨0, 1, 0⟩, ⟨-1, 0, 0⟩, ⟨0, 0, 1⟩⟩⟩, ⟨1, 2, 3⟩, 8⟩ : zEllips3D ℚ) := by
    simp [zEllips3DRadiusZ, zVec3D.e]
  ⟨hx, hy, hz, zEllips3DPointIsInside_iff_quadric_lt_one _ ⟨1, 2, 3⟩ hx hy hz⟩

/-- C9 (the code at the failing inputs): for the unit sphere at the origin, the point
(1 - 10^-13, 0, 0), of quadric sum below 1 by less than `zTOL`, is classified inside
without rim and outside with rim; and the surface point (1,0,0), of quadric sum exactly
1, is classified outside with rim. Rim mode adds `zTOL` to the sum that is compared with
1, where `zBox3DPointIsInside` adds it to the bound. -/
theorem zEllips3DPointIsInside_rim_tightens :
    zEllips3DPointIsInside (⟨⟨⟨0, 0, 0⟩, zMat3DIdent⟩, ⟨1, 1, 1⟩, 8⟩ : zEllips3D ℚ)
      ⟨1 - 1 / 10 ^ 13, 0, 0⟩ false = true ∧
    zEllips3DPointIsInside (⟨⟨⟨0, 0, 0⟩, zMat3DIdent⟩, ⟨1, 1, 1⟩, 8⟩ : zEllips3D ℚ)
      ⟨1 - 1 / 10 ^ 13, 0, 0⟩ true = false ∧
    zEllips3DPointIsInside (⟨⟨⟨0, 0, 0⟩, zMat3DIdent⟩, ⟨1, 1, 1⟩, 8⟩ : zEllips3D ℚ)
      ⟨1, 0, 0⟩ true = false := by
  refine ⟨?_, ?_, ?_⟩ <;>
    simp only [zEllips3DPointIsInside, zXform3DInv_ident, zEllips3DRadiusX,
      zEllips3DRadiusY, zEllips3DRadiusZ, zVec3D.e, zSqr, zTOL] <;>
    norm_num

end EllipsClaims

/-! ## Lemmas on copy, mirror and mass properties -/

section ShapeLemmas

variable {K : Type} [LinearOrderedField K]

/-- Mirroring a vector twice along the same axis gives the vector back. -/
theorem zVec3DMirrorAxis_zVec3DMirrorAxis (v : zVec3D K) (a : zDir) :
    zVec3DMirrorAxis (zVec3DMirrorAxis v a) a = v := by
  cases a <;> ext <;> simp [zVec3DMirrorAxis]

/-- The copy of a box keeps the frame and stores the absolute values of the extents. -/
theorem zBox3DCopy_eq (src : zBox3D K) :
    zBox3DCopy src = ⟨src.f, ⟨|src.dia.x|, |src.dia.y|, |src.dia.z|⟩⟩ := rfl

/-- Mirroring a box twice along the same axis keeps the frame and stores the absolute
values of the extents. -/
theorem zBox3DMirror_zBox3DMirror_eq (b : zBox3D K) (a : zDir) :
    zBox3DMirror (zBox3DMirror b a) a = ⟨b.f, ⟨|b.dia.x|, |b.dia.y|, |b.dia.z|⟩⟩ := by
  simp only [zBox3DMirror, zBox3DCopy_eq, zBox3DCenter, zBox3DAxis, zMat3D.v,
    zVec3DMirrorAxis_zVec3DMirrorAxis, abs_abs]

/-- The copy of an ellipsoid keeps the frame, stores the absolute values of the radii and
replaces a zero division count by the default. -/
theorem zEllips3DCopy_eq (D : Int) (src : zEllips3D K) :
    zEllips3DCopy D src
      = ⟨src.f, ⟨|src.rad.x|, |src.rad.y|, |src.rad.z|⟩, if src.div = 0 then D else src.div⟩ :=
  rfl

/-- The entries of `r m rᵀ` for a diagonal matrix `m`, in terms of the matrix library. -/
theorem zRotMat3D_diag_toMatrix (r : zMat3D K) (a b c : K) :
    (zRotMat3D r (zMat3DCreate a 0 0 0 b 0 0 0 c)).toMatrix
      = r.toMatrix * Matrix.diagonal ![a, b, c] * Matrix.transpose r.toMatrix := by
  ext i j
  fin_cases i <;> fin_cases j <;>
    simp only [Matrix.mul_apply, Fin.sum_univ_three, Matrix.transpose_apply,
      Matrix.diagonal_apply] <;>
    simp [zMat3D.toMatrix, zRotMat3D, zMulMat3DMat3DT, zMulMat3DMat3D, zMulMat3DVec3D,
      zMat3DCreate]

end ShapeLemmas

/-! ## Claims on copy, mirror and mass properties -/

section ShapeClaims

variable {K : Type} [LinearOrderedField K]

/-- C11 (as amended): for every box `b` with non-negative extents and every axis `a`,
mirroring twice along `a` reproduces the original exactly:
`zBox3DMirror(zBox3DMirror(b, a), a) = b` in every field. -/
theorem zBox3DMirror_twice_of_nonneg (b : zBox3D K) (a : zDir)
    (hdia : ∀ d : zDir, 0 ≤ zBox3DDia b d) :
    zBox3DMirror (zBox3DMirror b a) a = b := by
  have hx : |b.dia.x| = b.dia.x := abs_of_nonneg (hdia zDir.zX)
  have hy : |b.dia.y| = b.dia.y := abs_of_nonneg (hdia zDir.zY)
  have hz : |b.dia.z| = b.dia.z := abs_of_nonneg (hdia zDir.zZ)
  rw [zBox3DMirror_zBox3DMirror_eq, hx, hy, hz]

/-- Witness of C11 (as amended): a box with skew axes and extents (2, 0, 6), mirrored
along y, over the rationals. -/
theorem zBox3DMirror_twice_of_nonneg_witness :
    (∀ d : zDir, 0 ≤ zBox3DDia
      (⟨⟨⟨4, 5, 6⟩, ⟨⟨1, 2, 0⟩, ⟨0, 1, 0⟩, ⟨0, 3, 1⟩⟩⟩, ⟨2, 0, 6⟩⟩ : zBox3D ℚ) d) ∧
    zBox3DMirror (zBox3DMirror
        (⟨⟨⟨4, 5, 6⟩, ⟨⟨1, 2, 0⟩, ⟨0, 1, 0⟩, ⟨0, 3, 1⟩⟩⟩, ⟨2, 0, 6⟩⟩ : zBox3D ℚ) zDir.zY)
        zDir.zY
      = ⟨⟨⟨4, 5, 6⟩, ⟨⟨1, 2, 0⟩, ⟨0, 1, 0⟩, ⟨0, 3, 1⟩⟩⟩, ⟨2, 0, 6⟩⟩ :=
  have hdia : ∀ d : zDir, 0 ≤ zBox3DDia
      (⟨⟨⟨4, 5, 6⟩, ⟨⟨1, 2, 0⟩, ⟨0, 1, 0⟩, ⟨0, 3, 1⟩⟩⟩, ⟨2, 0, 6⟩⟩ : zBox3D ℚ) d := by
    intro d
    cases d <;> simp [zBox3DDia, zVec3D.e]
  ⟨hdia, zBox3DMirror_twice_of_nonneg _ zDir.zY hdia⟩

/-- C11 (counterexample to the claim as stated): the box with identity attitude and
stored extents (-2, 2, 2). `zBox3DMirror` copies with `zBox3DCopy`, which stores
`fabs` of the extents, so mirroring twice along x gives the depth 2 and not -2. -/
theorem zBox3DMirror_twice_negative_extent :
    zBox3DMirror (zBox3DMirror
        (⟨⟨⟨0, 0, 0⟩, zMat3DIdent⟩, ⟨-2, 2, 2⟩⟩ : zBox3D ℚ) zDir.zX) zDir.zX
      = ⟨⟨⟨0, 0, 0⟩, zMat3DIdent⟩, ⟨2, 2, 2⟩⟩ ∧
    zBox3DMirror (zBox3DMirror
        (⟨⟨⟨0, 0, 0⟩, zMat3DIdent⟩, ⟨-2, 2, 2⟩⟩ : zBox3D ℚ) zDir.zX) zDir.zX
      ≠ ⟨⟨⟨0, 0, 0⟩, zMat3DIdent⟩, ⟨-2, 2, 2⟩⟩ := by
  have h : zBox3DMirror (zBox3DMirror
      (⟨⟨⟨0, 0, 0⟩, zMat3DIdent⟩, ⟨-2, 2, 2⟩⟩ : zBox3D ℚ) zDir.zX) zDir.zX
      = ⟨⟨⟨0, 0, 0⟩, zMat3DIdent⟩, ⟨2, 2, 2⟩⟩ := by
    rw [zBox3DMirror_zBox3DMirror_eq]
    norm_num [abs_of_nonneg]
  refine ⟨h, ?_⟩
  rw [h]
  intro e
  have e2 : (2 : ℚ) = -2 := congrArg (fun b : zBox3D ℚ => b.dia.x) e
  norm_num at e2

/-- C12 (as amended): for every ellipsoid record `src` with non-negative stored radii
and a non-zero division count, `zEllips3DCopy(src, dest)` leaves `dest` equal to `src`
in every field. -/
theorem zEllips3DCopy_of_valid (ZEO_SHAPE_DEFAULT_DIV : Int) (src : zEllips3D K)
    (hrx : 0 ≤ zEllips3DRadiusX src) (hry : 0 ≤ zEllips3DRadiusY src)
    (hrz : 0 ≤ zEllips3DRadiusZ src) (hdiv : zEllips3DDiv src ≠ 0) :
    zEllips3DCopy ZEO_SHAPE_DEFAULT_DIV src = src := by
  have hx : |src.rad.x| = src.rad.x := abs_of_nonneg hrx
  have hy : |src.rad.y| = src.rad.y := abs_of_nonneg hry
  have hz : |src.rad.z| = src.rad.z := abs_of_nonneg hrz
  have hd : (if src.div = 0 then ZEO_SHAPE_DEFAULT_DIV else src.div) = src.div :=
    if_neg hdiv
  rw [zEllips3DCopy_eq, hx, hy, hz, hd]

/-- Witness of C12 (as amended): an ellipsoid with skew axes, radii (1, 0, 3) and
division count -4, with the default 32, over the rationals. -/
theorem zEllips3DCopy_of_valid_witness :
    0 ≤ zEllips3DRadiusX
      (⟨⟨⟨4, 5, 6⟩, ⟨⟨1, 2, 0⟩, ⟨0, 1, 0⟩, ⟨0, 3, 1⟩⟩⟩, ⟨1, 0, 3⟩, -4⟩ : zEllips3D ℚ) ∧
    0 ≤ zEllips3DRadiusY
      (⟨⟨⟨4, 5, 6⟩, ⟨⟨1, 2, 0⟩, ⟨0, 1, 0⟩, ⟨0, 3, 1⟩⟩⟩, ⟨1, 0, 3⟩, -4⟩ : zEllips3D ℚ) ∧
    0 ≤ zEllips3DRadiusZ
      (⟨⟨⟨4, 5, 6⟩, ⟨⟨1, 2, 0⟩, ⟨0, 1, 0⟩, ⟨0, 3, 1⟩⟩⟩, ⟨1, 0, 3⟩, -4⟩ : zEllips3D ℚ) ∧
    zEllips3DDiv
      (⟨⟨⟨4, 5, 6⟩, ⟨⟨1, 2, 0⟩, ⟨0, 1, 0⟩, ⟨0, 3, 1⟩⟩⟩, ⟨1, 0, 3⟩, -4⟩ : zEllips3D ℚ) ≠ 0 ∧
    zEllips3DCopy 32
      (⟨⟨⟨4, 5, 6⟩, ⟨⟨1, 2, 0⟩, ⟨0, 1, 0⟩, ⟨0, 3, 1⟩⟩⟩, ⟨1, 0, 3⟩, -4⟩ : zEllips3D ℚ)
      = ⟨⟨⟨4, 5, 6⟩, ⟨⟨1, 2, 0⟩, ⟨0, 1, 0⟩, ⟨0, 3, 1⟩⟩⟩, ⟨1, 0, 3⟩, -4⟩ :=
  have hx : 0 ≤ zEllips3DRadiusX
      (⟨⟨⟨4, 5, 6⟩, ⟨⟨1, 2, 0⟩, ⟨0, 1, 0⟩, ⟨0, 3, 1⟩⟩⟩, ⟨1, 0, 3⟩, -4⟩ : zEllips3D ℚ) := by
    simp [zEllips3DRadiusX, zVec3D.e]
  have hy : 0 ≤ zEllips3DRadiusY
      (⟨⟨⟨4, 5, 6⟩, ⟨⟨1, 2, 0⟩, ⟨0, 1, 0⟩, ⟨0, 3, 1⟩⟩⟩, ⟨1, 0, 3⟩, -4⟩ : zEllips3D ℚ) := by
    simp [zEllips3DRadiusY, zVec3D.e]
  have hz : 0 ≤ zEllips3DRadiusZ
      (⟨⟨⟨4, 5, 6⟩, ⟨⟨1, 2, 0⟩, ⟨0, 1, 0⟩, ⟨0, 3, 1⟩⟩⟩, ⟨1, 0, 3⟩, -4⟩ : zEllips3D ℚ) := by
    simp [zEllips3DRadiusZ, zVec3D.e]
  have hd : zEllips3DDiv
      (⟨⟨⟨4, 5, 6⟩, ⟨⟨1, 2, 0⟩, ⟨0, 1, 0⟩, ⟨0, 3, 1⟩⟩⟩, ⟨1, 0, 3⟩, -4⟩ : zEllips3D ℚ)
      ≠ 0 := by
    simp [zEllips3DDiv]
  ⟨hx, hy, hz, hd, zEllips3DCopy_of_valid 32 _ hx hy hz hd⟩

/-- C12 (counterexample to the claim as stated): with the default division count 32,
the record with stored radii (-1, 2, 3) is copied with radii (1, 2, 3), and the record
with stored division count 0 is copied with division count 32: `zEllips3DCopy` goes
through `zEllips3DCreate`, which takes `fabs` of the radii and replaces a zero `div`. -/
theorem zEllips3DCopy_not_verbatim :
    (zEllips3DCopy 32 (⟨⟨⟨0, 0, 0⟩, zMat3DIdent⟩, ⟨-1, 2, 3⟩, 8⟩ : zEllips3D ℚ)).rad
      = ⟨1, 2, 3⟩ ∧
    zEllips3DCopy 32 (⟨⟨⟨0, 0, 0⟩, zMat3DIdent⟩, ⟨-1, 2, 3⟩, 8⟩ : zEllips3D ℚ)
      ≠ ⟨⟨⟨0, 0, 0⟩, zMat3DIdent⟩, ⟨-1, 2, 3⟩, 8⟩ ∧
    (zEllips3DCopy 32 (⟨⟨⟨0, 0, 0⟩, zMat3DIdent⟩, ⟨1, 2, 3⟩, 0⟩ : zEllips3D ℚ)).div = 32 ∧
    zEllips3DCopy 32 (⟨⟨⟨0, 0, 0⟩, zMat3DIdent⟩, ⟨1, 2, 3⟩, 0⟩ : zEllips3D ℚ)
      ≠ ⟨⟨⟨0, 0, 0⟩, zMat3DIdent⟩, ⟨1, 2, 3⟩, 0⟩ := by
  have h1 : (zEllips3DCopy 32
      (⟨⟨⟨0, 0, 0⟩, zMat3DIdent⟩, ⟨-1, 2, 3⟩, 8⟩ : zEllips3D ℚ)).rad = ⟨1, 2, 3⟩ := by
    rw [zEllips3DCopy_eq]
    norm_num [abs_of_nonneg]
  have h2 : (zEllips3DCopy 32
      (⟨⟨⟨0, 0, 0⟩, zMat3DIdent⟩, ⟨1, 2, 3⟩, 0⟩ : zEllips3D ℚ)).div = 32 := by
    rw [zEllips3DCopy_eq]
    simp
  refine ⟨h1, ?_, h2, ?_⟩
  · intro e
    rw [e] at h1
    have e2 : (-1 : ℚ) = 1 := congrArg zVec3D.x h1
    norm_num at e2
  · intro e
    rw [e] at h2
    norm_num at h2

/-- C13 (as amended): for every rx, ry, rz and div, `zEllips3DCreate` stores the radii
|rx|, |ry|, |rz|, which are non-negative, and stores the division count
`ZEO_SHAPE_DEFAULT_DIV` when div = 0 and div otherwise; with a positive default, the
stored division count is non-zero, and it is positive whenever div >= 0. -/
theorem zEllips3DCreate_stores (ZEO_SHAPE_DEFAULT_DIV : Int)
    (hdef : 0 < ZEO_SHAPE_DEFAULT_DIV) (c ax ay az : zVec3D K) (rx ry rz : K) (div : Int) :
    zEllips3DRadiusX (zEllips3DCreate ZEO_SHAPE_DEFAULT_DIV c ax ay az rx ry rz div) = |rx| ∧
    zEllips3DRadiusY (zEllips3DCreate ZEO_SHAPE_DEFAULT_DIV c ax ay az rx ry rz div) = |ry| ∧
    zEllips3DRadiusZ (zEllips3DCreate ZEO_SHAPE_DEFAULT_DIV c ax ay az rx ry rz div) = |rz| ∧
    0 ≤ zEllips3DRadiusX (zEllips3DCreate ZEO_SHAPE_DEFAULT_DIV c ax ay az rx ry rz div) ∧
    0 ≤ zEllips3DRadiusY (zEllips3DCreate ZEO_SHAPE_DEFAULT_DIV c ax ay az rx ry rz div) ∧
    0 ≤ zEllips3DRadiusZ (zEllips3DCreate ZEO_SHAPE_DEFAULT_DIV c ax ay az rx ry rz div) ∧
    zEllips3DDiv (zEllips3DCreate ZEO_SHAPE_DEFAULT_DIV c ax ay az rx ry rz div)
      = (if div = 0 then ZEO_SHAPE_DEFAULT_DIV else div) ∧
    zEllips3DDiv (zEllips3DCreate ZEO_SHAPE_DEFAULT_DIV c ax ay az rx ry rz div) ≠ 0 ∧
    (0 ≤ div →
      0 < zEllips3DDiv (zEllips3DCreate ZEO_SHAPE_DEFAULT_DIV c ax ay az rx ry rz div)) := by
  refine ⟨rfl, rfl, rfl, abs_nonneg rx, abs_nonneg ry, abs_nonneg rz, rfl, ?_, ?_⟩
  · simp only [zEllips3DDiv, zEllips3DCreate]
    split_ifs with h
    · exact hdef.ne'
    · exact h
  · intro hdiv
    simp only [zEllips3DDiv, zEllips3DCreate]
    split_ifs with h
    · exact hdef
    · exact lt_of_le_of_ne hdiv (Ne.symm h)

/-- Witness of C13 (as amended): the default 32, radii (-1, 2, -3) and div = 0, over the
rationals. -/
theorem zEllips3DCreate_stores_witness :
    (0 : Int) < 32 ∧
    zEllips3DRadiusX (zEllips3DCreate 32 (⟨0, 0, 0⟩ : zVec3D ℚ) ⟨1, 0, 0⟩ ⟨0, 1, 0⟩
      ⟨0, 0, 1⟩ (-1) 2 (-3) 0) = |(-1 : ℚ)| ∧
    zEllips3DDiv (zEllips3DCreate 32 (⟨0, 0, 0⟩ : zVec3D ℚ) ⟨1, 0, 0⟩ ⟨0, 1, 0⟩
      ⟨0, 0, 1⟩ (-1) 2 (-3) 0) = 32 :=
  have h := zEllips3DCreate_stores 32 (by decide) (⟨0, 0, 0⟩ : zVec3D ℚ) ⟨1, 0, 0⟩
    ⟨0, 1, 0⟩ ⟨0, 0, 1⟩ (-1) 2 (-3) 0
  ⟨by decide, h.1, h.2.2.2.2.2.2.1⟩

/-- C13 (counterexample to the claim as stated): with the default 32 and div = -1,
`zEllips3DCreate` stores the division count -1, which is not a positive integer. -/
theorem zEllips3DCreate_negative_div :
    zEllips3DDiv (zEllips3DCreate 32 (⟨0, 0, 0⟩ : zVec3D ℚ) ⟨1, 0, 0⟩ ⟨0, 1, 0⟩
      ⟨0, 0, 1⟩ 1 2 3 (-1)) = -1 ∧
    ¬ 0 < zEllips3DDiv (zEllips3DCreate 32 (⟨0, 0, 0⟩ : zVec3D ℚ) ⟨1, 0, 0⟩ ⟨0, 1, 0⟩
      ⟨0, 0, 1⟩ 1 2 3 (-1)) := by
  have h : zEllips3DDiv (zEllips3DCreate 32 (⟨0, 0, 0⟩ : zVec3D ℚ) ⟨1, 0, 0⟩ ⟨0, 1, 0⟩
      ⟨0, 0, 1⟩ 1 2 3 (-1)) = -1 := by
    simp [zEllips3DDiv, zEllips3DCreate]
  refine ⟨h, ?_⟩
  rw [h]
  decide

/-- C14: for every box `b` and every frame `F`, `zBox3DVolume(b)` is
`depth * width * height`, and it is the same for `zBox3DXform(b, F)` and for
`zBox3DXformInv(b, F)`. -/
theorem zBox3DVolume_invariant (b : zBox3D K) (F : zFrame3D K) :
    zBox3DVolume b = b.dia.x * b.dia.y * b.dia.z ∧
    zBox3DVolume (zBox3DXform b F) = zBox3DVolume b ∧
    zBox3DVolume (zBox3DXformInv b F) = zBox3DVolume b :=
  ⟨rfl, rfl, rfl⟩

/-- C15: for every ellipsoid, `zEllips3DVolume` returns `(4/3)*pi*rx*ry*rz`, whatever the
frame (here: the same value after the frame is replaced by any other); for the radii
(1, 2, 3) it returns `8*pi`. -/
theorem zEllips3DVolume_formula (zPI : K) (ellips : zEllips3D K) (f : zFrame3D K)
    (div : Int) :
    zEllips3DVolume zPI ellips
      = 4 / 3 * zPI * ellips.rad.x * ellips.rad.y * ellips.rad.z ∧
    zEllips3DVolume zPI ⟨f, ellips.rad, ellips.div⟩ = zEllips3DVolume zPI ellips ∧
    zEllips3DVolume zPI ⟨f, ⟨1, 2, 3⟩, div⟩ = 8 * zPI := by
  refine ⟨?_, rfl, ?_⟩
  · simp only [zEllips3DVolume, zEllips3DRadiusX, zEllips3DRadiusY, zEllips3DRadiusZ,
      zVec3D.e]
    ring
  · simp only [zEllips3DVolume, zEllips3DRadiusX, zEllips3DRadiusY, zEllips3DRadiusZ,
      zVec3D.e]
    ring

/-- C16: for every box with attitude `R` and volume `V = d*w*h`, `zBox3DInertia` returns
`R * diag(V/12*(w^2+h^2), V/12*(h^2+d^2), V/12*(d^2+w^2)) * R^T`. -/
theorem zBox3DInertia_eq (box : zBox3D K) :
    (zBox3DInertia box).toMatrix
      = box.f.att.toMatrix
        * Matrix.diagonal
            ![box.dia.x * box.dia.y * box.dia.z / 12 * (box.dia.y ^ 2 + box.dia.z ^ 2),
              box.dia.x * box.dia.y * box.dia.z / 12 * (box.dia.z ^ 2 + box.dia.x ^ 2),
              box.dia.x * box.dia.y * box.dia.z / 12 * (box.dia.x ^ 2 + box.dia.y ^ 2)]
        * Matrix.transpose box.f.att.toMatrix := by
  have h1 : zSqr (zBox3DWidth box) * (zBox3DVolume box / 12)
      + zSqr (zBox3DHeight box) * (zBox3DVolume box / 12)
      = box.dia.x * box.dia.y * box.dia.z / 12 * (box.dia.y ^ 2 + box.dia.z ^ 2) := by
    simp only [zBox3DVolume, zBox3DDepth, zBox3DWidth, zBox3DHeight, zBox3DDia, zVec3D.e,
      zSqr]
    ring
  have h2 : zSqr (zBox3DHeight box) * (zBox3DVolume box / 12)
      + zSqr (zBox3DDepth box) * (zBox3DVolume box / 12)
      = box.dia.x * box.dia.y * box.dia.z / 12 * (box.dia.z ^ 2 + box.dia.x ^ 2) := by
    simp only [zBox3DVolume, zBox3DDepth, zBox3DWidth, zBox3DHeight, zBox3DDia, zVec3D.e,
      zSqr]
    ring
  have h3 : zSqr (zBox3DDepth box) * (zBox3DVolume box / 12)
      + zSqr (zBox3DWidth box) * (zBox3DVolume box / 12)
      = box.dia.x * box.dia.y * box.dia.z / 12 * (box.dia.x ^ 2 + box.dia.y ^ 2) := by
    simp only [zBox3DVolume, zBox3DDepth, zBox3DWidth, zBox3DHeight, zBox3DDia, zVec3D.e,
      zSqr]
    ring
  simp only [zBox3DInertia]
  rw [zRotMat3D_diag_toMatrix, h1, h2, h3]

/-- C17: for every ellipsoid with attitude `R` and volume `V = (4/3)*pi*rx*ry*rz`,
`zEllips3DInertia` returns
`R * diag(V/5*(ry^2+rz^2), V/5*(rz^2+rx^2), V/5*(rx^2+ry^2)) * R^T`. -/
theorem zEllips3DInertia_eq (zPI : K) (ellips : zEllips3D K) :
    (zEllips3DInertia zPI ellips).toMatrix
      = ellips.f.att.toMatrix
        * Matrix.diagonal
            ![4 / 3 * zPI * ellips.rad.x * ellips.rad.y * ellips.rad.z / 5
                * (ellips.rad.y ^ 2 + ellips.rad.z ^ 2),
              4 / 3 * zPI * ellips.rad.x * ellips.rad.y * ellips.rad.z / 5
                * (ellips.rad.z ^ 2 + ellips.rad.x ^ 2),
              4 / 3 * zPI * ellips.rad.x * ellips.rad.y * ellips.rad.z / 5
                * (ellips.rad.x ^ 2 + ellips.rad.y ^ 2)]
        * Matrix.transpose ellips.f.att.toMatrix := by
  have h1 : zSqr (zEllips3DRadiusY ellips) * (1 / 5 * zEllips3DVolume zPI ellips)
      + zSqr (zEllips3DRadiusZ ellips) * (1 / 5 * zEllips3DVolume zPI ellips)
      = 4 / 3 * zPI * ellips.rad.x * ellips.rad.y * ellips.rad.z / 5
          * (ellips.rad.y ^ 2 + ellips.rad.z ^ 2) := by
    simp only [zEllips3DVolume, zEllips3DRadiusX, zEllips3DRadiusY, zEllips3DRadiusZ,
      zVec3D.e, zSqr]
    ring
  have h2 : zSqr (zEllips3DRadiusZ ellips) * (1 / 5 * zEllips3DVolume zPI ellips)
      + zSqr (zEllips3DRadiusX ellips) * (1 / 5 * zEllips3DVolume zPI ellips)
      = 4 / 3 * zPI * ellips.rad.x * ellips.rad.y * ellips.rad.z / 5
          * (ellips.rad.z ^ 2 + ellips.rad.x ^ 2) := by
    simp only [zEllips3DVolume, zEllips3DRadiusX, zEllips3DRadiusY, zEllips3DRadiusZ,
      zVec3D.e, zSqr]
    ring
  have h3 : zSqr (zEllips3DRadiusX ellips) * (1 / 5 * zEllips3DVolume zPI ellips)
      + zSqr (zEllips3DRadiusY ellips) * (1 / 5 * zEllips3DVolume zPI ellips)
      = 4 / 3 * zPI * ellips.rad.x * ellips.rad.y * ellips.rad.z / 5
          * (ellips.rad.x ^ 2 + ellips.rad.y ^ 2) := by
    simp only [zEllips3DVolume, zEllips3DRadiusX, zEllips3DRadiusY, zEllips3DRadiusZ,
      zVec3D.e, zSqr]
    ring
  simp only [zEllips3DInertia]
  rw [zRotMat3D_diag_toMatrix, h1, h2, h3]

end ShapeClaims

/-! ## Lemmas on the mesh of the box -/

section MeshLemmas

variable {K : Type} [LinearOrderedField K]

/-- The polyhedron built by `zBox3DToPH` when the allocation succeeds. -/
theorem zBox3DToPH_eq (box : zBox3D K) :
    zBox3DToPH true box
      = some ⟨[zBox3DVert box 0, zBox3DVert box 1, zBox3DVert box 2, zBox3DVert box 3,
          zBox3DVert box 4, zBox3DVert box 5, zBox3DVert box 6, zBox3DVert box 7],
        [(0, 1, 2), (0, 2, 3), (0, 4, 5), (0, 5, 1), (1, 5, 6), (1, 6, 2), (2, 6, 7),
          (2, 7, 3), (3, 7, 4), (3, 4, 0), (7, 6, 5), (7, 5, 4)]⟩ := rfl

/-- A vertex of the box is the frame image of the corner selected by the sign tests. -/
theorem zBox3DVert_eq_corner (box : zBox3D K) (i : Nat) :
    zBox3DVert box i = zXform3D box.f (zBox3DCorner box (zBox3DVertSign i)) := by
  simp only [zBox3DVert, zXform3DDRC, zBox3DCorner, zBox3DVertSign, zSigned]
  congr 1
  ext
  · by_cases h : ((i &&& 0x1) ^^^ ((i >>> 1) &&& 0x1)) ≠ 0
    · rw [if_pos h, if_pos (decide_eq_true h)]
      ring
    · simp only [h, if_false, decide_False, Bool.false_eq_true]
      ring
  · by_cases h : (i &&& 0x2) ≠ 0
    · rw [if_pos h, if_pos (decide_eq_true h)]
      ring
    · simp only [h, if_false, decide_False, Bool.false_eq_true]
      ring
  · by_cases h : (i &&& 0x4) ≠ 0
    · rw [if_pos h, if_pos (decide_eq_true h)]
      ring
    · simp only [h, if_false, decide_False, Bool.false_eq_true]
      ring

/-- The map from the vertex index to the sign pattern is a bijection. -/
theorem zBox3DVertSign_bijective :
    Function.Bijective (fun i : Fin 8 => zBox3DVertSign i.1) := by
  decide

/-- The triple product of a triangle of frame images with respect to the origin of the
frame is the determinant of the attitude times the local triple product. -/
theorem zXform3D_triple (f : zFrame3D K) (l0 l1 l2 : zVec3D K) :
    zVec3DInnerProd
        (zVec3DOuterProd (zVec3DSub (zXform3D f l1) (zXform3D f l0))
          (zVec3DSub (zXform3D f l2) (zXform3D f l0)))
        (zVec3DSub (zXform3D f l0) f.pos)
      = zMat3DDet f.att
        * zVec3DInnerProd (zVec3DOuterProd (zVec3DSub l1 l0) (zVec3DSub l2 l0)) l0 := by
  simp only [zVec3DInnerProd, zVec3DOuterProd, zVec3DSub, zXform3D, zVec3DAdd,
    zMulMat3DVec3D, zMat3DDet]
  ring

/-- The square of the determinant of an orthonormal attitude is one. -/
theorem zMat3DDet_mul_self {m : zMat3D K} (h : m.Orthonormal) :
    zMat3DDet m * zMat3DDet m = 1 := by
  obtain ⟨h00, h11, h22, h01, h12, h20⟩ := h
  have key : zMat3DDet m * zMat3DDet m
      = zVec3DInnerProd m.v0 m.v0
          * (zVec3DInnerProd m.v1 m.v1 * zVec3DInnerProd m.v2 m.v2
            - zVec3DInnerProd m.v1 m.v2 * zVec3DInnerProd m.v1 m.v2)
        - zVec3DInnerProd m.v0 m.v1
          * (zVec3DInnerProd m.v0 m.v1 * zVec3DInnerProd m.v2 m.v2
            - zVec3DInnerProd m.v1 m.v2 * zVec3DInnerProd m.v2 m.v0)
        + zVec3DInnerProd m.v2 m.v0
          * (zVec3DInnerProd m.v0 m.v1 * zVec3DInnerProd m.v1 m.v2
            - zVec3DInnerProd m.v1 m.v1 * zVec3DInnerProd m.v2 m.v0) := by
    simp only [zMat3DDet, zVec3DInnerProd, zVec3DOuterProd]
    ring
  rw [key, h00, h11, h22, h01, h12, h20]
  ring

/-- The determinant of a right-handed orthonormal attitude is one. -/
theorem zMat3DDet_of_rightHanded {m : zMat3D K} (h : m.Orthonormal) (hr : m.RightHanded) :
    zMat3DDet m = 1 := by
  rw [zMat3DDet, hr]
  exact h.2.2.1

/-- The sign patterns of the eight vertex indices. -/
theorem zBox3DVertSign_table :
    zBox3DVertSign 0 = (false, false, false) ∧ zBox3DVertSign 1 = (true, false, false) ∧
    zBox3DVertSign 2 = (true, true, false) ∧ zBox3DVertSign 3 = (false, true, false) ∧
    zBox3DVertSign 4 = (false, false, true) ∧ zBox3DVertSign 5 = (true, false, true) ∧
    zBox3DVertSign 6 = (true, true, true) ∧ zBox3DVertSign 7 = (false, true, true) := by
  decide

/-- The vertex buffer of the polyhedron of a box holds the eight vertices in order. -/
theorem zBox3DToPH_vert (box : zBox3D K) (ph : zPH3D K)
    (h : zBox3DToPH true box = some ph) (i : Nat) (hi : i < 8) :
    zPH3DVert ph i = zXform3D box.f (zBox3DCorner box (zBox3DVertSign i)) := by
  rw [zBox3DToPH_eq] at h
  cases h
  rw [← zBox3DVert_eq_corner]
  interval_cases i <;> rfl

/-- Every face of the polyhedron of a box refers to vertices of the buffer. -/
theorem zBox3DToPH_face_lt (box : zBox3D K) (ph : zPH3D K)
    (h : zBox3DToPH true box = some ph) (t : Nat × Nat × Nat) (ht : t ∈ ph.face) :
    t.1 < 8 ∧ t.2.1 < 8 ∧ t.2.2 < 8 := by
  rw [zBox3DToPH_eq] at h
  cases h
  have hall : ∀ u ∈ [(0, 1, 2), (0, 2, 3), (0, 4, 5), (0, 5, 1), (1, 5, 6), (1, 6, 2),
      (2, 6, 7), (2, 7, 3), (3, 7, 4), (3, 4, 0), (7, 6, 5), ((7, 5, 4) : Nat × Nat × Nat)],
      u.1 < 8 ∧ u.2.1 < 8 ∧ u.2.2 < 8 := by
    decide
  exact hall t ht

/-- The local triple product of every face of the polyhedron of a box is half the
product of the three extents. -/
theorem zBox3DToPH_local_triple (box : zBox3D K) (ph : zPH3D K)
    (h : zBox3DToPH true box = some ph) (t : Nat × Nat × Nat) (ht : t ∈ ph.face) :
    zVec3DInnerProd
        (zVec3DOuterProd
          (zVec3DSub (zBox3DCorner box (zBox3DVertSign t.2.1))
            (zBox3DCorner box (zBox3DVertSign t.1)))
          (zVec3DSub (zBox3DCorner box (zBox3DVertSign t.2.2))
            (zBox3DCorner box (zBox3DVertSign t.1))))
        (zBox3DCorner box (zBox3DVertSign t.1))
      = zBox3DDepth box * zBox3DWidth box * zBox3DHeight box / 2 := by
  rw [zBox3DToPH_eq] at h
  cases h
  obtain ⟨s0, s1, s2, s3, s4, s5, s6, s7⟩ := zBox3DVertSign_table
  simp only [List.mem_cons, List.mem_singleton, List.not_mem_nil, or_false] at ht
  rcases ht with rfl | rfl | rfl | rfl | rfl | rfl | rfl | rfl | rfl | rfl | rfl | rfl <;>
    simp only [s0, s1, s2, s3, s4, s5, s6, s7, zBox3DCorner, zSigned, zVec3DInnerProd,
      zVec3DOuterProd, zVec3DSub, if_true, if_false, Bool.false_eq_true] <;>
    ring

/-- The triple product of every face of the polyhedron of a box, with respect to the
centre of the box. -/
theorem zBox3DToPH_face_triple (box : zBox3D K) (ph : zPH3D K)
    (h : zBox3DToPH true box = some ph) (t : Nat × Nat × Nat) (ht : t ∈ ph.face) :
    zVec3DInnerProd
        (zVec3DOuterProd (zVec3DSub (zPH3DVert ph t.2.1) (zPH3DVert ph t.1))
          (zVec3DSub (zPH3DVert ph t.2.2) (zPH3DVert ph t.1)))
        (zVec3DSub (zPH3DVert ph t.1) (zBox3DCenter box))
      = zMat3DDet box.f.att
        * (zBox3DDepth box * zBox3DWidth box * zBox3DHeight box / 2) := by
  obtain ⟨h0, h1, h2⟩ := zBox3DToPH_face_lt box ph h t ht
  rw [zBox3DToPH_vert box ph h _ h0, zBox3DToPH_vert box ph h _ h1,
    zBox3DToPH_vert box ph h _ h2, zBox3DCenter, zXform3D_triple,
    zBox3DToPH_local_triple box ph h t ht]

/-- The local coordinate along an axis of a corner of the box. -/
theorem zBox3DCorner_e (box : zBox3D K) (s : Bool × Bool × Bool) :
    (zBox3DCorner box s).e zDir.zX = zSigned s.1 (zBox3DDia box zDir.zX / 2) ∧
    (zBox3DCorner box s).e zDir.zY = zSigned s.2.1 (zBox3DDia box zDir.zY / 2) ∧
    (zBox3DCorner box s).e zDir.zZ = zSigned s.2.2 (zBox3DDia box zDir.zZ / 2) :=
  ⟨rfl, rfl, rfl⟩

/-- The local coordinates of a vertex of the polyhedron of a box with an orthonormal
frame are those of the corner selected by the sign tests. -/
theorem zXform3DInv_zBox3DToPH_vert (box : zBox3D K) (horth : box.f.att.Orthonormal)
    (ph : zPH3D K) (h : zBox3DToPH true box = some ph) (i : Nat) (hi : i < 8) :
    zXform3DInv box.f (zPH3DVert ph i) = zBox3DCorner box (zBox3DVertSign i) := by
  rw [zBox3DToPH_vert box ph h i hi, zXform3DInv_zXform3D horth]

/-- The inner product with the zero vector. -/
theorem zVec3DInnerProd_zero_left (v : zVec3D K) : zVec3DInnerProd ⟨0, 0, 0⟩ v = 0 := by
  simp [zVec3DInnerProd]

/-- Every face of the polyhedron of a box has three non-collinear vertices when the
attitude has a non-zero determinant and the extents are non-zero. -/
theorem zBox3DToPH_not_collinear (box : zBox3D K) (hdet : zMat3DDet box.f.att ≠ 0)
    (hd : zBox3DDepth box ≠ 0) (hw : zBox3DWidth box ≠ 0) (hh : zBox3DHeight box ≠ 0)
    (ph : zPH3D K) (h : zBox3DToPH true box = some ph) (t : Nat × Nat × Nat)
    (ht : t ∈ ph.face) :
    ¬ zCollinear (zPH3DVert ph t.1) (zPH3DVert ph t.2.1) (zPH3DVert ph t.2.2) := by
  intro hcol
  have htri := zBox3DToPH_face_triple box ph h t ht
  rw [zCollinear] at hcol
  rw [hcol, zVec3DInnerProd_zero_left] at htri
  have hne : zMat3DDet box.f.att
      * (zBox3DDepth box * zBox3DWidth box * zBox3DHeight box / 2) ≠ 0 :=
    mul_ne_zero hdet (div_ne_zero (mul_ne_zero (mul_ne_zero hd hw) hh) two_ne_zero)
  exact hne htri.symm

/-- The determinant of an orthonormal attitude is not zero. -/
theorem zMat3DDet_ne_zero {m : zMat3D K} (h : m.Orthonormal) : zMat3DDet m ≠ 0 := by
  intro h0
  have := zMat3DDet_mul_self h
  rw [h0, mul_zero] at this
  exact zero_ne_one this

/-- The two triangles of each pair written by `__zBox3DToPH_tri` use vertices whose sign
on one axis is the same: the pair lies on one face of the local box. -/
theorem zBox3DToPH_pair_sign (box : zBox3D K) (ph : zPH3D K)
    (h : zBox3DToPH true box = some ph) (k : Nat) (hk : k < 6) :
    ∃ d : zDir, ∃ s : Bool,
      ∀ t ∈ [ph.face.getD (2 * k) (0, 0, 0), ph.face.getD (2 * k + 1) (0, 0, 0)],
        ∀ i ∈ [t.1, t.2.1, t.2.2],
          i < 8 ∧ (zBox3DCorner box (zBox3DVertSign i)).e d = zSigned s (zBox3DDia box d / 2) := by
  rw [zBox3DToPH_eq] at h
  cases h
  obtain ⟨ex, ey, ez⟩ : (∀ s, (zBox3DCorner box s).e zDir.zX
        = zSigned s.1 (zBox3DDia box zDir.zX / 2)) ∧
      (∀ s, (zBox3DCorner box s).e zDir.zY = zSigned s.2.1 (zBox3DDia box zDir.zY / 2)) ∧
      (∀ s, (zBox3DCorner box s).e zDir.zZ = zSigned s.2.2 (zBox3DDia box zDir.zZ / 2)) :=
    ⟨fun s => (zBox3DCorner_e box s).1, fun s => (zBox3DCorner_e box s).2.1,
      fun s => (zBox3DCorner_e box s).2.2⟩
  interval_cases k
  · have aux : ∀ t ∈ [(0, 1, 2), ((0, 2, 3) : Nat × Nat × Nat)], ∀ i ∈ [t.1, t.2.1, t.2.2],
        i < 8 ∧ (zBox3DVertSign i).2.2 = false := by decide
    refine ⟨zDir.zZ, false, fun t ht i hi => ⟨(aux t ht i hi).1, ?_⟩⟩
    rw [ez, (aux t ht i hi).2]
  · have aux : ∀ t ∈ [(0, 4, 5), ((0, 5, 1) : Nat × Nat × Nat)], ∀ i ∈ [t.1, t.2.1, t.2.2],
        i < 8 ∧ (zBox3DVertSign i).2.1 = false := by decide
    refine ⟨zDir.zY, false, fun t ht i hi => ⟨(aux t ht i hi).1, ?_⟩⟩
    rw [ey, (aux t ht i hi).2]
  · have aux : ∀ t ∈ [(1, 5, 6), ((1, 6, 2) : Nat × Nat × Nat)], ∀ i ∈ [t.1, t.2.1, t.2.2],
        i < 8 ∧ (zBox3DVertSign i).1 = true := by decide
    refine ⟨zDir.zX, true, fun t ht i hi => ⟨(aux t ht i hi).1, ?_⟩⟩
    rw [ex, (aux t ht i hi).2]
  · have aux : ∀ t ∈ [(2, 6, 7), ((2, 7, 3) : Nat × Nat × Nat)], ∀ i ∈ [t.1, t.2.1, t.2.2],
        i < 8 ∧ (zBox3DVertSign i).2.1 = true := by decide
    refine ⟨zDir.zY, true, fun t ht i hi => ⟨(aux t ht i hi).1, ?_⟩⟩
    rw [ey, (aux t ht i hi).2]
  · have aux : ∀ t ∈ [(3, 7, 4), ((3, 4, 0) : Nat × Nat × Nat)], ∀ i ∈ [t.1, t.2.1, t.2.2],
        i < 8 ∧ (zBox3DVertSign i).1 = false := by decide
    refine ⟨zDir.zX, false, fun t ht i hi => ⟨(aux t ht i hi).1, ?_⟩⟩
    rw [ex, (aux t ht i hi).2]
  · have aux : ∀ t ∈ [(7, 6, 5), ((7, 5, 4) : Nat × Nat × Nat)], ∀ i ∈ [t.1, t.2.1, t.2.2],
        i < 8 ∧ (zBox3DVertSign i).2.2 = true := by decide
    refine ⟨zDir.zZ, true, fun t ht i hi => ⟨(aux t ht i hi).1, ?_⟩⟩
    rw [ez, (aux t ht i hi).2]

end MeshLemmas

/-! ## Claims on the mesh of the box -/

section MeshClaims

variable {K : Type} [LinearOrderedField K]

/-- C18: for every box, `zBox3DToPH` produces exactly 8 vertices and 12 triangular
faces, and the 8 vertices (`zBox3DVert` for i = 0..7) are, in local coordinates, the
sign combinations (± depth/2, ± width/2, ± height/2), the map from the index i to the
sign pattern being a bijection. -/
theorem zBox3DToPH_vertices (box : zBox3D K) :
    ∃ ph : zPH3D K, zBox3DToPH true box = some ph ∧
      ph.vert.length = 8 ∧ ph.face.length = 12 ∧
      (∀ i : Fin 8, zPH3DVert ph i.1 = zBox3DVert box i.1) ∧
      (∀ i : Fin 8, zBox3DVert box i.1
        = zXform3D box.f
            ⟨zSigned (zBox3DVertSign i.1).1 (zBox3DDepth box / 2),
             zSigned (zBox3DVertSign i.1).2.1 (zBox3DWidth box / 2),
             zSigned (zBox3DVertSign i.1).2.2 (zBox3DHeight box / 2)⟩) ∧
      Function.Bijective (fun i : Fin 8 => zBox3DVertSign i.1) := by
  refine ⟨_, zBox3DToPH_eq box, rfl, rfl, ?_, ?_, zBox3DVertSign_bijective⟩
  · intro i
    fin_cases i <;> rfl
  · intro i
    exact zBox3DVert_eq_corner box i.1

/-- C19 (as amended): for every box with non-zero extents and an orthonormal frame,
each of the 12 faces produced by `zBox3DToPH` has three non-collinear vertices. -/
theorem zBox3DToPH_faces_not_collinear (box : zBox3D K) (horth : box.f.att.Orthonormal)
    (hd : zBox3DDepth box ≠ 0) (hw : zBox3DWidth box ≠ 0) (hh : zBox3DHeight box ≠ 0) :
    ∃ ph : zPH3D K, zBox3DToPH true box = some ph ∧ ph.face.length = 12 ∧
      ∀ t ∈ ph.face,
        ¬ zCollinear (zPH3DVert ph t.1) (zPH3DVert ph t.2.1) (zPH3DVert ph t.2.2) :=
  ⟨_, zBox3DToPH_eq box, rfl,
    fun t ht => zBox3DToPH_not_collinear box (zMat3DDet_ne_zero horth) hd hw hh _
      (zBox3DToPH_eq box) t ht⟩

/-- Witness of C19 (as amended): the box of extents (2, -4, 6) in the frame at (1, 1, 1)
whose axes are a quarter turn about z, over the rationals. -/
theorem zBox3DToPH_faces_not_collinear_witness :
    (⟨⟨0, 1, 0⟩, ⟨-1, 0, 0⟩, ⟨0, 0, 1⟩⟩ : zMat3D ℚ).Orthonormal ∧
    zBox3DDepth
      (⟨⟨⟨1, 1, 1⟩, ⟨⟨0, 1, 0⟩, ⟨-1, 0, 0⟩, ⟨0, 0, 1⟩⟩⟩, ⟨2, -4, 6⟩⟩ : zBox3D ℚ) ≠ 0 ∧
    zBox3DWidth
      (⟨⟨⟨1, 1, 1⟩, ⟨⟨0, 1, 0⟩, ⟨-1, 0, 0⟩, ⟨0, 0, 1⟩⟩⟩, ⟨2, -4, 6⟩⟩ : zBox3D ℚ) ≠ 0 ∧
    zBox3DHeight
      (⟨⟨⟨1, 1, 1⟩, ⟨⟨0, 1, 0⟩, ⟨-1, 0, 0⟩, ⟨0, 0, 1⟩⟩⟩, ⟨2, -4, 6⟩⟩ : zBox3D ℚ) ≠ 0 ∧
    ∃ ph : zPH3D ℚ,
      zBox3DToPH true
        (⟨⟨⟨1, 1, 1⟩, ⟨⟨0, 1, 0⟩, ⟨-1, 0, 0⟩, ⟨0, 0, 1⟩⟩⟩, ⟨2, -4, 6⟩⟩ : zBox3D ℚ)
        = some ph ∧ ph.face.length = 12 ∧
      ∀ t ∈ ph.face,
        ¬ zCollinear (zPH3DVert ph t.1) (zPH3DVert ph t.2.1) (zPH3DVert ph t.2.2) :=
  have horth : (⟨⟨0, 1, 0⟩, ⟨-1, 0, 0⟩, ⟨0, 0, 1⟩⟩ : zMat3D ℚ).Orthonormal := by
    simp [zMat3D.Orthonormal, zVec3DInnerProd]
  have hd : zBox3DDepth
      (⟨⟨⟨1, 1, 1⟩, ⟨⟨0, 1, 0⟩, ⟨-1, 0, 0⟩, ⟨0, 0, 1⟩⟩⟩, ⟨2, -4, 6⟩⟩ : zBox3D ℚ) ≠ 0 := by
    simp [zBox3DDepth, zBox3DDia, zVec3D.e]
  have hw : zBox3DWidth
      (⟨⟨⟨1, 1, 1⟩, ⟨⟨0, 1, 0⟩, ⟨-1, 0, 0⟩, ⟨0, 0, 1⟩⟩⟩, ⟨2, -4, 6⟩⟩ : zBox3D ℚ) ≠ 0 := by
    simp [zBox3DWidth, zBox3DDia, zVec3D.e]
  have hh : zBox3DHeight
      (⟨⟨⟨1, 1, 1⟩, ⟨⟨0, 1, 0⟩, ⟨-1, 0, 0⟩, ⟨0, 0, 1⟩⟩⟩, ⟨2, -4, 6⟩⟩ : zBox3D ℚ) ≠ 0 := by
    simp [zBox3DHeight, zBox3DDia, zVec3D.e]
  ⟨horth, hd, hw, hh, zBox3DToPH_faces_not_collinear _ horth hd hw hh⟩

/-- C19 (counterexample to the claim as stated): the box that `zBox3DInit` creates, with
identity attitude and extents (0, 0, 0). All eight vertices of its polyhedron are the
origin, so the three vertices of the face (0, 1, 2) are collinear. The same happens with
extents (2, 2, 2) when the three stored axis vectors are zero. -/
theorem zBox3DToPH_zero_extent_collinear :
    (∃ ph : zPH3D ℚ,
      zBox3DToPH true (⟨⟨⟨0, 0, 0⟩, zMat3DIdent⟩, ⟨0, 0, 0⟩⟩ : zBox3D ℚ) = some ph ∧
      (0, 1, 2) ∈ ph.face ∧
      zCollinear (zPH3DVert ph 0) (zPH3DVert ph 1) (zPH3DVert ph 2)) ∧
    (∃ ph : zPH3D ℚ,
      zBox3DToPH true
        (⟨⟨⟨0, 0, 0⟩, ⟨⟨0, 0, 0⟩, ⟨0, 0, 0⟩, ⟨0, 0, 0⟩⟩⟩, ⟨2, 2, 2⟩⟩ : zBox3D ℚ) = some ph ∧
      (0, 1, 2) ∈ ph.face ∧
      zCollinear (zPH3DVert ph 0) (zPH3DVert ph 1) (zPH3DVert ph 2)) := by
  constructor
  · refine ⟨_, zBox3DToPH_eq _, by decide, ?_⟩
    have h0 := zBox3DToPH_vert _ _ (zBox3DToPH_eq
      (⟨⟨⟨0, 0, 0⟩, zMat3DIdent⟩, ⟨0, 0, 0⟩⟩ : zBox3D ℚ)) 0 (by decide)
    have h1 := zBox3DToPH_vert _ _ (zBox3DToPH_eq
      (⟨⟨⟨0, 0, 0⟩, zMat3DIdent⟩, ⟨0, 0, 0⟩⟩ : zBox3D ℚ)) 1 (by decide)
    have h2 := zBox3DToPH_vert _ _ (zBox3DToPH_eq
      (⟨⟨⟨0, 0, 0⟩, zMat3DIdent⟩, ⟨0, 0, 0⟩⟩ : zBox3D ℚ)) 2 (by decide)
    rw [zCollinear, h0, h1, h2]
    simp [zXform3D_ident, zBox3DCorner, zSigned, zBox3DDepth, zBox3DWidth, zBox3DHeight,
      zBox3DDia, zVec3D.e, zVec3DSub, zVec3DOuterProd]
  · refine ⟨_, zBox3DToPH_eq _, by decide, ?_⟩
    have h0 := zBox3DToPH_vert _ _ (zBox3DToPH_eq
      (⟨⟨⟨0, 0, 0⟩, ⟨⟨0, 0, 0⟩, ⟨0, 0, 0⟩, ⟨0, 0, 0⟩⟩⟩, ⟨2, 2, 2⟩⟩ : zBox3D ℚ)) 0 (by decide)
    have h1 := zBox3DToPH_vert _ _ (zBox3DToPH_eq
      (⟨⟨⟨0, 0, 0⟩, ⟨⟨0, 0, 0⟩, ⟨0, 0, 0⟩, ⟨0, 0, 0⟩⟩⟩, ⟨2, 2, 2⟩⟩ : zBox3D ℚ)) 1 (by decide)
    have h2 := zBox3DToPH_vert _ _ (zBox3DToPH_eq
      (⟨⟨⟨0, 0, 0⟩, ⟨⟨0, 0, 0⟩, ⟨0, 0, 0⟩, ⟨0, 0, 0⟩⟩⟩, ⟨2, 2, 2⟩⟩ : zBox3D ℚ)) 2 (by decide)
    rw [zCollinear, h0, h1, h2]
    simp [zXform3D, zMulMat3DVec3D, zVec3DAdd, zVec3DSub, zVec3DOuterProd]

/-- C20: for every box with positive extents and a right-handed orthonormal frame, each
of the 12 triangles (v0,v1,v2) produced by `zBox3DToPH` is wound outward, the normal
`(v1-v0) x (v2-v0)` having a positive inner product with `v0 - centre`, and the two
triangles of each pair (faces 2k and 2k+1) lie on one face of the box: on one axis, the
local coordinate of all their vertices is the same signed half extent. -/
theorem zBox3DToPH_outward (box : zBox3D K) (horth : box.f.att.Orthonormal)
    (hrh : box.f.att.RightHanded) (hd : 0 < zBox3DDepth box) (hw : 0 < zBox3DWidth box)
    (hh : 0 < zBox3DHeight box) :
    ∃ ph : zPH3D K, zBox3DToPH true box = some ph ∧ ph.face.length = 12 ∧
      (∀ t ∈ ph.face,
        zOutward (zBox3DCenter box) (zPH3DVert ph t.1) (zPH3DVert ph t.2.1)
          (zPH3DVert ph t.2.2)) ∧
      (∀ k : Nat, k < 6 → ∃ d : zDir, ∃ s : Bool,
        ∀ t ∈ [ph.face.getD (2 * k) (0, 0, 0), ph.face.getD (2 * k + 1) (0, 0, 0)],
          ∀ i ∈ [t.1, t.2.1, t.2.2],
            (zXform3DInv box.f (zPH3DVert ph i)).e d = zSigned s (zBox3DDia box d / 2)) := by
  refine ⟨_, zBox3DToPH_eq box, rfl, ?_, ?_⟩
  · intro t ht
    rw [zOutward, zBox3DToPH_face_triple box _ (zBox3DToPH_eq box) t ht,
      zMat3DDet_of_rightHanded horth hrh, one_mul]
    exact div_pos (mul_pos (mul_pos hd hw) hh) two_pos
  · intro k hk
    obtain ⟨d, s, hds⟩ := zBox3DToPH_pair_sign box _ (zBox3DToPH_eq box) k hk
    refine ⟨d, s, fun t ht i hi => ?_⟩
    obtain ⟨hlt, he⟩ := hds t ht i hi
    rw [zXform3DInv_zBox3DToPH_vert box horth _ (zBox3DToPH_eq box) i hlt, he]

/-- Witness of C20: the box of extents (2, 4, 6) in the frame at (1, 1, 1) whose axes are
a quarter turn about z, over the rationals. -/
theorem zBox3DToPH_outward_witness :
    (⟨⟨0, 1, 0⟩, ⟨-1, 0, 0⟩, ⟨0, 0, 1⟩⟩ : zMat3D ℚ).Orthonormal ∧
    (⟨⟨0, 1, 0⟩, ⟨-1, 0, 0⟩, ⟨0, 0, 1⟩⟩ : zMat3D ℚ).RightHanded ∧
    0 < zBox3DDepth
      (⟨⟨⟨1, 1, 1⟩, ⟨⟨0, 1, 0⟩, ⟨-1, 0, 0⟩, ⟨0, 0, 1⟩⟩⟩, ⟨2, 4, 6⟩⟩ : zBox3D ℚ) ∧
    0 < zBox3DWidth
      (⟨⟨⟨1, 1, 1⟩, ⟨⟨0, 1, 0⟩, ⟨-1, 0, 0⟩, ⟨0, 0, 1⟩⟩⟩, ⟨2, 4, 6⟩⟩ : zBox3D ℚ) ∧
    0 < zBox3DHeight
      (⟨⟨⟨1, 1, 1⟩, ⟨⟨0, 1, 0⟩, ⟨-1, 0, 0⟩, ⟨0, 0, 1⟩⟩⟩, ⟨2, 4, 6⟩⟩ : zBox3D ℚ) ∧
    ∃ ph : zPH3D ℚ,
      zBox3DToPH true
        (⟨⟨⟨1, 1, 1⟩, ⟨⟨0, 1, 0⟩, ⟨-1, 0, 0⟩, ⟨0, 0, 1⟩⟩⟩, ⟨2, 4, 6⟩⟩ : zBox3D ℚ)
        = some ph ∧ ph.face.length = 12 ∧
      (∀ t ∈ ph.face,
        zOutward (zBox3DCenter
            (⟨⟨⟨1, 1, 1⟩, ⟨⟨0, 1, 0⟩, ⟨-1, 0, 0⟩, ⟨0, 0, 1⟩⟩⟩, ⟨2, 4, 6⟩⟩ : zBox3D ℚ))
          (zPH3DVert ph t.1) (zPH3DVert ph t.2.1) (zPH3DVert ph t.2.2)) ∧
      (∀ k : Nat, k < 6 → ∃ d : zDir, ∃ s : Bool,
        ∀ t ∈ [ph.face.getD (2 * k) (0, 0, 0), ph.face.getD (2 * k + 1) (0, 0, 0)],
          ∀ i ∈ [t.1, t.2.1, t.2.2],
            (zXform3DInv (⟨⟨1, 1, 1⟩, ⟨⟨0, 1, 0⟩, ⟨-1, 0, 0⟩, ⟨0, 0, 1⟩⟩⟩ : zFrame3D ℚ)
                (zPH3DVert ph i)).e d
              = zSigned s (zBox3DDia
                  (⟨⟨⟨1, 1, 1⟩, ⟨⟨0, 1, 0⟩, ⟨-1, 0, 0⟩, ⟨0, 0, 1⟩⟩⟩, ⟨2, 4, 6⟩⟩ : zBox3D ℚ)
                  d / 2)) :=
  have horth : (⟨⟨0, 1, 0⟩, ⟨-1, 0, 0⟩, ⟨0, 0, 1⟩⟩ : zMat3D ℚ).Orthonormal := by
    simp [zMat3D.Orthonormal, zVec3DInnerProd]
  have hrh : (⟨⟨0, 1, 0⟩, ⟨-1, 0, 0⟩, ⟨0, 0, 1⟩⟩ : zMat3D ℚ).RightHanded := by
    simp [zMat3D.RightHanded, zVec3DOuterProd]
  have hd : 0 < zBox3DDepth
      (⟨⟨⟨1, 1, 1⟩, ⟨⟨0, 1, 0⟩, ⟨-1, 0, 0⟩, ⟨0, 0, 1⟩⟩⟩, ⟨2, 4, 6⟩⟩ : zBox3D ℚ) := by
    simp [zBox3DDepth, zBox3DDia, zVec3D.e]
  have hw : 0 < zBox3DWidth
      (⟨⟨⟨1, 1, 1⟩, ⟨⟨0, 1, 0⟩, ⟨-1, 0, 0⟩, ⟨0, 0, 1⟩⟩⟩, ⟨2, 4, 6⟩⟩ : zBox3D ℚ) := by
    simp [zBox3DWidth, zBox3DDia, zVec3D.e]
  have hh : 0 < zBox3DHeight
      (⟨⟨⟨1, 1, 1⟩, ⟨⟨0, 1, 0⟩, ⟨-1, 0, 0⟩, ⟨0, 0, 1⟩⟩⟩, ⟨2, 4, 6⟩⟩ : zBox3D ℚ) := by
    simp [zBox3DHeight, zBox3DDia, zVec3D.e]
  ⟨horth, hrh, hd, hw, hh, zBox3DToPH_outward _ horth hrh hd hw hh⟩

end MeshClaims

/-! ## Lemmas on the root selection of the ellipsoid -/

section SelectLemmas

variable {K : Type} [LinearOrderedField K]

/-- Searching the indices 0..5 in order finds the first index that passes the test. -/
theorem find?_finRange_eq_some (q : Fin 6 → Bool) (i : Fin 6) :
    (List.finRange 6).find? q = some i ↔ q i = true ∧ ∀ j : Fin 6, j < i → q j = false := by
  rw [List.find?_eq_some]
  constructor
  · rintro ⟨hi, as, bs, hl, has⟩
    refine ⟨hi, fun j hj => ?_⟩
    have hpw := List.pairwise_lt_finRange 6
    rw [hl, List.pairwise_append] at hpw
    have hmem : j ∈ as ++ i :: bs := hl ▸ List.mem_finRange j
    rcases List.mem_append.mp hmem with h | h
    · simpa using has j h
    · rcases List.mem_cons.mp h with h | h
      · exact absurd h (ne_of_lt hj)
      · have := (List.pairwise_cons.mp hpw.2.1).1 j h
        exact absurd hj (not_lt_of_gt this)
  · rintro ⟨hi, hlt⟩
    obtain ⟨as, bs, hl⟩ := List.append_of_mem (List.mem_finRange i)
    refine ⟨hi, as, bs, hl, fun a ha => ?_⟩
    have hpw := List.pairwise_lt_finRange 6
    rw [hl, List.pairwise_append] at hpw
    have := hpw.2.2 a ha i (List.mem_cons_self i bs)
    simp [hlt a this]

/-- The result of `_zEllips3DClosest` as a function of where its loop stops. -/
theorem zEllips3DClosest_aligned_eq (zPexBH : List K → Fin 6 → zComplex K) (rx ry rz : K)
    (v : zVec3D K) :
    _zEllips3DClosest true zPexBH rx ry rz v
      = match (List.finRange 6).find?
          (fun i => decide ((zPexBH (zEllips3DClosestPex rx ry rz v) i).re ≥ 0)) with
        | none => none
        | some i =>
          if zIsTiny (zPexBH (zEllips3DClosestPex rx ry rz v) i).im = true then
            some ⟨v.x / (1 + (zPexBH (zEllips3DClosestPex rx ry rz v) i).re / (rx * rx)),
              v.y / (1 + (zPexBH (zEllips3DClosestPex rx ry rz v) i).re / (ry * ry)),
              v.z / (1 + (zPexBH (zEllips3DClosestPex rx ry rz v) i).re / (rz * rz))⟩
          else none := by
  simp only [_zEllips3DClosest, Bool.not_true, Bool.false_eq_true, if_false, zVec3D.e]
  cases (List.finRange 6).find?
      (fun i => decide ((zPexBH (zEllips3DClosestPex rx ry rz v) i).re ≥ 0)) with
  | none => rfl
  | some i =>
    cases h : zIsTiny (zPexBH (zEllips3DClosestPex rx ry rz v) i).im <;> simp [h]

/-- `_zEllips3DClosest` returns a point exactly when the first entry of the array with a
non-negative real part has a tiny imaginary part; the point is the substitution of the
real part of that entry. -/
theorem zEllips3DClosest_aligned_eq_some_iff (zPexBH : List K → Fin 6 → zComplex K)
    (rx ry rz : K) (v cp : zVec3D K) :
    _zEllips3DClosest true zPexBH rx ry rz v = some cp ↔
      ∃ i : Fin 6,
        (∀ j : Fin 6, j < i → (zPexBH (zEllips3DClosestPex rx ry rz v) j).re < 0) ∧
        0 ≤ (zPexBH (zEllips3DClosestPex rx ry rz v) i).re ∧
        zIsTiny (zPexBH (zEllips3DClosestPex rx ry rz v) i).im = true ∧
        cp = ⟨v.x / (1 + (zPexBH (zEllips3DClosestPex rx ry rz v) i).re / (rx * rx)),
          v.y / (1 + (zPexBH (zEllips3DClosestPex rx ry rz v) i).re / (ry * ry)),
          v.z / (1 + (zPexBH (zEllips3DClosestPex rx ry rz v) i).re / (rz * rz))⟩ := by
  rw [zEllips3DClosest_aligned_eq]
  constructor
  · intro h
    cases hf : (List.finRange 6).find?
        (fun i => decide ((zPexBH (zEllips3DClosestPex rx ry rz v) i).re ≥ 0)) with
    | none =>
      rw [hf] at h
      exact absurd h (by simp)
    | some i =>
      rw [hf] at h
      obtain ⟨hi, hlt⟩ := (find?_finRange_eq_some _ i).mp hf
      by_cases ht : zIsTiny (zPexBH (zEllips3DClosestPex rx ry rz v) i).im = true
      · simp only [ht, if_true, Option.some.injEq] at h
        refine ⟨i, fun j hj => ?_, by simpa using hi, ht, h.symm⟩
        simpa using hlt j hj
      · simp only [ht, if_false] at h
        exact absurd h (by simp)
  · rintro ⟨i, hlt, hi, ht, rfl⟩
    have hf : (List.finRange 6).find?
        (fun i => decide ((zPexBH (zEllips3DClosestPex rx ry rz v) i).re ≥ 0)) = some i :=
      (find?_finRange_eq_some _ i).mpr
        ⟨by simpa using hi, fun j hj => by simpa using hlt j hj⟩
    rw [hf]
    simp only [ht, if_true]

/-- `_zEllips3DClosest` returns `NULL` exactly when no entry of the array has a
non-negative real part, or the first one that has it has an imaginary part that is not
tiny. -/
theorem zEllips3DClosest_aligned_eq_none_iff (zPexBH : List K → Fin 6 → zComplex K)
    (rx ry rz : K) (v : zVec3D K) :
    _zEllips3DClosest true zPexBH rx ry rz v = none ↔
      (∀ i : Fin 6, (zPexBH (zEllips3DClosestPex rx ry rz v) i).re < 0) ∨
      ∃ i : Fin 6,
        (∀ j : Fin 6, j < i → (zPexBH (zEllips3DClosestPex rx ry rz v) j).re < 0) ∧
        0 ≤ (zPexBH (zEllips3DClosestPex rx ry rz v) i).re ∧
        zIsTiny (zPexBH (zEllips3DClosestPex rx ry rz v) i).im = false := by
  rw [zEllips3DClosest_aligned_eq]
  constructor
  · intro h
    cases hf : (List.finRange 6).find?
        (fun i => decide ((zPexBH (zEllips3DClosestPex rx ry rz v) i).re ≥ 0)) with
    | none =>
      left
      intro i
      have := List.find?_eq_none.mp hf i (List.mem_finRange i)
      simpa using this
    | some i =>
      rw [hf] at h
      obtain ⟨hi, hlt⟩ := (find?_finRange_eq_some _ i).mp hf
      right
      refine ⟨i, fun j hj => by simpa using hlt j hj, by simpa using hi, ?_⟩
      by_cases ht : zIsTiny (zPexBH (zEllips3DClosestPex rx ry rz v) i).im = true
      · simp only [ht, if_true] at h
        exact absurd h (by simp)
      · simpa using ht
  · rintro (hall | ⟨i, hlt, hi, ht⟩)
    · have hf : (List.finRange 6).find?
          (fun i => decide ((zPexBH (zEllips3DClosestPex rx ry rz v) i).re ≥ 0)) = none := by
        rw [List.find?_eq_none]
        intro i _
        simpa using hall i
      rw [hf]
    · have hf : (List.finRange 6).find?
          (fun i => decide ((zPexBH (zEllips3DClosestPex rx ry rz v) i).re ≥ 0)) = some i :=
        (find?_finRange_eq_some _ i).mpr
          ⟨by simpa using hi, fun j hj => by simpa using hlt j hj⟩
      rw [hf]
      simp only [ht, Bool.false_eq_true, if_false]

/-- When the point is not classified inside and `_zEllips3DClosest` returns `NULL`,
`zEllips3DClosest` returns the distance to the frame image of the former content of the
buffer `cp`. -/
theorem zEllips3DClosest_of_none (sqrt : K → K) (pexAlloc : Bool)
    (zPexBH : List K → Fin 6 → zComplex K) (ellips : zEllips3D K) (p cp0 : zVec3D K)
    (hin : zEllips3DPointIsInside ellips p true = false)
    (hnone : _zEllips3DClosest pexAlloc zPexBH (zEllips3DRadiusX ellips)
      (zEllips3DRadiusY ellips) (zEllips3DRadiusZ ellips) (zXform3DInv ellips.f p) = none) :
    zEllips3DClosest sqrt pexAlloc zPexBH ellips p cp0
      = (zVec3DDist sqrt p (zXform3D ellips.f cp0), zXform3D ellips.f cp0) := by
  simp only [zEllips3DClosest, hin, Bool.false_eq_true, if_false, hnone, zXform3DDRC]

/-- A failed allocation makes `_zEllips3DClosest` return `NULL`. -/
theorem zEllips3DClosest_aligned_alloc_fail (zPexBH : List K → Fin 6 → zComplex K)
    (rx ry rz : K) (v : zVec3D K) : _zEllips3DClosest false zPexBH rx ry rz v = none := by
  simp [_zEllips3DClosest]

end SelectLemmas

/-! ## Claims on the root selection and on the failure of the solver -/

section SelectClaims

variable {K : Type} [LinearOrderedField K]

/-- C25 (as amended): for every array of six complex roots returned by the root finder,
`_zEllips3DClosest` returns a point exactly when the first entry of the array, in the
order of the indices, whose real part is non-negative has an imaginary part within
tolerance of zero, and the root used for the substitution is the real part of that
entry. -/
theorem zEllips3DClosest_uses_first_nonneg (zPexBH : List K → Fin 6 → zComplex K)
    (rx ry rz : K) (v cp : zVec3D K) :
    _zEllips3DClosest true zPexBH rx ry rz v = some cp ↔
      ∃ i : Fin 6,
        (∀ j : Fin 6, j < i → (zPexBH (zEllips3DClosestPex rx ry rz v) j).re < 0) ∧
        0 ≤ (zPexBH (zEllips3DClosestPex rx ry rz v) i).re ∧
        zIsTiny (zPexBH (zEllips3DClosestPex rx ry rz v) i).im = true ∧
        cp = ⟨v.x / (1 + (zPexBH (zEllips3DClosestPex rx ry rz v) i).re / (rx * rx)),
          v.y / (1 + (zPexBH (zEllips3DClosestPex rx ry rz v) i).re / (ry * ry)),
          v.z / (1 + (zPexBH (zEllips3DClosestPex rx ry rz v) i).re / (rz * rz))⟩ :=
  zEllips3DClosest_aligned_eq_some_iff zPexBH rx ry rz v cp

/-- C25 (counterexample to the claim as stated): with the root array
2, 1, -1, -1, -1, -1, radii 1 and the local point (2,0,0), the loop stops at index 0 and
the substitution uses the root 2, giving (2/3, 0, 0); the entry 1 at index 1 is also
real-valued and non-negative and has a smaller magnitude, and would give (1, 0, 0). -/
theorem zEllips3DClosest_not_smallest :
    _zEllips3DClosest true zPexBHSecondSmaller (1 : ℚ) 1 1 ⟨2, 0, 0⟩
      = some ⟨2 / (1 + 2 / (1 * 1)), 0, 0⟩ ∧
    zIsTiny (zPexBHSecondSmaller (zEllips3DClosestPex (1 : ℚ) 1 1 ⟨2, 0, 0⟩) 1).im = true ∧
    0 ≤ (zPexBHSecondSmaller (zEllips3DClosestPex (1 : ℚ) 1 1 ⟨2, 0, 0⟩) 1).re ∧
    (zPexBHSecondSmaller (zEllips3DClosestPex (1 : ℚ) 1 1 ⟨2, 0, 0⟩) 1).re
      < (zPexBHSecondSmaller (zEllips3DClosestPex (1 : ℚ) 1 1 ⟨2, 0, 0⟩) 0).re ∧
    _zEllips3DClosest true zPexBHSecondSmaller (1 : ℚ) 1 1 ⟨2, 0, 0⟩
      ≠ some ⟨2 / (1 + 1 / (1 * 1)), 0, 0⟩ := by
  have h : _zEllips3DClosest true zPexBHSecondSmaller (1 : ℚ) 1 1 ⟨2, 0, 0⟩
      = some ⟨2 / (1 + 2 / (1 * 1)), 0, 0⟩ := by
    rw [zEllips3DClosest_aligned_eq_some_iff]
    refine ⟨0, fun j hj => absurd hj (by simp), ?_, ?_, ?_⟩
    · simp [zPexBHSecondSmaller]
    · simp [zPexBHSecondSmaller, zIsTiny, zTOL]
    · ext <;> simp [zPexBHSecondSmaller]
  refine ⟨h, ?_, ?_, ?_, ?_⟩
  · simp [zPexBHSecondSmaller, zIsTiny, zTOL]
  · simp [zPexBHSecondSmaller]
  · simp [zPexBHSecondSmaller]
  · rw [h]
    intro e
    have e2 := congrArg zVec3D.x (Option.some.inj e)
    norm_num at e2

/-- C26 (as amended): for every array of six complex roots returned by the root finder,
`_zEllips3DClosest` fails with the fatal error (returns `NULL`) if and only if no entry
of the array has a non-negative real part, or the first entry that has one, in the order
of the indices, has an imaginary part beyond the tolerance. -/
theorem zEllips3DClosest_fails_iff (zPexBH : List K → Fin 6 → zComplex K)
    (rx ry rz : K) (v : zVec3D K) :
    _zEllips3DClosest true zPexBH rx ry rz v = none ↔
      (∀ i : Fin 6, (zPexBH (zEllips3DClosestPex rx ry rz v) i).re < 0) ∨
      ∃ i : Fin 6,
        (∀ j : Fin 6, j < i → (zPexBH (zEllips3DClosestPex rx ry rz v) j).re < 0) ∧
        0 ≤ (zPexBH (zEllips3DClosestPex rx ry rz v) i).re ∧
        zIsTiny (zPexBH (zEllips3DClosestPex rx ry rz v) i).im = false :=
  zEllips3DClosest_aligned_eq_none_iff zPexBH rx ry rz v

/-- C26 (counterexample to the claim as stated): with the root array
1+i, 1, -1, -1, -1, -1, the loop stops at index 0, whose imaginary part 1 is not tiny, and
`_zEllips3DClosest` returns `NULL`, although the entry 1 at index 1 is real-valued and
non-negative. -/
theorem zEllips3DClosest_fails_with_real_root :
    _zEllips3DClosest true zPexBHComplexFirst (1 : ℚ) 1 1 ⟨2, 0, 0⟩ = none ∧
    zIsTiny (zPexBHComplexFirst (zEllips3DClosestPex (1 : ℚ) 1 1 ⟨2, 0, 0⟩) 1).im = true ∧
    0 ≤ (zPexBHComplexFirst (zEllips3DClosestPex (1 : ℚ) 1 1 ⟨2, 0, 0⟩) 1).re := by
  refine ⟨?_, ?_, ?_⟩
  · rw [zEllips3DClosest_aligned_eq_none_iff]
    right
    refine ⟨0, fun j hj => absurd hj (by simp), ?_, ?_⟩
    · simp [zPexBHComplexFirst]
    · simp only [zPexBHComplexFirst, zIsTiny, zTOL, Matrix.cons_val_zero,
        decide_eq_false_iff_not, not_le]
      norm_num
  · simp [zPexBHComplexFirst, zIsTiny, zTOL]
  · simp [zPexBHComplexFirst]

/-- C27 (the code at the failing inputs): for the unit sphere at the origin and the
exterior point (2,0,0), when `zPexAlloc` fails, or when no entry of the root array has a
non-negative real part, `_zEllips3DClosest` returns `NULL` and `zEllips3DClosest`
returns an ordinary pair of distance and point computed from the former content of the
buffer `cp`: distance 3 when the buffer held (5,0,0), distance 0 when it held (2,0,0). -/
theorem zEllips3DClosest_failure_not_signalled :
    _zEllips3DClosest false zPexBHUnitSphere (1 : ℝ) 1 1 ⟨2, 0, 0⟩ = none ∧
    zEllips3DClosest Real.sqrt false zPexBHUnitSphere
      (⟨⟨⟨0, 0, 0⟩, zMat3DIdent⟩, ⟨1, 1, 1⟩, 8⟩ : zEllips3D ℝ) ⟨2, 0, 0⟩ ⟨5, 0, 0⟩
      = (3, ⟨5, 0, 0⟩) ∧
    zEllips3DClosest Real.sqrt false zPexBHUnitSphere
      (⟨⟨⟨0, 0, 0⟩, zMat3DIdent⟩, ⟨1, 1, 1⟩, 8⟩ : zEllips3D ℝ) ⟨2, 0, 0⟩ ⟨2, 0, 0⟩
      = (0, ⟨2, 0, 0⟩) ∧
    _zEllips3DClosest true zPexBHNegative (1 : ℝ) 1 1 ⟨2, 0, 0⟩ = none ∧
    zEllips3DClosest Real.sqrt true zPexBHNegative
      (⟨⟨⟨0, 0, 0⟩, zMat3DIdent⟩, ⟨1, 1, 1⟩, 8⟩ : zEllips3D ℝ) ⟨2, 0, 0⟩ ⟨5, 0, 0⟩
      = (3, ⟨5, 0, 0⟩) := by
  have hfail : _zEllips3DClosest false zPexBHUnitSphere (1 : ℝ) 1 1 ⟨2, 0, 0⟩ = none :=
    zEllips3DClosest_aligned_alloc_fail _ _ _ _ _
  have hneg : _zEllips3DClosest true zPexBHNegative (1 : ℝ) 1 1 ⟨2, 0, 0⟩ = none := by
    rw [zEllips3DClosest_aligned_eq_none_iff]
    left
    intro i
    have hi : zPexBHNegative (zEllips3DClosestPex (1 : ℝ) 1 1 ⟨2, 0, 0⟩) i = ⟨-1, 0⟩ := by
      fin_cases i <;> rfl
    rw [hi]
    norm_num
  have hin := zEllips3DPointIsInside_unit_sphere_two (K := ℝ) 8
  have h9 : zVec3DSqrNorm (zVec3DSub (⟨2, 0, 0⟩ : zVec3D ℝ) ⟨5, 0, 0⟩) = 3 * 3 := by
    norm_num [zVec3DSqrNorm, zVec3DSub, zVec3DInnerProd]
  have hd3 : zVec3DDist Real.sqrt (⟨2, 0, 0⟩ : zVec3D ℝ) ⟨5, 0, 0⟩ = 3 := by
    rw [zVec3DDist, h9]
    exact isSqrt_real.sqrt_mul_self (by norm_num)
  have h0 : zVec3DSqrNorm (zVec3DSub (⟨2, 0, 0⟩ : zVec3D ℝ) ⟨2, 0, 0⟩) = 0 * 0 := by
    norm_num [zVec3DSqrNorm, zVec3DSub, zVec3DInnerProd]
  have hd0 : zVec3DDist Real.sqrt (⟨2, 0, 0⟩ : zVec3D ℝ) ⟨2, 0, 0⟩ = 0 := by
    rw [zVec3DDist, h0]
    exact isSqrt_real.sqrt_mul_self (le_refl 0)
  refine ⟨hfail, ?_, ?_, hneg, ?_⟩
  · rw [zEllips3DClosest_of_none Real.sqrt false zPexBHUnitSphere _ _ _ hin
      (by simpa [zXform3DInv_ident, zEllips3DRadiusX, zEllips3DRadiusY, zEllips3DRadiusZ,
        zVec3D.e] using hfail), zXform3D_ident, hd3]
  · rw [zEllips3DClosest_of_none Real.sqrt false zPexBHUnitSphere _ _ _ hin
      (by simpa [zXform3DInv_ident, zEllips3DRadiusX, zEllips3DRadiusY, zEllips3DRadiusZ,
        zVec3D.e] using hfail), zXform3D_ident, hd0]
  · rw [zEllips3DClosest_of_none Real.sqrt true zPexBHNegative _ _ _ hin
      (by simpa [zXform3DInv_ident, zEllips3DRadiusX, zEllips3DRadiusY, zEllips3DRadiusZ,
        zVec3D.e] using hneg), zXform3D_ident, hd3]

end SelectClaims

/-! ## Frame invariant of the box mutators -/

section FrameInvariant

variable {K : Type} [LinearOrderedField K]

/-- An orthonormal attitude preserves inner products. -/
theorem zVec3DInnerProd_zMulMat3DVec3D {m : zMat3D K} (h : m.Orthonormal) (u w : zVec3D K) :
    zVec3DInnerProd (zMulMat3DVec3D m u) (zMulMat3DVec3D m w) = zVec3DInnerProd u w := by
  obtain ⟨h00, h11, h22, h01, h12, h20⟩ := h
  simp only [zVec3DInnerProd] at h00 h11 h22 h01 h12 h20
  simp only [zVec3DInnerProd, zMulMat3DVec3D]
  linear_combination u.x * w.x * h00 + u.y * w.y * h11 + u.z * w.z * h22
    + (u.x * w.y + u.y * w.x) * h01 + (u.y * w.z + u.z * w.y) * h12
    + (u.z * w.x + u.x * w.z) * h20

/-- The transpose of an orthonormal attitude preserves inner products. -/
theorem zVec3DInnerProd_zMulMat3DTVec3D {m : zMat3D K} (h : m.Orthonormal)
    (u w : zVec3D K) :
    zVec3DInnerProd (zMulMat3DTVec3D m u) (zMulMat3DTVec3D m w) = zVec3DInnerProd u w := by
  obtain ⟨⟨rxx, ryy, rzz⟩, rxy, ryz, rzx⟩ := h.rows
  simp only [zVec3DInnerProd, zMulMat3DTVec3D]
  linear_combination u.x * w.x * rxx + u.y * w.y * ryy + u.z * w.z * rzz
    + (u.x * w.y + u.y * w.x) * rxy + (u.y * w.z + u.z * w.y) * ryz
    + (u.z * w.x + u.x * w.z) * rzx

/-- Mirroring two vectors along the same axis preserves their inner product. -/
theorem zVec3DInnerProd_zVec3DMirrorAxis (u w : zVec3D K) (a : zDir) :
    zVec3DInnerProd (zVec3DMirrorAxis u a) (zVec3DMirrorAxis w a) = zVec3DInnerProd u w := by
  cases a <;> simp only [zVec3DInnerProd, zVec3DMirrorAxis] <;> ring

/-- The axes of a box stay orthonormal under `zBox3DXform` by an orthonormal frame. -/
theorem zBox3DXform_orthonormal (b : zBox3D K) (F : zFrame3D K)
    (hb : b.f.att.Orthonormal) (hF : F.att.Orthonormal) :
    (zBox3DXform b F).f.att.Orthonormal := by
  simp only [zMat3D.Orthonormal, zBox3DXform, zBox3DAxis, zMat3D.v,
    zVec3DInnerProd_zMulMat3DVec3D hF]
  exact hb

/-- The axes of a box stay orthonormal under `zBox3DXformInv` by an orthonormal frame. -/
theorem zBox3DXformInv_orthonormal (b : zBox3D K) (F : zFrame3D K)
    (hb : b.f.att.Orthonormal) (hF : F.att.Orthonormal) :
    (zBox3DXformInv b F).f.att.Orthonormal := by
  simp only [zMat3D.Orthonormal, zBox3DXformInv, zBox3DAxis, zMat3D.v,
    zVec3DInnerProd_zMulMat3DTVec3D hF]
  exact hb

/-- The axes of a box stay orthonormal under `zBox3DMirror`. -/
theorem zBox3DMirror_orthonormal (b : zBox3D K) (a : zDir) (hb : b.f.att.Orthonormal) :
    (zBox3DMirror b a).f.att.Orthonormal := by
  simp only [zMat3D.Orthonormal, zBox3DMirror, zBox3DCopy_eq, zBox3DAxis, zMat3D.v,
    zVec3DInnerProd_zVec3DMirrorAxis]
  exact hb

/-- C29: frame orthonormality is an invariant of the box mutators: for every box whose
three axis vectors are unit length and mutually orthogonal, every frame `F` with
orthonormal attitude and every axis `a`, the results of `zBox3DXform(b, F)`,
`zBox3DXformInv(b, F)`, `zBox3DMirror(b, a)` and `zBox3DCopy(b)` again have unit-length,
mutually orthogonal axis vectors. The queries `zBox3DClosest`, `zBox3DPointIsInside`,
`zBox3DVolume` and `zBox3DInertia` only read the box: they are functions of the box that
return no box, so the box they are given is the box after the call. -/
theorem zBox3D_mutators_keep_orthonormal (b : zBox3D K) (F : zFrame3D K) (a : zDir)
    (hb : b.f.att.Orthonormal) (hF : F.att.Orthonormal) :
    (zBox3DXform b F).f.att.Orthonormal ∧ (zBox3DXformInv b F).f.att.Orthonormal ∧
    (zBox3DMirror b a).f.att.Orthonormal ∧ (zBox3DCopy b).f.att.Orthonormal :=
  ⟨zBox3DXform_orthonormal b F hb hF, zBox3DXformInv_orthonormal b F hb hF,
    zBox3DMirror_orthonormal b a hb, by rw [zBox3DCopy_eq]; exact hb⟩

/-- Witness of C29: the box with identity attitude at (4, 5, 6), the frame at (1, 2, 3)
whose axes are a quarter turn about z, and the axis y, over the rationals. -/
theorem zBox3D_mutators_keep_orthonormal_witness :
    (zMat3DIdent : zMat3D ℚ).Orthonormal ∧
    (⟨⟨0, 1, 0⟩, ⟨-1, 0, 0⟩, ⟨0, 0, 1⟩⟩ : zMat3D ℚ).Orthonormal ∧
    (zBox3DXform (⟨⟨⟨4, 5, 6⟩, zMat3DIdent⟩, ⟨2, 4, 6⟩⟩ : zBox3D ℚ)
      ⟨⟨1, 2, 3⟩, ⟨⟨0, 1, 0⟩, ⟨-1, 0, 0⟩, ⟨0, 0, 1⟩⟩⟩).f.att.Orthonormal ∧
    (zBox3DXformInv (⟨⟨⟨4, 5, 6⟩, zMat3DIdent⟩, ⟨2, 4, 6⟩⟩ : zBox3D ℚ)
      ⟨⟨1, 2, 3⟩, ⟨⟨0, 1, 0⟩, ⟨-1, 0, 0⟩, ⟨0, 0, 1⟩⟩⟩).f.att.Orthonormal ∧
    (zBox3DMirror (⟨⟨⟨4, 5, 6⟩, zMat3DIdent⟩, ⟨2, 4, 6⟩⟩ : zBox3D ℚ)
      zDir.zY).f.att.Orthonormal ∧
    (zBox3DCopy (⟨⟨⟨4, 5, 6⟩, zMat3DIdent⟩, ⟨2, 4, 6⟩⟩ : zBox3D ℚ)).f.att.Orthonormal :=
  have hF : (⟨⟨0, 1, 0⟩, ⟨-1, 0, 0⟩, ⟨0, 0, 1⟩⟩ : zMat3D ℚ).Orthonormal := by
    simp [zMat3D.Orthonormal, zVec3DInnerProd]
  ⟨zMat3DIdent_orthonormal, hF,
    zBox3D_mutators_keep_orthonormal (⟨⟨⟨4, 5, 6⟩, zMat3DIdent⟩, ⟨2, 4, 6⟩⟩ : zBox3D ℚ)
      ⟨⟨1, 2, 3⟩, ⟨⟨0, 1, 0⟩, ⟨-1, 0, 0⟩, ⟨0, 0, 1⟩⟩⟩ zDir.zY zMat3DIdent_orthonormal hF⟩

end FrameInvariant

/-! ## Lemmas on the sextic of the ellipsoid -/

section SexticLemmas

variable {K : Type} [LinearOrderedField K]

/-- The sextic built by `_zEllips3DClosest`, in factored form. -/
theorem zPexVal_zEllips3DClosestPex (rx ry rz : K) (v : zVec3D K) (l : K) :
    zPexVal (zEllips3DClosestPex rx ry rz v) l
      = (rx * rx + l) ^ 2 * (ry * ry + l) ^ 2 * (rz * rz + l) ^ 2
        - zSqr (v.x / rx) * (rx * rx) ^ 2 * (ry * ry + l) ^ 2 * (rz * rz + l) ^ 2
        - zSqr (v.y / ry) * (ry * ry) ^ 2 * (rx * rx + l) ^ 2 * (rz * rz + l) ^ 2
        - zSqr (v.z / rz) * (rz * rz) ^ 2 * (rx * rx + l) ^ 2 * (ry * ry + l) ^ 2 := by
  simp only [zPexVal, zEllips3DClosestPex, List.foldr, zVec3D.e]
  ring

/-- The factored sextic is the product of the three squared denominators and of one
minus the secular sum. -/
theorem zEllips3DSecular_factor (a b c : K) {p q r l : K} (hp : 0 < p) (hq : 0 < q)
    (hr : 0 < r) (hl : 0 ≤ l) :
    (p + l) ^ 2 * (q + l) ^ 2 * (r + l) ^ 2
        - a * p ^ 2 * (q + l) ^ 2 * (r + l) ^ 2
        - b * q ^ 2 * (p + l) ^ 2 * (r + l) ^ 2
        - c * r ^ 2 * (p + l) ^ 2 * (q + l) ^ 2
      = (p + l) ^ 2 * (q + l) ^ 2 * (r + l) ^ 2 * (1 - zEllips3DSecular a b c p q r l) := by
  have h1 : p + l ≠ 0 := by positivity
  have h2 : q + l ≠ 0 := by positivity
  have h3 : r + l ≠ 0 := by positivity
  unfold zEllips3DSecular
  field_simp
  ring

/-- One term of the secular sum does not increase with the multiplier. -/
theorem zEllips3DSecular_term_anti {a p l1 l2 : K} (ha : 0 ≤ a) (hp : 0 < p)
    (h1 : 0 ≤ l1) (h12 : l1 ≤ l2) :
    a * p ^ 2 / (p + l2) ^ 2 ≤ a * p ^ 2 / (p + l1) ^ 2 := by
  have h2 : 0 ≤ l2 := h1.trans h12
  have d1 : 0 < (p + l1) ^ 2 := by positivity
  have d2 : 0 < (p + l2) ^ 2 := by positivity
  rw [div_le_div_iff₀ d2 d1]
  exact mul_le_mul_of_nonneg_left (pow_le_pow_left₀ (by linarith) (by linarith) 2)
    (by positivity)

/-- One term of the secular sum with a positive weight decreases with the multiplier. -/
theorem zEllips3DSecular_term_strict {a p l1 l2 : K} (ha : 0 < a) (hp : 0 < p)
    (h1 : 0 ≤ l1) (h12 : l1 < l2) :
    a * p ^ 2 / (p + l2) ^ 2 < a * p ^ 2 / (p + l1) ^ 2 := by
  have h2 : 0 ≤ l2 := h1.trans h12.le
  have d1 : 0 < (p + l1) ^ 2 := by positivity
  have d2 : 0 < (p + l2) ^ 2 := by positivity
  rw [div_lt_div_iff₀ d2 d1]
  exact mul_lt_mul_of_pos_left (pow_lt_pow_left₀ (by linarith) (by linarith) two_ne_zero)
    (by positivity)

/-- The secular sum does not increase with the multiplier. -/
theorem zEllips3DSecular_anti {a b c p q r l1 l2 : K} (ha : 0 ≤ a) (hb : 0 ≤ b)
    (hc : 0 ≤ c) (hp : 0 < p) (hq : 0 < q) (hr : 0 < r) (h1 : 0 ≤ l1) (h12 : l1 ≤ l2) :
    zEllips3DSecular a b c p q r l2 ≤ zEllips3DSecular a b c p q r l1 := by
  unfold zEllips3DSecular
  have hA := zEllips3DSecular_term_anti ha hp h1 h12
  have hB := zEllips3DSecular_term_anti hb hq h1 h12
  have hC := zEllips3DSecular_term_anti hc hr h1 h12
  linarith

/-- The secular sum of a point other than the centre decreases with the multiplier. -/
theorem zEllips3DSecular_strict {a b c p q r l1 l2 : K} (ha : 0 ≤ a) (hb : 0 ≤ b)
    (hc : 0 ≤ c) (hs : 0 < a + b + c) (hp : 0 < p) (hq : 0 < q) (hr : 0 < r)
    (h1 : 0 ≤ l1) (h12 : l1 < l2) :
    zEllips3DSecular a b c p q r l2 < zEllips3DSecular a b c p q r l1 := by
  unfold zEllips3DSecular
  have hA := zEllips3DSecular_term_anti ha hp h1 h12.le
  have hB := zEllips3DSecular_term_anti hb hq h1 h12.le
  have hC := zEllips3DSecular_term_anti hc hr h1 h12.le
  by_cases ha0 : 0 < a
  · have := zEllips3DSecular_term_strict ha0 hp h1 h12
    linarith
  by_cases hb0 : 0 < b
  · have := zEllips3DSecular_term_strict hb0 hq h1 h12
    linarith
  have hc0 : 0 < c := by
    push_neg at ha0 hb0
    linarith
  have := zEllips3DSecular_term_strict hc0 hr h1 h12
  linarith

/-- At the multiplier zero the secular sum is the quadric sum of the point. -/
theorem zEllips3DSecular_zero (a b c : K) {p q r : K} (hp : 0 < p) (hq : 0 < q)
    (hr : 0 < r) : zEllips3DSecular a b c p q r 0 = a + b + c := by
  have h1 : p ≠ 0 := hp.ne'
  have h2 : q ≠ 0 := hq.ne'
  have h3 : r ≠ 0 := hr.ne'
  unfold zEllips3DSecular
  field_simp

/-- For positive radii, a non-negative number is a root of the sextic exactly when the
secular sum is one there. -/
theorem zPexVal_eq_zero_iff_secular {rx ry rz : K} (hrx : 0 < rx) (hry : 0 < ry)
    (hrz : 0 < rz) (v : zVec3D K) {l : K} (hl : 0 ≤ l) :
    zPexVal (zEllips3DClosestPex rx ry rz v) l = 0 ↔
      zEllips3DSecular (zSqr (v.x / rx)) (zSqr (v.y / ry)) (zSqr (v.z / rz)) (rx * rx)
        (ry * ry) (rz * rz) l = 1 := by
  have hp : 0 < rx * rx := mul_pos hrx hrx
  have hq : 0 < ry * ry := mul_pos hry hry
  have hr : 0 < rz * rz := mul_pos hrz hrz
  rw [zPexVal_zEllips3DClosestPex, zEllips3DSecular_factor _ _ _ hp hq hr hl]
  have hD : (rx * rx + l) ^ 2 * (ry * ry + l) ^ 2 * (rz * rz + l) ^ 2 ≠ 0 := by positivity
  constructor
  · intro h
    rcases mul_eq_zero.mp h with h | h
    · exact absurd h hD
    · linarith
  · intro h
    rw [h]
    ring

/-- For positive radii and a point with quadric sum below one, the sextic is positive at
every non-negative number: it has no non-negative real root. -/
theorem zPexVal_pos_of_interior {rx ry rz : K} (hrx : 0 < rx) (hry : 0 < ry)
    (hrz : 0 < rz) (v : zVec3D K)
    (hin : zSqr (v.x / rx) + zSqr (v.y / ry) + zSqr (v.z / rz) < 1) {l : K} (hl : 0 ≤ l) :
    0 < zPexVal (zEllips3DClosestPex rx ry rz v) l := by
  have hp : 0 < rx * rx := mul_pos hrx hrx
  have hq : 0 < ry * ry := mul_pos hry hry
  have hr : 0 < rz * rz := mul_pos hrz hrz
  have ha : 0 ≤ zSqr (v.x / rx) := mul_self_nonneg _
  have hb : 0 ≤ zSqr (v.y / ry) := mul_self_nonneg _
  have hc : 0 ≤ zSqr (v.z / rz) := mul_self_nonneg _
  rw [zPexVal_zEllips3DClosestPex, zEllips3DSecular_factor _ _ _ hp hq hr hl]
  have hg := zEllips3DSecular_anti ha hb hc hp hq hr (le_refl 0) hl
  rw [zEllips3DSecular_zero _ _ _ hp hq hr] at hg
  have hD : 0 < (rx * rx + l) ^ 2 * (ry * ry + l) ^ 2 * (rz * rz + l) ^ 2 := by positivity
  exact mul_pos hD (by linarith)

/-- For positive radii and a point other than the centre, the sextic has at most one
non-negative real root. -/
theorem zPexVal_root_unique {rx ry rz : K} (hrx : 0 < rx) (hry : 0 < ry) (hrz : 0 < rz)
    (v : zVec3D K) (hs : 0 < zSqr (v.x / rx) + zSqr (v.y / ry) + zSqr (v.z / rz))
    {l1 l2 : K} (h1 : 0 ≤ l1) (h2 : 0 ≤ l2)
    (e1 : zPexVal (zEllips3DClosestPex rx ry rz v) l1 = 0)
    (e2 : zPexVal (zEllips3DClosestPex rx ry rz v) l2 = 0) : l1 = l2 := by
  have hp : 0 < rx * rx := mul_pos hrx hrx
  have hq : 0 < ry * ry := mul_pos hry hry
  have hr : 0 < rz * rz := mul_pos hrz hrz
  have ha : 0 ≤ zSqr (v.x / rx) := mul_self_nonneg _
  have hb : 0 ≤ zSqr (v.y / ry) := mul_self_nonneg _
  have hc : 0 ≤ zSqr (v.z / rz) := mul_self_nonneg _
  have g1 := (zPexVal_eq_zero_iff_secular hrx hry hrz v h1).mp e1
  have g2 := (zPexVal_eq_zero_iff_secular hrx hry hrz v h2).mp e2
  rcases lt_trichotomy l1 l2 with h | h | h
  · have := zEllips3DSecular_strict ha hb hc hs hp hq hr h1 h
    linarith
  · exact h
  · have := zEllips3DSecular_strict ha hb hc hs hp hq hr h2 h
    linarith

/-- One term of the secular sum at a multiplier `L` with `t s <= L`. -/
theorem zEllips3DSecular_term_le {w t s L : K} (hw : 0 ≤ w) (ht : 0 < t) (hs : 0 < s)
    (hle : t * s ≤ L) : w * t ^ 2 / (t + L) ^ 2 ≤ w / (1 + s) ^ 2 := by
  have hL : 0 ≤ L := le_trans (mul_pos ht hs).le hle
  have d : 0 < (t + L) ^ 2 := by positivity
  have h1s : 0 < (1 + s) ^ 2 := by positivity
  rw [div_le_div_iff₀ d h1s]
  have h0 : 0 ≤ t * (1 + s) := by positivity
  have hsq := pow_le_pow_left₀ h0 (show t * (1 + s) ≤ t + L by linarith) 2
  calc w * t ^ 2 * (1 + s) ^ 2 = w * (t * (1 + s)) ^ 2 := by ring
    _ ≤ w * (t + L) ^ 2 := mul_le_mul_of_nonneg_left hsq hw

/-- A positive number is below the square of its successor. -/
theorem zEllips3DSecular_aux {s : K} (hs : 0 < s) : s / (1 + s) ^ 2 < 1 := by
  have h1s : 0 < (1 + s) ^ 2 := by positivity
  rw [div_lt_one h1s]
  nlinarith [sq_nonneg s]

/-- The secular sum is below one at the multiplier `s (p + q + r)`, where `s` is the
quadric sum of the point. -/
theorem zEllips3DSecular_lt_one {a b c p q r : K} (ha : 0 ≤ a) (hb : 0 ≤ b) (hc : 0 ≤ c)
    (hs : 0 < a + b + c) (hp : 0 < p) (hq : 0 < q) (hr : 0 < r) :
    zEllips3DSecular a b c p q r ((a + b + c) * (p + q + r)) < 1 := by
  have hsq := mul_pos hs hq
  have hsr := mul_pos hs hr
  have hsp := mul_pos hs hp
  have hA := zEllips3DSecular_term_le (L := (a + b + c) * (p + q + r)) ha hp hs
    (by linarith [mul_comm p (a + b + c), mul_add (a + b + c) (p + q) r,
      mul_add (a + b + c) p q])
  have hB := zEllips3DSecular_term_le (L := (a + b + c) * (p + q + r)) hb hq hs
    (by linarith [mul_comm q (a + b + c), mul_add (a + b + c) (p + q) r,
      mul_add (a + b + c) p q])
  have hC := zEllips3DSecular_term_le (L := (a + b + c) * (p + q + r)) hc hr hs
    (by linarith [mul_comm r (a + b + c), mul_add (a + b + c) (p + q) r,
      mul_add (a + b + c) p q])
  have hsum : a / (1 + (a + b + c)) ^ 2 + b / (1 + (a + b + c)) ^ 2
      + c / (1 + (a + b + c)) ^ 2 = (a + b + c) / (1 + (a + b + c)) ^ 2 := by
    ring
  have hlt := zEllips3DSecular_aux hs
  unfold zEllips3DSecular
  linarith

/-- The array `zPexBHSphere x` is an exact result for the sextic of the unit sphere and
the local point (x,0,0). -/
theorem zPexBHSphere_exact (x : K) :
    IsExactRoots (zEllips3DClosestPex (1 : K) 1 1 ⟨x, 0, 0⟩)
      (zPexBHSphere x (zEllips3DClosestPex (1 : K) 1 1 ⟨x, 0, 0⟩)) := by
  intro z
  ext <;>
    simp [zPexCVal, zRootProd, zPexBHSphere, zEllips3DClosestPex, zSqr, zVec3D.e,
      List.finRange, zComplexAdd, zComplexMul, zComplexSub] <;> ring

/-- For positive real radii and an exterior point the sextic has a non-negative real
root. -/
theorem zPexVal_root_exists {rx ry rz : ℝ} (hrx : 0 < rx) (hry : 0 < ry) (hrz : 0 < rz)
    (v : zVec3D ℝ) (hext : 1 < zSqr (v.x / rx) + zSqr (v.y / ry) + zSqr (v.z / rz)) :
    ∃ l : ℝ, 0 ≤ l ∧ zPexVal (zEllips3DClosestPex rx ry rz v) l = 0 := by
  have hp : 0 < rx * rx := mul_pos hrx hrx
  have hq : 0 < ry * ry := mul_pos hry hry
  have hr : 0 < rz * rz := mul_pos hrz hrz
  have ha : 0 ≤ zSqr (v.x / rx) := mul_self_nonneg _
  have hb : 0 ≤ zSqr (v.y / ry) := mul_self_nonneg _
  have hc : 0 ≤ zSqr (v.z / rz) := mul_self_nonneg _
  have hs : 0 < zSqr (v.x / rx) + zSqr (v.y / ry) + zSqr (v.z / rz) := by linarith
  have hL : 0 ≤ (zSqr (v.x / rx) + zSqr (v.y / ry) + zSqr (v.z / rz))
      * (rx * rx + ry * ry + rz * rz) := by positivity
  have hcont : Continuous fun l : ℝ => zPexVal (zEllips3DClosestPex rx ry rz v) l := by
    have e : (fun l : ℝ => zPexVal (zEllips3DClosestPex rx ry rz v) l)
        = fun l : ℝ => (rx * rx + l) ^ 2 * (ry * ry + l) ^ 2 * (rz * rz + l) ^ 2
          - zSqr (v.x / rx) * (rx * rx) ^ 2 * (ry * ry + l) ^ 2 * (rz * rz + l) ^ 2
          - zSqr (v.y / ry) * (ry * ry) ^ 2 * (rx * rx + l) ^ 2 * (rz * rz + l) ^ 2
          - zSqr (v.z / rz) * (rz * rz) ^ 2 * (rx * rx + l) ^ 2 * (ry * ry + l) ^ 2 :=
      funext (zPexVal_zEllips3DClosestPex rx ry rz v)
    rw [e]
    fun_prop
  have h0 : zPexVal (zEllips3DClosestPex rx ry rz v) 0 ≤ 0 := by
    rw [zPexVal_zEllips3DClosestPex, zEllips3DSecular_factor _ _ _ hp hq hr (le_refl 0),
      zEllips3DSecular_zero _ _ _ hp hq hr]
    have hD : 0 ≤ (rx * rx + 0) ^ 2 * (ry * ry + 0) ^ 2 * (rz * rz + 0) ^ 2 := by positivity
    exact mul_nonpos_of_nonneg_of_nonpos hD (by linarith)
  have h1 : 0 ≤ zPexVal (zEllips3DClosestPex rx ry rz v)
      ((zSqr (v.x / rx) + zSqr (v.y / ry) + zSqr (v.z / rz))
        * (rx * rx + ry * ry + rz * rz)) := by
    rw [zPexVal_zEllips3DClosestPex, zEllips3DSecular_factor _ _ _ hp hq hr hL]
    have hg := zEllips3DSecular_lt_one ha hb hc hs hp hq hr
    exact mul_nonneg (by positivity) (by linarith)
  obtain ⟨l, hl, hfl⟩ := intermediate_value_Icc hL hcont.continuousOn ⟨h0, h1⟩
  exact ⟨l, hl.1, hfl⟩

/-- The three squared coordinates of the recovered point, normalized by the radii, are
the terms of the secular sum. -/
theorem zEllips3DSecular_eq_recovered {rx ry rz : K} (hrx : 0 < rx) (hry : 0 < ry)
    (hrz : 0 < rz) (v : zVec3D K) {l : K} (hl : 0 ≤ l) :
    (v.x / (1 + l / rx ^ 2) / rx) ^ 2 + (v.y / (1 + l / ry ^ 2) / ry) ^ 2
        + (v.z / (1 + l / rz ^ 2) / rz) ^ 2
      = zEllips3DSecular (zSqr (v.x / rx)) (zSqr (v.y / ry)) (zSqr (v.z / rz)) (rx * rx)
          (ry * ry) (rz * rz) l := by
  have term : ∀ t w : K, 0 < t →
      (w / (1 + l / t ^ 2) / t) ^ 2 = zSqr (w / t) * (t * t) ^ 2 / (t * t + l) ^ 2 := by
    intro t w ht
    have h1 : t ≠ 0 := ht.ne'
    have h2 : t ^ 2 + l ≠ 0 := by positivity
    have h3 : t * t + l ≠ 0 := by positivity
    unfold zSqr
    field_simp
    ring
  unfold zEllips3DSecular
  rw [term rx v.x hrx, term ry v.y hry, term rz v.z hrz]

/-- The difference between a coordinate and its recovered value is the multiplier times
the gradient component of the recovered value. -/
theorem zEllips3DClosest_recovered_gradient {t l : K} (ht : 0 < t) (hl : 0 ≤ l) (w : K) :
    w - w / (1 + l / t ^ 2) = w / (1 + l / t ^ 2) / t ^ 2 * l := by
  have h1 : t ≠ 0 := ht.ne'
  have h2 : t ^ 2 + l ≠ 0 := by positivity
  field_simp
  ring

/-- For positive radii and a local point with quadric sum below one, `_zEllips3DClosest`
returns `NULL` with every root array whose entries of tiny imaginary part have a real
part that is a root of the sextic. -/
theorem zEllips3DClosest_aligned_none_of_interior (zPexBH : List K → Fin 6 → zComplex K)
    {rx ry rz : K} (hrx : 0 < rx) (hry : 0 < ry) (hrz : 0 < rz) (v : zVec3D K)
    (hin : zSqr (v.x / rx) + zSqr (v.y / ry) + zSqr (v.z / rz) < 1)
    (hroots : ∀ i : Fin 6, zIsTiny (zPexBH (zEllips3DClosestPex rx ry rz v) i).im = true →
      zPexVal (zEllips3DClosestPex rx ry rz v)
        (zPexBH (zEllips3DClosestPex rx ry rz v) i).re = 0) :
    _zEllips3DClosest true zPexBH rx ry rz v = none := by
  cases h : _zEllips3DClosest true zPexBH rx ry rz v with
  | none => rfl
  | some cp =>
    obtain ⟨i, -, hi, ht, -⟩ := (zEllips3DClosest_aligned_eq_some_iff _ _ _ _ _ _).mp h
    have hpos := zPexVal_pos_of_interior hrx hry hrz v hin hi
    rw [hroots i ht] at hpos
    exact absurd hpos (lt_irrefl 0)

end SexticLemmas

/-! ## Claims on the sextic of the ellipsoid -/

section SexticClaims

variable {K : Type} [LinearOrderedField K]

/-- C23: for positive radii rx, ry, rz, a local point v = (x,y,z) and a number l >= 0
that is a root of the sextic whose coefficients `_zEllips3DClosest` builds, the recovered
point cp = (x/(1+l/rx^2), y/(1+l/ry^2), z/(1+l/rz^2)) satisfies
(cp_x/rx)^2 + (cp_y/ry)^2 + (cp_z/rz)^2 = 1, and v - cp is l times
(cp_x/rx^2, cp_y/ry^2, cp_z/rz^2); and cp is the point that `_zEllips3DClosest` returns
with every root array in which the loop stops at an entry that holds l with an imaginary
part within tolerance. -/
theorem zEllips3DClosest_recovered_on_surface {rx ry rz : K} (hrx : 0 < rx) (hry : 0 < ry)
    (hrz : 0 < rz) (v : zVec3D K) {l : K} (hl : 0 ≤ l)
    (hroot : zPexVal (zEllips3DClosestPex rx ry rz v) l = 0) :
    (v.x / (1 + l / rx ^ 2) / rx) ^ 2 + (v.y / (1 + l / ry ^ 2) / ry) ^ 2
      + (v.z / (1 + l / rz ^ 2) / rz) ^ 2 = 1 ∧
    zVec3DSub v ⟨v.x / (1 + l / rx ^ 2), v.y / (1 + l / ry ^ 2), v.z / (1 + l / rz ^ 2)⟩
      = zVec3DMul ⟨v.x / (1 + l / rx ^ 2) / rx ^ 2, v.y / (1 + l / ry ^ 2) / ry ^ 2,
          v.z / (1 + l / rz ^ 2) / rz ^ 2⟩ l ∧
    ∀ (zPexBH : List K → Fin 6 → zComplex K) (i : Fin 6),
      (∀ j : Fin 6, j < i → (zPexBH (zEllips3DClosestPex rx ry rz v) j).re < 0) →
      (zPexBH (zEllips3DClosestPex rx ry rz v) i).re = l →
      zIsTiny (zPexBH (zEllips3DClosestPex rx ry rz v) i).im = true →
      _zEllips3DClosest true zPexBH rx ry rz v
        = some ⟨v.x / (1 + l / rx ^ 2), v.y / (1 + l / ry ^ 2), v.z / (1 + l / rz ^ 2)⟩ := by
  refine ⟨?_, ?_, ?_⟩
  · rw [zEllips3DSecular_eq_recovered hrx hry hrz v hl]
    exact (zPexVal_eq_zero_iff_secular hrx hry hrz v hl).mp hroot
  · simp only [zVec3DSub, zVec3DMul]
    rw [zEllips3DClosest_recovered_gradient hrx hl, zEllips3DClosest_recovered_gradient hry hl,
      zEllips3DClosest_recovered_gradient hrz hl]
  · intro zPexBH i hfirst hre him
    rw [zEllips3DClosest_aligned_eq_some_iff]
    refine ⟨i, hfirst, by rw [hre]; exact hl, him, ?_⟩
    rw [hre, sq, sq, sq]

/-- Witness of C23: the unit sphere, the local point (2,0,0) and the root 1, over the
rationals; the root is held by the entry of index 3 of the array -1, -3, -1, 1, -1, -1,
the first one with a non-negative real part. -/
theorem zEllips3DClosest_recovered_on_surface_witness :
    (0 : ℚ) < 1 ∧ (0 : ℚ) ≤ 1 ∧
    zPexVal (zEllips3DClosestPex (1 : ℚ) 1 1 ⟨2, 0, 0⟩) 1 = 0 ∧
    ((2 : ℚ) / (1 + 1 / 1 ^ 2) / 1) ^ 2 + (0 / (1 + 1 / 1 ^ 2) / 1) ^ 2
      + (0 / (1 + 1 / 1 ^ 2) / 1) ^ 2 = 1 ∧
    zVec3DSub (⟨2, 0, 0⟩ : zVec3D ℚ)
        ⟨2 / (1 + 1 / 1 ^ 2), 0 / (1 + 1 / 1 ^ 2), 0 / (1 + 1 / 1 ^ 2)⟩
      = zVec3DMul ⟨2 / (1 + 1 / 1 ^ 2) / 1 ^ 2, 0 / (1 + 1 / 1 ^ 2) / 1 ^ 2,
          0 / (1 + 1 / 1 ^ 2) / 1 ^ 2⟩ 1 ∧
    _zEllips3DClosest true zPexBHUnitSphere (1 : ℚ) 1 1 ⟨2, 0, 0⟩
      = some ⟨2 / (1 + 1 / 1 ^ 2), 0 / (1 + 1 / 1 ^ 2), 0 / (1 + 1 / 1 ^ 2)⟩ :=
  have hroot : zPexVal (zEllips3DClosestPex (1 : ℚ) 1 1 ⟨2, 0, 0⟩) 1 = 0 := by
    norm_num [zPexVal, zEllips3DClosestPex, zSqr, zVec3D.e]
  have h := zEllips3DClosest_recovered_on_surface (show (0 : ℚ) < 1 from one_pos)
    (show (0 : ℚ) < 1 from one_pos) (show (0 : ℚ) < 1 from one_pos) ⟨2, 0, 0⟩
    (show (0 : ℚ) ≤ 1 from zero_le_one) hroot
  ⟨one_pos, zero_le_one, hroot, h.1, h.2.1,
    h.2.2 zPexBHUnitSphere 3
      (fun j hj => by
        fin_cases j <;> first
          | exact absurd hj (by decide)
          | norm_num [zPexBHUnitSphere])
      rfl (by simp [zPexBHUnitSphere, zIsTiny, zTOL])⟩

/-- C24: for positive real radii and a local point whose quadric sum
(x/rx)^2 + (y/ry)^2 + (z/rz)^2 exceeds one, the sextic whose coefficients
`_zEllips3DClosest` builds has exactly one non-negative real root. -/
theorem zEllips3DClosestPex_unique_nonneg_root {rx ry rz : ℝ} (hrx : 0 < rx) (hry : 0 < ry)
    (hrz : 0 < rz) (v : zVec3D ℝ)
    (hext : 1 < zSqr (v.x / rx) + zSqr (v.y / ry) + zSqr (v.z / rz)) :
    ∃! l : ℝ, 0 ≤ l ∧ zPexVal (zEllips3DClosestPex rx ry rz v) l = 0 := by
  obtain ⟨l, hl, hroot⟩ := zPexVal_root_exists hrx hry hrz v hext
  refine ⟨l, ⟨hl, hroot⟩, fun m hm => ?_⟩
  exact zPexVal_root_unique hrx hry hrz v (by linarith) hm.1 hl hm.2 hroot

/-- C24 (witness): the unit sphere and the local point (2,0,0). -/
theorem zEllips3DClosestPex_unique_nonneg_root_witness :
    ∃! l : ℝ, 0 ≤ l ∧ zPexVal (zEllips3DClosestPex (1 : ℝ) 1 1 ⟨2, 0, 0⟩) l = 0 :=
  zEllips3DClosestPex_unique_nonneg_root one_pos one_pos one_pos ⟨2, 0, 0⟩
    (by norm_num [zSqr])

/-- C28 (the code at the failing input): for the unit sphere at the origin and the point
p = (1 - 10^-13, 0, 0), `zEllips3DPointIsInside` in rim mode answers false, so
`zEllips3DClosest` invokes the solver; the sextic built for p has no non-negative real
root; the array -10^-13, -2 + 10^-13, -1, -1, -1, -1 holds its exact roots; with it
`_zEllips3DClosest` takes the fatal-error branch and returns `NULL`, and
`zEllips3DClosest` answers from the former content (5,0,0) of the buffer `cp`. -/
theorem zEllips3DClosest_fatal_inside_rim :
    zEllips3DPointIsInside (⟨⟨⟨0, 0, 0⟩, zMat3DIdent⟩, ⟨1, 1, 1⟩, 8⟩ : zEllips3D ℝ)
      ⟨1 - 1 / 10 ^ 13, 0, 0⟩ true = false ∧
    (∀ l : ℝ, 0 ≤ l →
      zPexVal (zEllips3DClosestPex (1 : ℝ) 1 1 ⟨1 - 1 / 10 ^ 13, 0, 0⟩) l ≠ 0) ∧
    IsExactRoots (zEllips3DClosestPex (1 : ℝ) 1 1 ⟨1 - 1 / 10 ^ 13, 0, 0⟩)
      (zPexBHSphere (1 - 1 / 10 ^ 13)
        (zEllips3DClosestPex (1 : ℝ) 1 1 ⟨1 - 1 / 10 ^ 13, 0, 0⟩)) ∧
    _zEllips3DClosest true (zPexBHSphere (1 - 1 / 10 ^ 13)) (1 : ℝ) 1 1
      ⟨1 - 1 / 10 ^ 13, 0, 0⟩ = none ∧
    (zEllips3DClosest Real.sqrt true (zPexBHSphere (1 - 1 / 10 ^ 13))
      (⟨⟨⟨0, 0, 0⟩, zMat3DIdent⟩, ⟨1, 1, 1⟩, 8⟩ : zEllips3D ℝ) ⟨1 - 1 / 10 ^ 13, 0, 0⟩
      ⟨5, 0, 0⟩).2 = ⟨5, 0, 0⟩ := by
  have hin : zEllips3DPointIsInside (⟨⟨⟨0, 0, 0⟩, zMat3DIdent⟩, ⟨1, 1, 1⟩, 8⟩ : zEllips3D ℝ)
      ⟨1 - 1 / 10 ^ 13, 0, 0⟩ true = false := by
    have h : ¬ (((1 : ℝ) - 1 / 10 ^ 13) * (1 - 1 / 10 ^ 13) + zTOL < 1) := by
      norm_num [zTOL]
    simp only [zEllips3DPointIsInside, zXform3DInv_ident, zEllips3DRadiusX,
      zEllips3DRadiusY, zEllips3DRadiusZ, zVec3D.e, zSqr, div_one, if_true, mul_zero,
      add_zero]
    rw [if_neg h]
  have hsum : zSqr (((1 : ℝ) - 1 / 10 ^ 13) / 1) + zSqr ((0 : ℝ) / 1) + zSqr ((0 : ℝ) / 1)
      < 1 := by
    norm_num [zSqr]
  have hnone : _zEllips3DClosest true (zPexBHSphere (1 - 1 / 10 ^ 13)) (1 : ℝ) 1 1
      ⟨1 - 1 / 10 ^ 13, 0, 0⟩ = none := by
    rw [zEllips3DClosest_aligned_eq_none_iff]
    left
    intro i
    fin_cases i <;> norm_num [zPexBHSphere]
  refine ⟨hin, fun l hl => ?_, zPexBHSphere_exact _, hnone, ?_⟩
  · exact (zPexVal_pos_of_interior one_pos one_pos one_pos
      (⟨1 - 1 / 10 ^ 13, 0, 0⟩ : zVec3D ℝ) hsum hl).ne'
  · rw [zEllips3DClosest_of_none Real.sqrt true _ _ _ _ hin
      (by simpa [zXform3DInv_ident, zEllips3DRadiusX, zEllips3DRadiusY, zEllips3DRadiusZ,
        zVec3D.e] using hnone), zXform3D_ident]

end SexticClaims

/-! ## Lemmas on the mesh of the ellipsoid -/

section EllipsMeshLemmas

variable {K : Type} [LinearOrderedField K]

/-- One more write changes one slot of the buffer. -/
theorem zPH3DWrite_concat {α : Type} (buf : List α) (log : List (Nat × α)) (w : Nat × α) :
    zPH3DWrite buf (log ++ [w]) = (zPH3DWrite buf log).set w.1 w.2 := by
  simp [zPH3DWrite, List.foldl_append]

/-- Writing does not change the length of the buffer. -/
theorem zPH3DWrite_length {α : Type} (buf : List α) (log : List (Nat × α)) :
    (zPH3DWrite buf log).length = buf.length := by
  induction log using List.reverseRecOn with
  | nil => rfl
  | append_singleton l w ih => rw [zPH3DWrite_concat, List.length_set, ih]

end EllipsMeshLemmas

section EllipsMeshLoops

variable {K : Type} [LinearOrderedField K]

end EllipsMeshLoops

section EllipsMeshCounts

variable {K : Type} [LinearOrderedField K]

/-- When the allocation succeeds, `zEllips3DToPH` returns the two buffers after the
writes of the vertex loops and of the face loops. -/
theorem zEllips3DToPH_eq (zPI : K) (zVec3DCreatePolar : K → K → K → zVec3D K)
    (ellips : zEllips3D K) :
    zEllips3DToPH true zPI zVec3DCreatePolar ellips
      = some ⟨zPH3DWrite
          (List.replicate (zEllips3DDiv ellips * (zEllips3DDiv ellips - 1) + 2).toNat
            ⟨0, 0, 0⟩)
          (zEllips3DToPHVert zPI zVec3DCreatePolar ellips),
        zPH3DWrite
          (List.replicate (zEllips3DDiv ellips * (zEllips3DDiv ellips - 1) * 2).toNat
            (0, 0, 0))
          (zEllips3DToPHFace (zEllips3DDiv ellips))⟩ := rfl

/-- The face buffer of `zEllips3DToPH` for the division count 3. -/
theorem zEllips3DToPHFace_three :
    zPH3DWrite (List.replicate ((3 : Int) * (3 - 1) * 2).toNat (0, 0, 0))
        (zEllips3DToPHFace 3)
      = [(0, 1, 3), (0, 2, 1), (0, 3, 2), (6, 4, 1), (6, 1, 3), (4, 5, 2), (4, 2, 1),
        (5, 6, 3), (5, 3, 2), (4, 7, 6), (5, 7, 4), (6, 7, 5)] := by
  decide

/-- The face buffer of `zEllips3DToPH` for the division count 4. -/
theorem zEllips3DToPHFace_four :
    zPH3DWrite (List.replicate ((4 : Int) * (4 - 1) * 2).toNat (0, 0, 0))
        (zEllips3DToPHFace 4)
      = [(0, 1, 4), (0, 2, 1), (0, 3, 2), (0, 4, 3), (8, 5, 1), (8, 1, 4), (5, 6, 2),
        (5, 2, 1), (6, 7, 3), (6, 3, 2), (7, 8, 4), (7, 4, 3), (12, 9, 5), (12, 5, 8),
        (9, 10, 6), (9, 6, 5), (10, 11, 7), (10, 7, 6), (11, 12, 8), (11, 8, 7),
        (9, 13, 12), (10, 13, 9), (11, 13, 10), (12, 13, 11)] := by
  decide

end EllipsMeshCounts

/-! ## Claims on the mesh of the ellipsoid -/

section EllipsMeshClaims

variable {K : Type} [LinearOrderedField K]

/-- C22 (the code at the failing inputs): for the division counts 3 and 4 the faces
returned by `zEllips3DToPH` are the listed ones. With 3, the arctic face (0,1,3) and the
general face (6,1,3) both traverse their common edge from vertex 1 to vertex 3, and the
antarctic face (4,7,6) and the general face (6,4,1) both traverse their common edge from
vertex 6 to vertex 4; with 4, the arctic face (0,1,4) and the general face (8,1,4) both
traverse the edge from 1 to 4, and the antarctic face (9,13,12) and the general face
(12,9,5) both traverse the edge from 12 to 9. Two general faces that share an edge, such
as (6,4,1) and (6,1,3), traverse it in opposite directions. -/
theorem zEllips3DToPH_polar_fans_reversed (zPI : K)
    (zVec3DCreatePolar : K → K → K → zVec3D K) (f : zFrame3D K) (rad : zVec3D K) :
    (∃ ph : zPH3D K, zEllips3DToPH true zPI zVec3DCreatePolar ⟨f, rad, 3⟩ = some ph ∧
      ph.face = [(0, 1, 3), (0, 2, 1), (0, 3, 2), (6, 4, 1), (6, 1, 3), (4, 5, 2),
        (4, 2, 1), (5, 6, 3), (5, 3, 2), (4, 7, 6), (5, 7, 4), (6, 7, 5)]) ∧
    ((1, 3) ∈ zTri3DEdges (0, 1, 3) ∧ (1, 3) ∈ zTri3DEdges (6, 1, 3)) ∧
    ((6, 4) ∈ zTri3DEdges (4, 7, 6) ∧ (6, 4) ∈ zTri3DEdges (6, 4, 1)) ∧
    ((1, 6) ∈ zTri3DEdges (6, 4, 1) ∧ (6, 1) ∈ zTri3DEdges (6, 1, 3)) ∧
    (∃ ph : zPH3D K, zEllips3DToPH true zPI zVec3DCreatePolar ⟨f, rad, 4⟩ = some ph ∧
      ph.face = [(0, 1, 4), (0, 2, 1), (0, 3, 2), (0, 4, 3), (8, 5, 1), (8, 1, 4),
        (5, 6, 2), (5, 2, 1), (6, 7, 3), (6, 3, 2), (7, 8, 4), (7, 4, 3), (12, 9, 5),
        (12, 5, 8), (9, 10, 6), (9, 6, 5), (10, 11, 7), (10, 7, 6), (11, 12, 8),
        (11, 8, 7), (9, 13, 12), (10, 13, 9), (11, 13, 10), (12, 13, 11)]) ∧
    ((1, 4) ∈ zTri3DEdges (0, 1, 4) ∧ (1, 4) ∈ zTri3DEdges (8, 1, 4)) ∧
    ((12, 9) ∈ zTri3DEdges (9, 13, 12) ∧ (12, 9) ∈ zTri3DEdges (12, 9, 5)) := by
  refine ⟨⟨_, zEllips3DToPH_eq _ _ _, ?_⟩, by decide, by decide, by decide,
    ⟨_, zEllips3DToPH_eq _ _ _, ?_⟩, by decide, by decide⟩
  · simp only [zEllips3DDiv]
    exact zEllips3DToPHFace_three
  · simp only [zEllips3DDiv]
    exact zEllips3DToPHFace_four

end EllipsMeshClaims

end Zeo
